import Mathlib

/-!
KorsanPaint (`src/main.cpp`): editing model.

A shallow embedding of the shape model, the bounded snapshot history and the
input state machine of `src/main.cpp`.

Conventions of the embedding.

* `std::shared_ptr<Shape>` is a `Handle`: the index of the shape object in
  `Editor.heap`.  `std::make_shared` appends a fresh object to the heap; an
  object is never removed from the heap (reclamation is not observable).
* A scene `std::vector<std::shared_ptr<Shape>>` is a `List Handle`; the history
  `h` is a list of scenes (100 of them in the initial state).
* `int` and `char` variables are mathematical integers: the coordinates, sizes
  and indices of the program stay far below `2^31`.
* Undefined behaviour of the C++ program (an index outside a vector, `back()` or
  `pop_back()` on an empty container, the use of an object through a pointer of
  another dynamic type) is the result `none`.
* Floating-point computations and the font metrics are not computed here: they
  are fields of `Env`.
-/

namespace Paint

/-! ## Shapes -/

/-- Index of a shape object in the heap (a non-null `std::shared_ptr<Shape>`). -/
abbrev Handle := Nat

/-- One revision of the drawing: `std::vector<std::shared_ptr<Shape>>`. -/
abbrev Scene := List Handle

/-- Fields that the derived structs add to `Shape` (lines 62-68, 100-106,
138-144, 188-194, 228-236, 282-289).  The string of a `Text` is its list of
bytes; the texture of an `Image` is an identifier. -/
inductive Variant
  | Rect (w h : Int)
  | Ellipse (rx ry : Int)
  | Arrow (dx dy : Int)
  | Grid (w h : Int)
  | Text (t : List Nat) (w h : Int)
  | Image (w h : Int) (i : Nat)
  deriving DecidableEq

/-- A shape object: `struct Shape` (lines 45-54) with the fields of its dynamic type. -/
structure Shape where
  x : Int
  y : Int
  c : Int
  m : Int
  t : Int
  v : Variant
  deriving DecidableEq

/-- What the embedding takes from outside the program: the metrics of the
loaded font and the floating-point expressions of lines 116-117, 131-132 and
178-182. -/
structure Env where
  /-- The pair `(w, h)` that `TTF_SizeUTF8(font, t.c_str(), &w, &h)` stores. -/
  sizeUTF8 : List Nat → Int × Int
  /-- The value of `r *= 1.414` for an `int r`. -/
  scale1414 : Int → Int
  /-- The test `hypot(a * 1.0 / b, c * 1.0 / d) >= 1`. -/
  hypotGe1 : Int → Int → Int → Int → Bool
  /-- The test `hypot(a * 1.0 / b, c * 1.0 / d) <= 1`. -/
  hypotLe1 : Int → Int → Int → Int → Bool
  /-- The test `nom / hypot(a, b) > bound` for an `int nom` and an `int bound`. -/
  distGt : Int → Int → Int → Int → Bool
  /-- The value of `int d = hypot(a, b)`. -/
  hypotInt : Int → Int → Int

/-- Constructor `Rect::Rect` (lines 70-75) after `Shape::Shape` (lines 56-59, `t = 5`). -/
def Rect.ctor (cci cmi x1 y1 x2 y2 : Int) : Shape :=
  let x := if x1 > x2 then x2 else x1
  let y := if y1 > y2 then y2 else y1
  { x := x, y := y, c := cci, m := cmi, t := 5,
    v := .Rect (x1 - x + x2 - x) (y1 - y + y2 - y) }

/-- Constructor `Ellipse::Ellipse` (lines 108-119). -/
def Ellipse.ctor (env : Env) (cci cmi x1 y1 x2 y2 : Int) : Shape :=
  let rx := |x2 - x1|
  let ry := |y2 - y1|
  { x := x1, y := y1, c := cci, m := cmi, t := 5,
    v := if 10 * rx < ry then .Ellipse ry ry
         else if 10 * ry < rx then .Ellipse rx rx
         else .Ellipse (env.scale1414 rx) (env.scale1414 ry) }

/-- Constructor `Arrow::Arrow` (lines 146-155). -/
def Arrow.ctor (cci cmi x1 y1 x2 y2 : Int) : Shape :=
  let dx := x2 - x1
  let dy := y2 - y1
  let rx := |dx|
  let ry := |dy|
  { x := x1, y := y1, c := cci, m := cmi, t := 5,
    v := if 10 * rx < ry then .Arrow 0 dy
         else if 10 * ry < rx then .Arrow dx 0
         else .Arrow dx dy }

/-- Constructor `Grid::Grid` (lines 196-201); `/` of C++ truncates. -/
def Grid.ctor (cci cmi x1 y1 x2 y2 : Int) : Shape :=
  let x := if x1 > x2 then x2 else x1
  let y := if y1 > y2 then y2 else y1
  { x := x, y := y, c := cci, m := cmi, t := 5,
    v := .Grid ((x2 - x + x1 - x).tdiv 100 * 100) ((y2 - y + y1 - y).tdiv 60 * 60) }

/-- Constructor `Text::Text` (lines 238-243): `init` is the byte stored in the string. -/
def Text.ctor (env : Env) (cci cmi : Int) (init : Nat) (x1 y1 : Int) : Shape :=
  { x := x1 - 15, y := y1 - (env.sizeUTF8 [init]).2 + 10, c := cci, m := cmi, t := 5,
    v := .Text [init] (env.sizeUTF8 [init]).1 (env.sizeUTF8 [init]).2 }

/-- The index `cii` as `operator[]` and the comparison with `imgs.size()` see
it: a `char` converted to the 64-bit `size_t`. -/
def sizeT (i : Int) : Nat := (i % 2 ^ 64).toNat

/-- Constructor `Image::Image` (lines 291-297); `imgs[cii]` outside the vector is undefined. -/
def Image.ctor (imgs : List Nat) (cii cci cmi x1 y1 x2 y2 : Int) : Option Shape :=
  let x := if x1 > x2 then x2 else x1
  let y := if y1 > y2 then y2 else y1
  match imgs[sizeT cii]? with
  | none => none
  | some tex =>
    some { x := x, y := y, c := cci, m := cmi, t := 5,
           v := .Image (x1 - x + x2 - x) (y1 - y + y2 - y) tex }

/-- Hit-test `Rect::in` (lines 88-94) and `Image::in` (lines 309-315), which is the same text. -/
def Rect.in_ (x y w h t cx cy : Int) : Bool :=
  if cy ≥ y ∧ cy ≤ y + t ∧ cx ≥ x ∧ cx ≤ x + w then true
  else if cx ≥ x ∧ cx ≤ x + t ∧ cy ≥ y ∧ cy ≤ y + h then true
  else if cx ≥ x + w - t ∧ cx ≤ x + w ∧ cy ≥ y ∧ cy ≤ y + h then true
  else if cy ≥ y + h - t ∧ cy ≤ y + h ∧ cx ≥ x ∧ cx ≤ x + w then true
  else false

/-- Hit-test `Ellipse::in` (lines 130-134). -/
def Ellipse.in_ (env : Env) (x y rx ry t cx cy : Int) : Bool :=
  let greaterThanMin := env.hypotGe1 (cx - x) (rx - t) (cy - y) (ry - t)
  let lessThanMax := env.hypotLe1 (cx - x) rx (cy - y) ry
  greaterThanMin && lessThanMax

/-- Hit-test `Arrow::in` (lines 176-184). -/
def Arrow.in_ (env : Env) (x y dx dy t cx cy : Int) : Bool :=
  let nom := |dy * cx - dx * cy + (x + dx) * y - (y + dy) * x|
  if env.distGt nom dy dx (2 * t) then false
  else
    let distCA := env.hypotInt (x - cx) (y - cy)
    let distCB := env.hypotInt (x + dx - cx) (y + dy - cy)
    let distAB := env.hypotInt dx dy
    decide (distCA < distAB ∧ distCB < distAB)

/-- Hit-test `Grid::in` (lines 219-225); `%` of C++ truncates. -/
def Grid.in_ (x y w h t cx cy : Int) : Bool :=
  let xal := cx - x
  let yal := cy - y
  if xal < 0 ∨ xal > w + t ∨ yal < 0 ∨ yal > h + t then false
  else if xal.tmod 100 < t ∨ yal.tmod 60 < t then true
  else false

/-- Hit-test `Text::in` (lines 274-277). -/
def Text.in_ (x y w h cx cy : Int) : Bool :=
  if cx > x ∧ cx < x + w ∧ cy > y ∧ cy < y + h then true else false

/-- The virtual call `ptr->in(cx, cy)`. -/
def Shape.in_ (env : Env) (s : Shape) (cx cy : Int) : Bool :=
  match s.v with
  | .Rect w h => Rect.in_ s.x s.y w h s.t cx cy
  | .Ellipse rx ry => Ellipse.in_ env s.x s.y rx ry s.t cx cy
  | .Arrow dx dy => Arrow.in_ env s.x s.y dx dy s.t cx cy
  | .Grid w h => Grid.in_ s.x s.y w h s.t cx cy
  | .Text _ w h => Text.in_ s.x s.y w h cx cy
  | .Image w h _ => Rect.in_ s.x s.y w h s.t cx cy

/-- Method `Text::add` (lines 245-248) through a `Text*` obtained by a cast: undefined
when the object is not a `Text`. -/
def Text.add (env : Env) (c : List Nat) (s : Shape) : Option Shape :=
  match s.v with
  | .Text t _ _ =>
    some { s with v := .Text (t ++ c) (env.sizeUTF8 (t ++ c)).1 (env.sizeUTF8 (t ++ c)).2 }
  | _ => none

/-- Method `Text::backspace` (lines 250-253) through a `Text*` obtained by a cast:
`pop_back()` on an empty string is undefined. -/
def Text.backspace (env : Env) (s : Shape) : Option Shape :=
  match s.v with
  | .Text t _ _ =>
    if t = [] then none
    else some { s with v := .Text t.dropLast (env.sizeUTF8 t.dropLast).1
                                  (env.sizeUTF8 t.dropLast).2 }
  | _ => none

/-! ## Editor state -/

/-- The struct `MouseStatus` (lines 371-374). -/
structure MouseStatus where
  x : Int
  y : Int
  px : Int
  py : Int
  typing : Bool
  deleting : Bool
  deriving DecidableEq

/-- The global variables of the program (lines 32-42, 322-327, 376) and the heap
of shape objects. -/
structure Editor where
  heap : List Shape
  h : List Scene
  hi : Int
  hl : Int
  rerender_requested : Bool
  preview_requested : Bool
  preview_shape : Nat
  cci : Int
  cmi : Int
  cii : Int
  imgs : List Nat
  ms : MouseStatus
  deriving DecidableEq

/-- The state at program start: `h(100)`, `hi = 0`, `hl = 0`, `cci = 3`,
`rerender_requested = 1`, `ms = {0,0,0,0,0,0}`. -/
def initial : Editor :=
  { heap := [], h := List.replicate 100 [], hi := 0, hl := 0,
    rerender_requested := true, preview_requested := false, preview_shape := 0,
    cci := 3, cmi := 0, cii := 0, imgs := [],
    ms := { x := 0, y := 0, px := 0, py := 0, typing := false, deleting := false } }

/-! ## History -/

/-- The scene `h[i]` for an `int i`; outside the vector it is undefined. -/
def slotAt (h : List Scene) (i : Int) : Option Scene :=
  if 0 ≤ i then h[i.toNat]? else none

/-- Assignment of a whole scene to `h[i]` (after `slotAt h i` succeeded). -/
def setSlot (h : List Scene) (i : Int) (sc : Scene) : List Scene :=
  h.set i.toNat sc

/-- Lines 649-662: `n` iterations of the compaction loop from index `i` on.
One iteration releases and clears `h[i]`, moves the handles of `h[50+i]` into
it and clears `h[50+i]`. -/
def compactLoop : Nat → Int → List Scene → Option (List Scene)
  | 0, _, h => some h
  | n + 1, i, h =>
    match slotAt h i, slotAt h (50 + i) with
    | some _, some src => compactLoop n (i + 1) (setSlot (setSlot h i src) (50 + i) [])
    | _, _ => none

/-- Lines 669-676: `n` iterations of the loop that clears the redo branch,
from index `i` on. -/
def clearLoop : Nat → Int → List Scene → Option (List Scene)
  | 0, _, h => some h
  | n + 1, i, h =>
    match slotAt h i with
    | some _ => clearLoop n (i + 1) (setSlot h i [])
    | none => none

/-- Lines 681-683: every handle of `h[hi]` is pushed to the back of `h[hi+1]`
(`h[hi+1]` is only touched when `h[hi]` has an element). -/
def copyCurrent (h : List Scene) (hi : Int) : Option (List Scene) :=
  match slotAt h hi with
  | none => none
  | some [] => some h
  | some (p :: ps) =>
    match slotAt h (hi + 1) with
    | none => none
    | some nxt => some (setSlot h (hi + 1) (nxt ++ (p :: ps)))

/-- Lines 648-665 of `dupeCurrent`: the boundary condition. -/
def dupeCompact (s : Editor) : Option Editor :=
  if s.hi = 99 then
    match compactLoop 50 0 s.h with
    | none => none
    | some h1 => some { s with h := h1, hi := s.hi - 50, hl := s.hl - 50 }
  else some s

/-- Lines 668-678 of `dupeCurrent`: push after ctrl+z. -/
def dupeTruncate (s : Editor) : Option Editor :=
  if s.hi < s.hl then
    match clearLoop (s.hl - s.hi).toNat (s.hi + 1) s.h with
    | none => none
    | some h2 => some { s with h := h2, hl := s.hi }
  else some s

/-- Lines 681-684 of `dupeCurrent`: the copy and `hi++; hl++`. -/
def dupeCopy (s : Editor) : Option Editor :=
  match copyCurrent s.h s.hi with
  | none => none
  | some h3 => some { s with h := h3, hi := s.hi + 1, hl := s.hl + 1 }

/-- The function `dupeCurrent` (lines 645-685): boundary step, truncation, copy. -/
def dupeCurrent (s : Editor) : Option Editor :=
  ((dupeCompact s).bind dupeTruncate).bind dupeCopy

/-- The statement `h[hi].push_back(std::make_shared<T>(...))` for the
constructed object `sh`. -/
def pushBack (sh : Shape) (s : Editor) : Option Editor :=
  match slotAt s.h s.hi with
  | none => none
  | some cur =>
    some { s with heap := s.heap ++ [sh], h := setSlot s.h s.hi (cur ++ [s.heap.length]) }

/-! ## Input state machine -/

/-- Values of the SDL2 scancodes and key codes that `update` and
`pushToHistory` compare with (`SDL_scancode.h`, `SDL_keycode.h`). -/
def SDL_SCANCODE_A : Nat := 4
def SDL_SCANCODE_D : Nat := 7
def SDL_SCANCODE_E : Nat := 8
def SDL_SCANCODE_G : Nat := 10
def SDL_SCANCODE_I : Nat := 12
def SDL_SCANCODE_R : Nat := 21
def SDL_SCANCODE_V : Nat := 25
def SDL_SCANCODE_Y : Nat := 28
def SDL_SCANCODE_Z : Nat := 29
def SDL_SCANCODE_RETURN : Nat := 40
def SDL_SCANCODE_GRAVE : Nat := 53
def SDL_SCANCODE_DELETE : Nat := 76
def SDL_SCANCODE_KP_1 : Nat := 89
def SDL_SCANCODE_KP_9 : Nat := 97
def SDLK_BACKSPACE : Int := 8
def SDLK_SPACE : Int := 32
def SDLK_0 : Int := 48
def SDLK_7 : Int := 55
def SDLK_z : Int := 122

/-- The events that the `switch` of `update` handles (lines 441-602), with the
fields it reads.  `SDL_QUIT` ends the process and is not an input of the model.
`ctrl` is `event.key.keysym.mod & KMOD_CTRL`; `clipboard` is the text that
`SDL_GetClipboardText()` returns when the key is released. -/
inductive Event
  | WINDOWEVENT
  | MOUSEMOTION (x y : Int)
  | KEYDOWN (rep : Bool) (scancode : Nat)
  | KEYUP (scancode : Nat) (sym : Int) (ctrl : Bool) (clipboard : List Nat)
  | TEXTINPUT (text : List Nat)
  deriving DecidableEq

/-- The idiom `Text* t = (Text*) (h[hi].back().get()); t->f(...)` of lines
513-514, 520-521, 530-531 and 597-598.  `back()` on an empty scene is
undefined. -/
def onBackText (f : Shape → Option Shape) (s : Editor) : Option Editor :=
  match slotAt s.h s.hi with
  | none => none
  | some cur =>
    match cur.getLast? with
    | none => none
    | some p =>
      match s.heap[p]? with
      | none => none
      | some sh =>
        match f sh with
        | none => none
        | some sh1 => some { s with heap := s.heap.set p sh1 }

/-- Lines 463-468: every handle of the scene whose shape is hit by `(x, y)` is
replaced by `nullptr` (here `none`). -/
def markHits (env : Env) (heap : List Shape) (x y : Int) :
    Scene → Option (List (Option Handle))
  | [] => some []
  | p :: ps =>
    match heap[p]? with
    | none => none
    | some sh =>
      match markHits env heap x y ps with
      | none => none
      | some r => some ((if sh.in_ env x y then none else some p) :: r)

/-- Lines 459-474: the delete sweep over `h[hi]` at the cursor `(ms.x, ms.y)`;
`std::remove` and `erase` drop the null handles when one was found. -/
def sweep (env : Env) (s : Editor) : Option Editor :=
  match slotAt s.h s.hi with
  | none => none
  | some cur =>
    match markHits env s.heap s.ms.x s.ms.y cur with
    | none => none
    | some marked =>
      if marked.any Option.isNone then
        some { s with h := setSlot s.h s.hi (marked.filterMap id),
                      rerender_requested := true }
      else some s

/-- The `case SDL_MOUSEMOTION` of `update` (lines 455-479). -/
def onMouseMotion (env : Env) (ex ey : Int) (s : Editor) : Option Editor :=
  let s1 := { s with ms := { s.ms with x := ex, y := ey, typing := false } }
  match (if s1.ms.deleting then sweep env s1 else some s1) with
  | none => none
  | some s2 =>
    some (if s2.preview_requested then { s2 with rerender_requested := true } else s2)

/-- The `case SDL_KEYDOWN` of `update` (lines 482-493); the second component is `saveMousePos`. -/
def onKeyDown (rep : Bool) (scancode : Nat) (st : Editor × Bool) : Option (Editor × Bool) :=
  if rep then some st
  else
    let s := st.1
    match (if ¬ s.ms.typing ∧ scancode = SDL_SCANCODE_D
           then dupeCurrent { s with ms := { s.ms with deleting := true } }
           else some s) with
    | none => none
    | some s1 =>
      some (if ¬ s1.ms.typing
            then { s1 with preview_requested := true, preview_shape := scancode }
            else s1, true)

/-- The function `pushToHistory` (lines 616-641). -/
def pushToHistory (env : Env) (scancode : Nat) (s : Editor) : Option Editor :=
  if scancode = SDL_SCANCODE_R then
    (dupeCurrent s).bind fun s1 =>
      pushBack (Rect.ctor s1.cci s1.cmi s1.ms.px s1.ms.py s1.ms.x s1.ms.y) s1
  else if scancode = SDL_SCANCODE_E then
    (dupeCurrent s).bind fun s1 =>
      pushBack (Ellipse.ctor env s1.cci s1.cmi s1.ms.px s1.ms.py s1.ms.x s1.ms.y) s1
  else if scancode = SDL_SCANCODE_A then
    (dupeCurrent s).bind fun s1 =>
      pushBack (Arrow.ctor s1.cci s1.cmi s1.ms.px s1.ms.py s1.ms.x s1.ms.y) s1
  else if scancode = SDL_SCANCODE_G then
    (dupeCurrent s).bind fun s1 =>
      pushBack (Grid.ctor s1.cci s1.cmi s1.ms.px s1.ms.py s1.ms.x s1.ms.y) s1
  else if scancode = SDL_SCANCODE_I then
    if sizeT s.cii ≥ s.imgs.length then some s
    else
      (dupeCurrent s).bind fun s1 =>
        (Image.ctor s1.imgs s1.cii s1.cci s1.cmi s1.ms.px s1.ms.py s1.ms.x s1.ms.y).bind
          fun sh => pushBack sh s1
  else some s

/-- Lines 589-591, the end of `case SDL_KEYUP`. -/
def endKeyUp (s : Editor) : Editor :=
  if s.ms.deleting then { s with ms := { s.ms with deleting := false } } else s

/-- The assignment `rerender_requested = 1`. -/
def rerender (s : Editor) : Editor := { s with rerender_requested := true }

/-- Lines 498-502: the Ctrl+Z branch. -/
def keyUndo (s : Editor) : Editor :=
  { s with hi := if s.hi ≠ 0 then s.hi - 1 else s.hi,
           rerender_requested := true, ms := { s.ms with typing := false } }

/-- Lines 503-507: the Ctrl+Y branch. -/
def keyRedo (s : Editor) : Editor :=
  { s with hi := if s.hi < s.hl then s.hi + 1 else s.hi,
           rerender_requested := true, ms := { s.ms with typing := false } }

/-- Lines 508-526: the Ctrl+V branch, `cbd` being the clipboard text. -/
def keyPaste (env : Env) (cbd : List Nat) (s : Editor) : Option Editor :=
  if cbd ≠ [] then
    if s.ms.typing then
      (onBackText (Text.add env cbd) s).map rerender
    else
      ((dupeCurrent { s with ms := { s.ms with typing := true } }).bind fun s1 =>
        (pushBack (Text.ctor env s1.cci s1.cmi 32 s1.ms.x s1.ms.y) s1).bind
          (onBackText (Text.add env cbd))).map rerender
  else some s

/-- Lines 534-541: the Delete branch. -/
def keyDelete (s : Editor) : Option Editor :=
  (dupeCurrent s).bind fun s1 =>
    match slotAt s1.h s1.hi with
    | none => none
    | some _ => some { s1 with h := setSlot s1.h s1.hi [], rerender_requested := true }

/-- Lines 543-550: Enter when not typing. -/
def keyRestyle (s : Editor) : Option Editor :=
  match slotAt s.h s.hi with
  | none => none
  | some cur =>
    match cur.getLast? with
    | none => some (rerender s)
    | some p =>
      match s.heap[p]? with
      | none => none
      | some sh =>
        some (rerender { s with heap := s.heap.set p { sh with m := s.cmi, c := s.cci } })

/-- Lines 551-559: Enter when typing, for a current scene of size `n > 0`
(measured before the commit). -/
def keyNewLine (env : Env) (n : Nat) (s : Editor) : Option Editor :=
  (dupeCurrent s).bind fun s1 =>
    match slotAt s1.h s1.hi with
    | none => none
    | some cur1 =>
      match cur1[n - 1]? with
      | none => none
      | some p =>
        match s1.heap[p]? with
        | none => none
        | some sh =>
          (pushBack (Text.ctor env s1.cci s1.cmi SDLK_SPACE.toNat s1.ms.x (sh.y + 100)) s1).map
            rerender

/-- Lines 574-583: the cursor has not moved since the last saved position. -/
def keyTap (env : Env) (sym : Int) (s : Editor) : Option Editor :=
  if s.ms.typing = false ∧ sym ≤ SDLK_z then
    ((dupeCurrent { s with ms := { s.ms with typing := true } }).bind fun s1 =>
      pushBack (Text.ctor env s1.cci s1.cmi (sym % 256).toNat s1.ms.x s1.ms.y) s1).map rerender
  else some (rerender s)

/-- The `if`/`else if` chain of `case SDL_KEYUP` (lines 498-591), after line
496.  Every branch ends with lines 589-591 except the `break` of line 553. -/
def keyUpChain (env : Env) (scancode : Nat) (sym : Int) (ctrl : Bool) (cbd : List Nat)
    (s : Editor) : Option Editor :=
  if scancode = SDL_SCANCODE_Z ∧ ctrl then some (endKeyUp (keyUndo s))
  else if scancode = SDL_SCANCODE_Y ∧ ctrl then some (endKeyUp (keyRedo s))
  else if scancode = SDL_SCANCODE_V ∧ ctrl then (keyPaste env cbd s).map endKeyUp
  else if s.ms.typing ∧ sym = SDLK_BACKSPACE then
    ((onBackText (Text.backspace env) s).map rerender).map endKeyUp
  else if scancode = SDL_SCANCODE_DELETE then (keyDelete s).map endKeyUp
  else if ¬ s.ms.typing ∧ scancode = SDL_SCANCODE_RETURN then (keyRestyle s).map endKeyUp
  else if s.ms.typing ∧ scancode = SDL_SCANCODE_RETURN then
    match slotAt s.h s.hi with
    | none => none
    | some cur =>
      if cur.length = 0 then some s
      else (keyNewLine env cur.length s).map endKeyUp
  else if ¬ s.ms.typing ∧ scancode = SDL_SCANCODE_GRAVE then
    some (endKeyUp (rerender { s with cmi := (s.cmi + 1).tmod 3 }))
  else if ¬ s.ms.typing ∧ sym ≥ SDLK_0 ∧ sym ≤ SDLK_7 then
    some (endKeyUp (rerender { s with cci := sym - SDLK_0 }))
  else if ¬ s.ms.typing ∧ scancode ≥ SDL_SCANCODE_KP_1 ∧ scancode ≤ SDL_SCANCODE_KP_9 then
    some (endKeyUp (rerender { s with cii := (scancode : Int) - SDL_SCANCODE_KP_1 - 2 }))
  else if s.ms.px = s.ms.x ∧ s.ms.py = s.ms.y then (keyTap env sym s).map endKeyUp
  else ((pushToHistory env scancode s).map rerender).map endKeyUp

/-- The `case SDL_KEYUP` of `update` (lines 495-592): `preview_requested = 0`, then the chain. -/
def onKeyUp (env : Env) (scancode : Nat) (sym : Int) (ctrl : Bool) (cbd : List Nat)
    (s : Editor) : Option Editor :=
  keyUpChain env scancode sym ctrl cbd { s with preview_requested := false }

/-- The `case SDL_TEXTINPUT` of `update` (lines 595-601). -/
def onTextInput (env : Env) (text : List Nat) (s : Editor) : Option Editor :=
  if s.ms.typing then (onBackText (Text.add env text) s).map rerender else some s

/-- One iteration of the `while (SDL_PollEvent(&event))` loop of `update`: the
editor and the local `saveMousePos`. -/
def handleEvent (env : Env) (e : Event) (st : Editor × Bool) : Option (Editor × Bool) :=
  match e with
  | .WINDOWEVENT => some (rerender st.1, st.2)
  | .MOUSEMOTION ex ey => (onMouseMotion env ex ey st.1).map fun s => (s, st.2)
  | .KEYDOWN rep scancode => onKeyDown rep scancode st
  | .KEYUP scancode sym ctrl cbd => (onKeyUp env scancode sym ctrl cbd st.1).map fun s => (s, st.2)
  | .TEXTINPUT text => (onTextInput env text st.1).map fun s => (s, st.2)

/-- The polling loop of `update` (lines 439-603) over the pending events. -/
def pollLoop (env : Env) : List Event → Editor × Bool → Option (Editor × Bool)
  | [], st => some st
  | e :: es, st =>
    match handleEvent env e st with
    | none => none
    | some st1 => pollLoop env es st1

/-- Lines 605-608: `if (saveMousePos) { ms.px = ms.x; ms.py = ms.y; }`. -/
def saveMouse (st : Editor × Bool) : Editor :=
  if st.2 then { st.1 with ms := { st.1.ms with px := st.1.ms.x, py := st.1.ms.y } } else st.1

/-- The function `update` (lines 434-611) on the list of pending events. -/
def update (env : Env) (evs : List Event) (s : Editor) : Option Editor :=
  (pollLoop env evs (s, false)).map saveMouse

/-- The effect of `render` (lines 381-430) on the editor state: drawing changes
no variable but `rerender_requested`. -/
def render (s : Editor) : Editor := { s with rerender_requested := false }

/-- One iteration of the main loop (lines 360-364): `update` on the pending
events, then `render` when it was requested. -/
def frame (env : Env) (evs : List Event) (s : Editor) : Option Editor :=
  (update env evs s).map fun s1 => if s1.rerender_requested then render s1 else s1

/-- The effect of the timer callback `load_images` (lines 692-749) on the editor
state.  `single` is the texture and the size of the decoded file of the
`/tmp` branch (lines 701-715), when that branch is taken and the file decodes;
`dir` lists the textures of the directory entries that decode (lines 737-746). -/
def load_images (single : Option (Nat × Int × Int)) (dir : List Nat) (s : Editor) :
    Option Editor :=
  match single with
  | none => some { s with imgs := s.imgs ++ dir }
  | some (tex, screenW, screenH) =>
    (dupeCurrent { s with imgs := s.imgs ++ [tex] }).bind fun s1 =>
      (Image.ctor s1.imgs s1.cii s1.cci s1.cmi 0 0 screenW screenH).bind fun sh =>
        (pushBack sh s1).map fun s2 =>
          { s2 with rerender_requested := true, cmi := 1, imgs := s2.imgs ++ dir }

/-- States of the running program: the initial state, and every state that a
main-loop iteration or the timer callback (taken as one indivisible step
between two iterations) produces from a reachable state without undefined
behaviour. -/
inductive Reachable (env : Env) : Editor → Prop
  | init : Reachable env initial
  | frame (evs : List Event) (s s1 : Editor) :
      Reachable env s → frame env evs s = some s1 → Reachable env s1
  | loader (single : Option (Nat × Int × Int)) (dir : List Nat) (s s1 : Editor) :
      Reachable env s → load_images single dir s = some s1 → Reachable env s1

/-- An instance of `Env` for evaluating the model on concrete inputs: a font
whose glyphs are 20 wide and 40 high, and the real-number readings of the
floating-point expressions for non-zero denominators (rounded down where the
program stores an `int`). -/
def env0 : Env :=
  { sizeUTF8 := fun t => (20 * (t.length : Int), 40)
    scale1414 := fun r => (r * 1414).tdiv 1000
    hypotGe1 := fun a b c d => decide ((b * d) ^ 2 ≤ (a * d) ^ 2 + (c * b) ^ 2)
    hypotLe1 := fun a b c d => decide ((a * d) ^ 2 + (c * b) ^ 2 ≤ (b * d) ^ 2)
    distGt := fun nom a b bound => decide (0 ≤ bound → nom ^ 2 > bound ^ 2 * (a ^ 2 + b ^ 2))
    hypotInt := fun a b => (Nat.sqrt (a ^ 2 + b ^ 2).toNat : Int) }


/-! ## Invariants and auxiliary notions of the statements -/

/-- Invariant of the history: 100 slots, ordered cursors inside the array, and
nothing stored above `hl`. -/
structure HistInv (s : Editor) : Prop where
  len : s.h.length = 100
  hi0 : 0 ≤ s.hi
  hihl : s.hi ≤ s.hl
  hl99 : s.hl ≤ 99
  above : ∀ j : Nat, s.hl < (j : Int) → j < 100 → s.h[j]? = some []

/-- Invariant of the whole editor state: the history invariant, no handle
twice in a scene, and every handle of a scene refers to an object of the heap. -/
structure Inv (s : Editor) : Prop where
  hist : HistInv s
  nodup : ∀ sc ∈ s.h, sc.Nodup
  valid : ∀ sc ∈ s.h, ∀ p ∈ sc, p < s.heap.length

/-- Whether the shape behind the handle `p` is hit by the point `(x, y)`. -/
def hitAt (env : Env) (heap : List Shape) (x y : Int) (p : Handle) : Bool :=
  match heap[p]? with
  | some sh => sh.in_ env x y
  | none => false

/-- Iteration: `n` successive applications of a step that may be undefined. -/
def iterOpt (f : Editor → Option Editor) : Nat → Editor → Option Editor
  | 0, s => some s
  | n + 1, s => (f s).bind (iterOpt f n)

/-- Successive iterations of the main loop, one per list of pending events. -/
def frames (env : Env) : List (List Event) → Editor → Option Editor
  | [], s => some s
  | evs :: rest, s => (frame env evs s).bind (frames env rest)

/-- The shape objects behind the handles of a scene. -/
def deref (heap : List Shape) : Scene → Option (List Shape)
  | [] => some []
  | p :: ps =>
    match heap[p]?, deref heap ps with
    | some sh, some r => some (sh :: r)
    | _, _ => none

/-- The shapes of the current scene `h[hi]`, in drawing order: what `render`
draws (lines 386-388). -/
def current (s : Editor) : Option (List Shape) :=
  match slotAt s.h s.hi with
  | none => none
  | some cur => deref s.heap cur

/-- A state reached from the initial one by dragging a rectangle from `(0, 0)`
to `(300, 200)` with the key R and undoing it. -/
def stateAfterUndo : Editor :=
  (frames env0 [[.KEYDOWN false SDL_SCANCODE_R], [.MOUSEMOTION 300 200],
    [.KEYUP SDL_SCANCODE_R 114 false []], [.KEYUP SDL_SCANCODE_Z 122 true []]] initial).getD initial

/-- A state with `deleting` set: a rectangle dragged from `(0, 0)` to
`(300, 200)` with the key R, then the key D pressed. -/
def stateDeleting : Editor :=
  (frames env0 [[.KEYDOWN false SDL_SCANCODE_R], [.MOUSEMOTION 300 200],
    [.KEYUP SDL_SCANCODE_R 114 false []], [.KEYDOWN false SDL_SCANCODE_D]] initial).getD initial

/-- A state that is not typing and whose current scene holds one rectangle: a
drag of R from `(0, 0)` to `(300, 200)`, then the colour key 2. -/
def stateWithRect : Editor :=
  (frames env0 [[.KEYDOWN false SDL_SCANCODE_R], [.MOUSEMOTION 300 200],
    [.KEYUP SDL_SCANCODE_R 114 false []], [.KEYUP 31 50 false []]] initial).getD initial

/-- A state in typing mode: the key R tapped at the cursor `(0, 0)`, which
starts a Text holding the byte `r`. -/
def stateTyping : Editor :=
  (frames env0 [[.KEYDOWN false SDL_SCANCODE_R], [.KEYUP SDL_SCANCODE_R 114 false []]]
    initial).getD initial

/-- Whether a key is a letter key: by its position (the scancodes of A..Z) or
by its key code (`SDLK_a`..`SDLK_z`). -/
def letterKey (scancode : Nat) (sym : Int) : Bool :=
  (decide (SDL_SCANCODE_A ≤ scancode) && decide (scancode ≤ SDL_SCANCODE_Z)) ||
  (decide (97 ≤ sym) && decide (sym ≤ SDLK_z))

/-- The result of handling the release of the digit key 9 (scancode 38, key
code 57) in the initial state. -/
def stateAfterNine : Editor × Bool :=
  (handleEvent env0 (.KEYUP 38 57 false []) (initial, false)).getD (initial, false)

/-! ## Colours, bounding boxes and the preview -/

/-- The table `colors` (line 35): 0=black, 1=red, 2=yellow, 3=green, 4=cyan,
5=blue, 6=magenta, 7=white. -/
def colors : List Nat :=
  [0x00202020, 0x0000007f, 0x00007f7f, 0x00007f00, 0x007f7f00, 0x007f0000, 0x007f007f,
   0x007f7f7f]

/-- The macro `LIGHTER_COLOR` (line 37), `(c ? 0x00808080 : 0)`, for the
colour index `c` of the shape that is drawn. -/
def LIGHTER_COLOR (c : Int) : Nat := if c ≠ 0 then 0x00808080 else 0

/-- The table `materials` (line 40): transparent, translucent, opaque. -/
def materials : List Nat := [0x00000000, 0x7f000000, 0xff000000]

/-- The element `table[i]` of a global array for a `char` index `i`; outside
the array it is undefined. -/
def tableAt (table : List Nat) (i : Int) : Option Nat :=
  if 0 ≤ i then table[i.toNat]? else none

/-- The colour word of the body of a shape as its `draw` passes it to the
renderer: line 85 of `Rect::draw`, line 127 of `Ellipse::draw`, line 204 of
`Grid::draw` (all `colors[c] | LIGHTER_COLOR | materials[m]`) and line 160 of
`Arrow::draw` (`colors[c] | LIGHTER_COLOR | materials[2]`, after the early
return of line 158).  `Text::draw` and `Image::draw` pass no colour word (the
result `some none`, like an Arrow that returns early). -/
def bodyColor (s : Shape) : Option (Option Nat) :=
  match s.v with
  | .Rect _ _ | .Ellipse _ _ | .Grid _ _ =>
    match tableAt colors s.c, tableAt materials s.m with
    | some col, some mat => some (some (col ||| LIGHTER_COLOR s.c ||| mat))
    | _, _ => none
  | .Arrow dx dy =>
    if dx = 0 ∧ dy = 0 then some none
    else
      match tableAt colors s.c, tableAt materials 2 with
      | some col, some mat => some (some (col ||| LIGHTER_COLOR s.c ||| mat))
      | _, _ => none
  | .Text _ _ _ => some none
  | .Image _ _ _ => some none

/-- The axis-aligned bounding box `(xmin, ymin, xmax, ymax)` of the geometry of
a shape, as the data model of the specification describes the variants: the
rectangle `[x, x+w] × [y, y+h]` for Rect, Grid, Text and Image, the box of the
radii around the centre for Ellipse, the box of the two end points for Arrow. -/
def bbox (s : Shape) : Int × Int × Int × Int :=
  match s.v with
  | .Rect w h => (s.x, s.y, s.x + w, s.y + h)
  | .Ellipse rx ry => (s.x - rx, s.y - ry, s.x + rx, s.y + ry)
  | .Arrow dx dy => (min s.x (s.x + dx), min s.y (s.y + dy), max s.x (s.x + dx),
      max s.y (s.y + dy))
  | .Grid w h => (s.x, s.y, s.x + w, s.y + h)
  | .Text _ w h => (s.x, s.y, s.x + w, s.y + h)
  | .Image w h _ => (s.x, s.y, s.x + w, s.y + h)

/-- The point `(cx, cy)` lies outside the box `b` expanded by `t` on every side. -/
def outsideExpanded (b : Int × Int × Int × Int) (t cx cy : Int) : Prop :=
  cx < b.1 - t ∨ b.2.2.1 + t < cx ∨ cy < b.2.1 - t ∨ b.2.2.2 + t < cy

/-- The border band of width `t` of the rectangle `[x, x+w] × [y, y+h]` in the
words of the specification: the point is in the closed rectangle and within
`t` of one of its four edges. -/
def specBorderBand (x y w h t cx cy : Int) : Prop :=
  (x ≤ cx ∧ cx ≤ x + w ∧ y ≤ cy ∧ cy ≤ y + h) ∧
  (cx ≤ x + t ∨ cx ≥ x + w - t ∨ cy ≤ y + t ∨ cy ≥ y + h - t)

/-- The value of a scancode once it is stored in the `char preview_shape`
(line 491). -/
def charOf (n : Nat) : Int := ((n : Int) + 128) % 256 - 128

/-- The preview of `render` (lines 390-416): the shape that the `switch` on
`preview_shape` constructs, draws and deletes, `some none` when it constructs
none. -/
def previewShape (env : Env) (s : Editor) : Option (Option Shape) :=
  if s.preview_requested then
    if charOf s.preview_shape = SDL_SCANCODE_R then
      some (some (Rect.ctor s.cci s.cmi s.ms.px s.ms.py s.ms.x s.ms.y))
    else if charOf s.preview_shape = SDL_SCANCODE_E then
      some (some (Ellipse.ctor env s.cci s.cmi s.ms.px s.ms.py s.ms.x s.ms.y))
    else if charOf s.preview_shape = SDL_SCANCODE_A then
      some (some (Arrow.ctor s.cci s.cmi s.ms.px s.ms.py s.ms.x s.ms.y))
    else if charOf s.preview_shape = SDL_SCANCODE_G then
      some (some (Grid.ctor s.cci s.cmi s.ms.px s.ms.py s.ms.x s.ms.y))
    else if charOf s.preview_shape = SDL_SCANCODE_I then
      if sizeT s.cii ≥ s.imgs.length then some none
      else (Image.ctor s.imgs s.cii s.cci s.cmi s.ms.px s.ms.py s.ms.x s.ms.y).map some
    else some none
  else some none

/-- A state with two published textures and the key I held after a motion: the
loader publishes the textures 7 and 8 of a directory, then I is pressed at
`(0, 0)` and the pointer moves to `(300, 200)`. -/
def stateImages : Editor :=
  ((load_images none [7, 8] initial).bind
    (frames env0 [[.KEYDOWN false SDL_SCANCODE_I], [.MOUSEMOTION 300 200]])).getD initial

/-- A typing state whose Text is empty: the key R tapped at `(0, 0)`, then one
release of Backspace (scancode 42, key code 8). -/
def stateEmptyText : Editor :=
  (frames env0 [[.KEYDOWN false SDL_SCANCODE_R], [.KEYUP SDL_SCANCODE_R 114 false []],
    [.KEYUP 42 8 false []]] initial).getD initial

/-- A typing state whose current scene is empty: the key R tapped at `(0, 0)`,
then one release of Delete. -/
def stateTypingEmptyScene : Editor :=
  (frames env0 [[.KEYDOWN false SDL_SCANCODE_R], [.KEYUP SDL_SCANCODE_R 114 false []],
    [.KEYUP SDL_SCANCODE_DELETE 127 false []]] initial).getD initial

/-- A typing state whose last shape is a Rect: R is pressed at `(0, 0)` and
held, Ctrl (scancode 224) and V are pressed, the pointer moves to
`(300, 200)`, V is released with the clipboard text `hi`, then R is released. -/
def stateTypingRect : Editor :=
  (frames env0 [[.KEYDOWN false SDL_SCANCODE_R], [.KEYDOWN false 224],
    [.KEYDOWN false SDL_SCANCODE_V], [.MOUSEMOTION 300 200],
    [.KEYUP SDL_SCANCODE_V 118 true [104, 105]],
    [.KEYUP SDL_SCANCODE_R 114 true []]] initial).getD initial

/-- The frames of `n` successive drags of the key R: the `k`-th drag presses R
at the cursor, moves the pointer to `(k, k)` and releases R. -/
def dragFrames : Nat → List (List Event)
  | 0 => []
  | n + 1 => dragFrames n ++ [[.KEYDOWN false SDL_SCANCODE_R], [.MOUSEMOTION (n + 1) (n + 1)],
      [.KEYUP SDL_SCANCODE_R 114 false []]]

/-- A state at the boundary `hi = 99` whose scenes all differ: 99 drags of R
from the initial state, so that slot `i` holds the first `i` rectangles. -/
def stateBoundaryRects : Editor :=
  (frames env0 (dragFrames 99) initial).getD initial

/-- A state with two rectangles in the current scene and one in the scene
below: two drags of R from the initial state. -/
def stateTwoRects : Editor :=
  (frames env0 (dragFrames 2) initial).getD initial

/-- A state in deleting mode with an empty current scene: the key D pressed in
the initial state. -/
def stateDPressed : Editor :=
  (frames env0 [[.KEYDOWN false SDL_SCANCODE_D]] initial).getD initial

/-- The instance `env0` with the reading of `hypot(a * 1.0 / b, c * 1.0 / d) <= 1`
that the doubles of the program give at a zero denominator as well: a quotient
by zero is infinite or NaN, so is the `hypot`, and the comparison is false. -/
def env1 : Env :=
  { env0 with
    hypotLe1 := fun a b c d =>
      decide (b ≠ 0 ∧ d ≠ 0 ∧ (a * d) ^ 2 + (c * b) ^ 2 ≤ (b * d) ^ 2) }

/-! ## History: arithmetic of the slots -/

theorem slotAt_nat (h : List Scene) (k : Nat) : slotAt h (k : Int) = h[k]? := by
  simp [slotAt]

theorem slotAt_some_bounds {h : List Scene} {i : Int} {sc : Scene}
    (e : slotAt h i = some sc) : 0 ≤ i ∧ i.toNat < h.length := by
  unfold slotAt at e
  split at e
  · rename_i h0
    exact ⟨h0, (List.getElem?_eq_some_iff.1 e).1⟩
  · cases e

theorem exists_getElem? {α : Type} (l : List α) (i : Nat) (hlt : i < l.length) :
    ∃ a, l[i]? = some a :=
  ⟨l[i], List.getElem?_eq_getElem hlt⟩

theorem compactLoop_spec (n : Nat) : ∀ (i : Nat) (h : List Scene), i + n ≤ 50 → h.length = 100 →
    ∃ h1, compactLoop n (i : Int) h = some h1 ∧ h1.length = 100 ∧
      ∀ j, h1[j]? = if i ≤ j ∧ j < i + n then h[50 + j]?
                    else if 50 + i ≤ j ∧ j < 50 + i + n then some [] else h[j]? := by
  induction n with
  | zero =>
    intro i h _ hl
    refine ⟨h, rfl, hl, fun j => ?_⟩
    rw [if_neg (by omega), if_neg (by omega)]
  | succ n ih =>
    intro i h hin hl
    obtain ⟨a, ha⟩ := exists_getElem? h i (by omega)
    obtain ⟨b, hb⟩ := exists_getElem? h (50 + i) (by omega)
    have e1 : slotAt h (i : Int) = some a := by rw [slotAt_nat]; exact ha
    have e2 : slotAt h (50 + (i : Int)) = some b := by
      have : (50 + (i : Int)) = ((50 + i : Nat) : Int) := by push_cast; ring
      rw [this, slotAt_nat]; exact hb
    obtain ⟨h1, r1, r2, r3⟩ := ih (i + 1) ((h.set i b).set (50 + i) []) (by omega) (by simp [hl])
    refine ⟨h1, ?_, r2, fun j => ?_⟩
    · have c1 : ((i : Int) + 1) = ((i + 1 : Nat) : Int) := by push_cast; ring
      have c2 : (50 + (i : Int)).toNat = 50 + i := by omega
      simp only [compactLoop, e1, e2, setSlot, Int.toNat_ofNat, c2, c1]
      exact r1
    · rw [r3 j]
      simp only [List.getElem?_set, List.length_set, hl]
      split_ifs <;> first | rfl | (exfalso; omega) | (subst_vars; simp_all)

theorem clearLoop_spec (n : Nat) : ∀ (i : Nat) (h : List Scene), i + n ≤ h.length →
    ∃ h1, clearLoop n (i : Int) h = some h1 ∧ h1.length = h.length ∧
      ∀ j, h1[j]? = if i ≤ j ∧ j < i + n then some [] else h[j]? := by
  induction n with
  | zero =>
    intro i h _
    refine ⟨h, rfl, rfl, fun j => ?_⟩
    rw [if_neg (by omega)]
  | succ n ih =>
    intro i h hin
    obtain ⟨a, ha⟩ := exists_getElem? h i (by omega)
    have e1 : slotAt h (i : Int) = some a := by rw [slotAt_nat]; exact ha
    obtain ⟨h1, r1, r2, r3⟩ := ih (i + 1) (h.set i []) (by simp; omega)
    refine ⟨h1, ?_, by simpa using r2, fun j => ?_⟩
    · have c1 : ((i : Int) + 1) = ((i + 1 : Nat) : Int) := by push_cast; ring
      simp only [clearLoop, e1, setSlot, Int.toNat_ofNat, c1]
      exact r1
    · rw [r3 j]
      simp only [List.getElem?_set]
      split_ifs <;> first | rfl | (exfalso; omega)

theorem copyCurrent_spec (h : List Scene) (k : Nat) (cur nxt : Scene)
    (e1 : h[k]? = some cur) (e2 : h[k + 1]? = some nxt) :
    copyCurrent h (k : Int) = some (h.set (k + 1) (nxt ++ cur)) := by
  have c1 : ((k : Int) + 1) = ((k + 1 : Nat) : Int) := by push_cast; ring
  unfold copyCurrent
  rw [slotAt_nat, e1, c1, slotAt_nat, e2]
  cases cur with
  | nil =>
    simp only [List.append_nil, setSlot]
    congr 1
    apply List.ext_getElem?
    intro j
    rw [List.getElem?_set]
    by_cases q : k + 1 = j
    · subst q; rw [if_pos rfl, e2]; rw [if_pos (List.getElem?_eq_some_iff.1 e2).1]
    · rw [if_neg q]
  | cons p ps => simp [setSlot]

theorem dupeCompact_of_ne (s : Editor) (hne : s.hi ≠ 99) : dupeCompact s = some s := by
  simp [dupeCompact, hne]

theorem dupeCompact_of_eq (s : Editor) (len : s.h.length = 100) (e : s.hi = 99) :
    ∃ h1, dupeCompact s = some { s with h := h1, hi := 49, hl := s.hl - 50 } ∧
      h1.length = 100 ∧
      ∀ j, h1[j]? = if j < 50 then s.h[50 + j]? else if j < 100 then some [] else none := by
  obtain ⟨h1, r1, r2, r3⟩ := compactLoop_spec 50 0 s.h (by omega) len
  refine ⟨h1, ?_, r2, fun j => ?_⟩
  · have r1b : compactLoop 50 0 s.h = some h1 := r1
    simp [dupeCompact, e, r1b]
  · rw [r3 j]
    split_ifs <;> first | rfl | (exfalso; omega) | skip
    exact List.getElem?_eq_none (by omega)

theorem dupeTruncate_spec (s : Editor) (inv : HistInv s) :
    ∃ h2, dupeTruncate s = some { s with h := h2, hl := s.hi } ∧ h2.length = 100 ∧
      ∀ j : Nat, h2[j]? = if s.hi < (j : Int) ∧ j < 100 then some [] else s.h[j]? := by
  obtain ⟨k, hk⟩ := Int.eq_ofNat_of_zero_le inv.hi0
  by_cases c : s.hi < s.hl
  · obtain ⟨h2, r1, r2, r3⟩ := clearLoop_spec (s.hl - s.hi).toNat (k + 1) s.h
      (by have := inv.len; have := inv.hl99; omega)
    refine ⟨h2, ?_, by rw [r2, inv.len], fun j => ?_⟩
    · have c1 : s.hi + 1 = ((k + 1 : Nat) : Int) := by rw [hk]; push_cast; ring
      simp only [dupeTruncate, c, if_true, c1, r1]
    · rw [r3 j]
      have ab := inv.above j
      have := inv.hl99
      have := inv.hihl
      split_ifs with q1 q2 q2
      · rfl
      · exfalso; omega
      · rw [ab (by omega) (by omega)]
      · rfl
  · have e : s.hl = s.hi := le_antisymm (not_lt.1 c) inv.hihl
    refine ⟨s.h, ?_, inv.len, fun j => ?_⟩
    · simp only [dupeTruncate, c, if_false]
      congr 1
      cases s
      simp_all
    · have ab := inv.above j
      split_ifs with q
      · exact ab (by omega) q.2
      · rfl

theorem dupeCopy_spec (s : Editor) (k : Nat) (hk : s.hi = (k : Int)) (cur : Scene)
    (e1 : s.h[k]? = some cur) (e2 : s.h[k + 1]? = some []) :
    dupeCopy s = some { s with h := s.h.set (k + 1) cur, hi := s.hi + 1, hl := s.hl + 1 } := by
  unfold dupeCopy
  rw [hk, copyCurrent_spec s.h k cur [] e1 e2]
  simp

/-- A commit below the boundary: the new slot `hi+1` receives the current
scene, the slots up to `hi` are kept, everything above is empty. -/
theorem dupeCurrent_of_lt (s : Editor) (inv : HistInv s) (hlt : s.hi < 99) :
    ∃ h1, dupeCurrent s = some { s with h := h1, hi := s.hi + 1, hl := s.hi + 1 } ∧
      h1.length = 100 ∧
      ∀ j : Nat, h1[j]? = if (j : Int) ≤ s.hi then s.h[j]?
                          else if (j : Int) = s.hi + 1 then s.h[s.hi.toNat]?
                          else if j < 100 then some [] else none := by
  obtain ⟨k, hk⟩ := Int.eq_ofNat_of_zero_le inv.hi0
  obtain ⟨h2, r1, r2, r3⟩ := dupeTruncate_spec s inv
  obtain ⟨cur, hc⟩ := exists_getElem? s.h k (by have := inv.len; omega)
  have e1 : h2[k]? = some cur := by rw [r3 k, if_neg (by omega), hc]
  have e2 : h2[k + 1]? = some [] := by rw [r3 (k + 1), if_pos (by omega)]
  refine ⟨h2.set (k + 1) cur, ?_, by simp [r2], fun j => ?_⟩
  · unfold dupeCurrent
    rw [dupeCompact_of_ne s (by omega)]
    simp only [Option.some_bind, r1]
    rw [dupeCopy_spec { s with h := h2, hl := s.hi } k hk cur e1 e2]
  · rw [List.getElem?_set, r2, r3 j, hk]
    simp only [Int.toNat_ofNat, hc]
    split_ifs <;> first | rfl | (exfalso; omega) | skip
    exact List.getElem?_eq_none (by have := inv.len; omega)

/-- A commit at the boundary `hi = 99`: the upper half moves down by 50, slot
50 receives the scene that was current, everything above is empty. -/
theorem dupeCurrent_of_eq (s : Editor) (inv : HistInv s) (e : s.hi = 99) :
    ∃ h1, dupeCurrent s = some { s with h := h1, hi := 50, hl := 50 } ∧
      h1.length = 100 ∧
      ∀ j : Nat, h1[j]? = if j < 50 then s.h[50 + j]?
                          else if j = 50 then s.h[99]?
                          else if j < 100 then some [] else none := by
  obtain ⟨h1, r1, r2, r3⟩ := dupeCompact_of_eq s inv.len e
  have el : s.hl = 99 := le_antisymm inv.hl99 (e ▸ inv.hihl)
  obtain ⟨cur, hc⟩ := exists_getElem? s.h 99 (by have := inv.len; omega)
  have e1 : h1[49]? = some cur := by rw [r3 49, if_pos (by omega), ← hc]
  have e2 : h1[49 + 1]? = some [] := by rw [r3 50, if_neg (by omega), if_pos (by omega)]
  have t : dupeTruncate { s with h := h1, hi := 49, hl := s.hl - 50 }
      = some { s with h := h1, hi := 49, hl := s.hl - 50 } := by
    simp [dupeTruncate, el]
  refine ⟨h1.set 50 cur, ?_, by simp [r2], fun j => ?_⟩
  · unfold dupeCurrent
    rw [r1]
    simp only [Option.some_bind, t]
    rw [dupeCopy_spec { s with h := h1, hi := 49, hl := s.hl - 50 } 49 rfl cur e1 e2]
    simp [el]
  · rw [List.getElem?_set, r2, r3 j, hc]
    split_ifs <;> first | rfl | (exfalso; omega)

/-! ## The invariant of the editor -/

theorem mem_of_slotAt {h : List Scene} {i : Int} {sc : Scene} (e : slotAt h i = some sc) :
    sc ∈ h := by
  unfold slotAt at e
  split at e
  · exact List.getElem?_mem e
  · cases e

theorem Inv_initial : Inv initial := by
  refine ⟨⟨by simp [initial], by simp [initial], by simp [initial], by simp [initial], ?_⟩, ?_, ?_⟩
  · intro j _ hj
    show (List.replicate 100 ([] : Scene))[j]? = some []
    rw [List.getElem?_replicate, if_pos hj]
  · intro sc hsc
    simp only [initial, List.mem_replicate] at hsc
    rw [hsc.2]; exact List.nodup_nil
  · intro sc hsc p hp
    simp only [initial, List.mem_replicate] at hsc
    rw [hsc.2] at hp; cases hp

/-- The invariant only reads `h`, `hi`, `hl` and the size of the heap. -/
theorem Inv.congr {s s1 : Editor} (inv : Inv s) (e1 : s1.h = s.h) (e2 : s1.hi = s.hi)
    (e3 : s1.hl = s.hl) (e4 : s.heap.length ≤ s1.heap.length) : Inv s1 := by
  refine ⟨⟨by rw [e1]; exact inv.hist.len, by rw [e2]; exact inv.hist.hi0,
    by rw [e2, e3]; exact inv.hist.hihl, by rw [e3]; exact inv.hist.hl99, ?_⟩, ?_, ?_⟩
  · intro j; rw [e1, e3]; exact inv.hist.above j
  · rw [e1]; exact inv.nodup
  · rw [e1]; intro sc hsc p hp; exact lt_of_lt_of_le (inv.valid sc hsc p hp) e4

/-- Moving `hi` inside `[0, hl]` keeps the invariant. -/
theorem Inv.setHi {s s1 : Editor} (inv : Inv s) (e1 : s1.h = s.h) (e2 : 0 ≤ s1.hi)
    (e2b : s1.hi ≤ s.hl) (e3 : s1.hl = s.hl) (e4 : s.heap.length ≤ s1.heap.length) : Inv s1 := by
  refine ⟨⟨by rw [e1]; exact inv.hist.len, e2,
    by rw [e3]; exact e2b, by rw [e3]; exact inv.hist.hl99, ?_⟩, ?_, ?_⟩
  · intro j; rw [e1, e3]; exact inv.hist.above j
  · rw [e1]; exact inv.nodup
  · rw [e1]; intro sc hsc p hp; exact lt_of_lt_of_le (inv.valid sc hsc p hp) e4

/-- Replacing the current scene keeps the invariant when the new scene has no
handle twice and only handles of the heap. -/
theorem Inv.setCur {s s1 : Editor} (inv : Inv s) (sc1 : Scene)
    (e1 : s1.h = setSlot s.h s.hi sc1) (e2 : s1.hi = s.hi) (e3 : s1.hl = s.hl)
    (e4 : s.heap.length ≤ s1.heap.length) (nd : sc1.Nodup)
    (vd : ∀ p ∈ sc1, p < s1.heap.length) : Inv s1 := by
  have h0 := inv.hist.hi0
  have hh := inv.hist.hihl
  refine ⟨⟨by rw [e1]; simp [setSlot, inv.hist.len], by rw [e2]; exact h0,
    by rw [e2, e3]; exact hh, by rw [e3]; exact inv.hist.hl99, ?_⟩, ?_, ?_⟩
  · intro j hj hj2
    rw [e3] at hj
    rw [e1, setSlot, List.getElem?_set_ne (by omega)]
    exact inv.hist.above j hj hj2
  · rw [e1]; intro sc hsc
    rcases List.mem_or_eq_of_mem_set hsc with hm | rfl
    · exact inv.nodup sc hm
    · exact nd
  · rw [e1]; intro sc hsc p hp
    rcases List.mem_or_eq_of_mem_set hsc with hm | rfl
    · exact lt_of_lt_of_le (inv.valid sc hm p hp) e4
    · exact vd p hp

/-- What a commit does, in every state of the invariant: it is defined, it
leaves everything but `h`, `hi`, `hl` alone, the new cursors are equal and at
least 1, the new current scene and the one below it are the old current scene,
and every scene of the new history is a scene of the old one or empty. -/
theorem dupeCurrent_spec (s : Editor) (inv : Inv s) :
    ∃ s1, dupeCurrent s = some s1 ∧ Inv s1 ∧
      s1 = { s with h := s1.h, hi := s1.hi, hl := s1.hl } ∧
      s1.hl = s1.hi ∧ 1 ≤ s1.hi ∧
      slotAt s1.h s1.hi = slotAt s.h s.hi ∧ slotAt s1.h (s1.hi - 1) = slotAt s.h s.hi ∧
      ∀ sc ∈ s1.h, sc ∈ s.h ∨ sc = [] := by
  have h0 := inv.hist.hi0
  have h99 := inv.hist.hl99
  have hh := inv.hist.hihl
  have hlen := inv.hist.len
  obtain ⟨k, hk⟩ := Int.eq_ofNat_of_zero_le h0
  have mem : ∀ (h1 : List Scene), (∀ j : Nat, ∃ i : Nat, h1[j]? = s.h[i]? ∨ h1[j]? = some []
      ∨ h1[j]? = none) → ∀ sc ∈ h1, sc ∈ s.h ∨ sc = [] := by
    intro h1 hyp sc hsc
    obtain ⟨j, hj⟩ := List.mem_iff_getElem?.1 hsc
    obtain ⟨i, hi⟩ := hyp j
    rw [hj] at hi
    rcases hi with hi | hi | hi
    · exact Or.inl (List.getElem?_mem hi.symm)
    · exact Or.inr (Option.some.inj hi)
    · cases hi
  have fin : ∀ (h1 : List Scene) (n : Nat), 1 ≤ n → n ≤ 99 → h1.length = 100 →
      h1[n]? = s.h[k]? → h1[n - 1]? = s.h[k]? →
      (∀ j : Nat, n < j → j < 100 → h1[j]? = some []) →
      (∀ sc ∈ h1, sc ∈ s.h ∨ sc = []) →
      dupeCurrent s = some { s with h := h1, hi := (n : Int), hl := (n : Int) } →
      ∃ s1, dupeCurrent s = some s1 ∧ Inv s1 ∧
      s1 = { s with h := s1.h, hi := s1.hi, hl := s1.hl } ∧
      s1.hl = s1.hi ∧ 1 ≤ s1.hi ∧
      slotAt s1.h s1.hi = slotAt s.h s.hi ∧ slotAt s1.h (s1.hi - 1) = slotAt s.h s.hi ∧
      ∀ sc ∈ s1.h, sc ∈ s.h ∨ sc = [] := by
    intro h1 n n1 n99 l1 a1 a2 a3 a4 a5
    refine ⟨_, a5, ⟨⟨l1, by simp, by simp, by simp; omega, ?_⟩, ?_, ?_⟩, rfl, rfl,
      by simp; omega, ?_, ?_, a4⟩
    · intro j hj hj2
      exact a3 j (by simpa using hj) hj2
    · intro sc hsc
      rcases a4 sc hsc with hm | rfl
      · exact inv.nodup sc hm
      · exact List.nodup_nil
    · intro sc hsc p hp
      rcases a4 sc hsc with hm | rfl
      · exact inv.valid sc hm p hp
      · cases hp
    · show slotAt h1 (n : Int) = slotAt s.h s.hi
      rw [hk, slotAt_nat, slotAt_nat, a1]
    · show slotAt h1 ((n : Int) - 1) = slotAt s.h s.hi
      have : ((n : Int) - 1) = ((n - 1 : Nat) : Int) := by omega
      rw [this, hk, slotAt_nat, slotAt_nat, a2]
  by_cases c : s.hi = 99
  · obtain ⟨h1, r1, r2, r3⟩ := dupeCurrent_of_eq s inv.hist c
    have k99 : k = 99 := by omega
    subst k99
    refine fin h1 50 (by omega) (by omega) r2 ?_ ?_ ?_ ?_ r1
    · rw [r3 50]; simp
    · rw [r3 49]; simp
    · intro j hj hj2
      rw [r3 j, if_neg (by omega), if_neg (by omega), if_pos hj2]
    · refine mem h1 (fun j => ?_)
      rw [r3 j]
      split_ifs
      · exact ⟨50 + j, Or.inl rfl⟩
      · exact ⟨99, Or.inl rfl⟩
      · exact ⟨0, Or.inr (Or.inl rfl)⟩
      · exact ⟨0, Or.inr (Or.inr rfl)⟩
  · obtain ⟨h1, r1, r2, r3⟩ := dupeCurrent_of_lt s inv.hist (by omega)
    have c1 : s.hi + 1 = ((k + 1 : Nat) : Int) := by rw [hk]; push_cast; ring
    rw [c1] at r1
    have tk : s.hi.toNat = k := by omega
    refine fin h1 (k + 1) (by omega) (by omega) r2 ?_ ?_ ?_ ?_ r1
    · rw [r3 (k + 1), if_neg (by omega), if_pos (by omega), tk]
    · rw [r3 (k + 1 - 1), if_pos (by omega)]; simp
    · intro j hj hj2
      rw [r3 j, if_neg (by omega), if_neg (by omega), if_pos hj2]
    · refine mem h1 (fun j => ?_)
      rw [r3 j]
      split_ifs
      · exact ⟨j, Or.inl rfl⟩
      · exact ⟨s.hi.toNat, Or.inl rfl⟩
      · exact ⟨0, Or.inr (Or.inl rfl)⟩
      · exact ⟨0, Or.inr (Or.inr rfl)⟩

/-! ## Every handler keeps the invariant -/

theorem dupeCurrent_Inv {s s1 : Editor} (e : dupeCurrent s = some s1) (inv : Inv s) : Inv s1 := by
  obtain ⟨s2, r1, r2, _⟩ := dupeCurrent_spec s inv
  rw [r1] at e
  cases e
  exact r2

theorem pushBack_Inv {sh : Shape} {s s1 : Editor} (inv : Inv s) (e : pushBack sh s = some s1) :
    Inv s1 := by
  unfold pushBack at e
  split at e
  · cases e
  · rename_i cur hcur
    cases e
    have hm := mem_of_slotAt hcur
    refine inv.setCur (cur ++ [s.heap.length]) rfl rfl rfl (by simp) ?_ ?_
    · rw [List.nodup_append]
      refine ⟨inv.nodup cur hm, List.nodup_singleton _, ?_⟩
      intro a ha hb
      have h1 : a < s.heap.length := inv.valid cur hm a ha
      simp only [List.mem_singleton] at hb
      rw [hb] at h1
      exact Nat.lt_irrefl _ h1
    · intro p hp
      simp only [List.mem_append, List.mem_singleton] at hp
      simp only [List.length_append, List.length_singleton]
      rcases hp with hp | hp
      · exact Nat.lt_succ_of_lt (inv.valid cur hm p hp)
      · rw [hp]; exact Nat.lt_succ_self _

theorem onBackText_Inv {f : Shape → Option Shape} {s s1 : Editor} (inv : Inv s)
    (e : onBackText f s = some s1) : Inv s1 := by
  unfold onBackText at e
  repeat (split at e; · cases e)
  cases e
  exact inv.congr rfl rfl rfl (by simp)

theorem markHits_spec (env : Env) (heap : List Shape) (x y : Int) :
    ∀ (cur : Scene) (marked : List (Option Handle)),
      markHits env heap x y cur = some marked →
      marked.filterMap id = cur.filter (fun p => !hitAt env heap x y p) ∧
      marked.any Option.isNone = cur.any (hitAt env heap x y) := by
  intro cur
  induction cur with
  | nil =>
    intro marked e
    simp only [markHits] at e
    cases e
    simp
  | cons p ps ih =>
    intro marked e
    simp only [markHits] at e
    split at e
    · cases e
    · rename_i sh hsh
      split at e
      · cases e
      · rename_i r hr
        cases e
        obtain ⟨i1, i2⟩ := ih r hr
        have hp : hitAt env heap x y p = sh.in_ env x y := by simp [hitAt, hsh]
        by_cases c : sh.in_ env x y = true
        · simp [c, hp, i1, i2]
        · simp [c, hp, i1, i2]

theorem markHits_total (env : Env) (heap : List Shape) (x y : Int) :
    ∀ (cur : Scene), (∀ p ∈ cur, p < heap.length) →
      ∃ marked, markHits env heap x y cur = some marked := by
  intro cur
  induction cur with
  | nil => intro _; exact ⟨[], rfl⟩
  | cons p ps ih =>
    intro hv
    obtain ⟨sh, hsh⟩ := exists_getElem? heap p (hv p (by simp))
    obtain ⟨r, hr⟩ := ih (fun q hq => hv q (by simp [hq]))
    refine ⟨(if sh.in_ env x y then none else some p) :: r, ?_⟩
    simp only [markHits, hsh, hr]

theorem sweep_Inv {env : Env} {s s1 : Editor} (inv : Inv s) (e : sweep env s = some s1) :
    Inv s1 := by
  unfold sweep at e
  split at e
  · cases e
  · rename_i cur hcur
    split at e
    · cases e
    · rename_i marked hm
      have hmem := mem_of_slotAt hcur
      obtain ⟨i1, _⟩ := markHits_spec env s.heap s.ms.x s.ms.y cur marked hm
      split at e
      · cases e
        refine inv.setCur (marked.filterMap id) rfl rfl rfl le_rfl ?_ ?_
        · rw [i1]; exact (inv.nodup cur hmem).filter _
        · intro p hp
          rw [i1] at hp
          exact inv.valid cur hmem p (List.mem_filter.1 hp).1
      · cases e; exact inv

theorem onMouseMotion_Inv {env : Env} {ex ey : Int} {s s1 : Editor} (inv : Inv s)
    (e : onMouseMotion env ex ey s = some s1) : Inv s1 := by
  unfold onMouseMotion at e
  dsimp only at e
  have inv1 : Inv { s with ms := { s.ms with x := ex, y := ey, typing := false } } :=
    inv.congr rfl rfl rfl le_rfl
  split at e
  · cases e
  · rename_i s2 hs2
    have inv2 : Inv s2 := by
      split at hs2
      · exact sweep_Inv inv1 hs2
      · cases hs2; exact inv1
    cases e
    split
    · exact inv2.congr rfl rfl rfl le_rfl
    · exact inv2

theorem onKeyDown_Inv {rep : Bool} {scancode : Nat} {st st1 : Editor × Bool} (inv : Inv st.1)
    (e : onKeyDown rep scancode st = some st1) : Inv st1.1 := by
  unfold onKeyDown at e
  split at e
  · cases e; exact inv
  · dsimp only at e
    split at e
    · cases e
    · rename_i s2 hs2
      have inv2 : Inv s2 := by
        split at hs2
        · exact dupeCurrent_Inv hs2 (inv.congr rfl rfl rfl le_rfl)
        · cases hs2; exact inv
      cases e
      dsimp only
      split
      · exact inv2.congr rfl rfl rfl le_rfl
      · exact inv2

theorem Inv_rerender {s : Editor} (inv : Inv s) : Inv (rerender s) :=
  inv.congr rfl rfl rfl le_rfl

theorem Inv_endKeyUp {s : Editor} (inv : Inv s) : Inv (endKeyUp s) := by
  unfold endKeyUp
  split
  · exact inv.congr rfl rfl rfl le_rfl
  · exact inv

theorem Inv_keyUndo {s : Editor} (inv : Inv s) : Inv (keyUndo s) := by
  have h0 := inv.hist.hi0
  have hh := inv.hist.hihl
  refine inv.setHi rfl ?_ ?_ rfl le_rfl
  · show 0 ≤ (if s.hi ≠ 0 then s.hi - 1 else s.hi)
    split <;> omega
  · show (if s.hi ≠ 0 then s.hi - 1 else s.hi) ≤ s.hl
    split <;> omega

theorem Inv_keyRedo {s : Editor} (inv : Inv s) : Inv (keyRedo s) := by
  have h0 := inv.hist.hi0
  have hh := inv.hist.hihl
  refine inv.setHi rfl ?_ ?_ rfl le_rfl
  · show 0 ≤ (if s.hi < s.hl then s.hi + 1 else s.hi)
    split <;> omega
  · show (if s.hi < s.hl then s.hi + 1 else s.hi) ≤ s.hl
    split <;> omega

theorem keyPaste_Inv {env : Env} {cbd : List Nat} {s s1 : Editor} (inv : Inv s)
    (e : keyPaste env cbd s = some s1) : Inv s1 := by
  unfold keyPaste at e
  split at e
  · split at e
    · simp only [Option.map_eq_some'] at e
      obtain ⟨a, ha, rfl⟩ := e
      exact Inv_rerender (onBackText_Inv inv ha)
    · simp only [Option.map_eq_some', Option.bind_eq_some] at e
      obtain ⟨a, ⟨b, hb, c, hc, hd⟩, rfl⟩ := e
      exact Inv_rerender (onBackText_Inv (pushBack_Inv (dupeCurrent_Inv hb
        (inv.congr rfl rfl rfl le_rfl)) hc) hd)
  · cases e; exact inv

theorem keyDelete_Inv {s s1 : Editor} (inv : Inv s) (e : keyDelete s = some s1) : Inv s1 := by
  unfold keyDelete at e
  simp only [Option.bind_eq_some] at e
  obtain ⟨a, ha, hb⟩ := e
  have inva := dupeCurrent_Inv ha inv
  split at hb
  · cases hb
  · cases hb
    exact inva.setCur [] rfl rfl rfl le_rfl List.nodup_nil (by intro p hp; cases hp)

theorem keyRestyle_Inv {s s1 : Editor} (inv : Inv s) (e : keyRestyle s = some s1) : Inv s1 := by
  unfold keyRestyle at e
  split at e
  · cases e
  · split at e
    · cases e; exact Inv_rerender inv
    · split at e
      · cases e
      · cases e
        exact inv.congr rfl rfl rfl (by simp [rerender])

theorem keyNewLine_Inv {env : Env} {n : Nat} {s s1 : Editor} (inv : Inv s)
    (e : keyNewLine env n s = some s1) : Inv s1 := by
  unfold keyNewLine at e
  simp only [Option.bind_eq_some] at e
  obtain ⟨a, ha, hb⟩ := e
  have inva := dupeCurrent_Inv ha inv
  repeat (split at hb; · cases hb)
  simp only [Option.map_eq_some'] at hb
  obtain ⟨b, hb1, rfl⟩ := hb
  exact Inv_rerender (pushBack_Inv inva hb1)

theorem keyTap_Inv {env : Env} {sym : Int} {s s1 : Editor} (inv : Inv s)
    (e : keyTap env sym s = some s1) : Inv s1 := by
  unfold keyTap at e
  split at e
  · simp only [Option.map_eq_some', Option.bind_eq_some] at e
    obtain ⟨a, ⟨b, hb, hc⟩, rfl⟩ := e
    exact Inv_rerender (pushBack_Inv (dupeCurrent_Inv hb (inv.congr rfl rfl rfl le_rfl)) hc)
  · cases e; exact Inv_rerender inv

theorem pushToHistory_Inv {env : Env} {scancode : Nat} {s s1 : Editor} (inv : Inv s)
    (e : pushToHistory env scancode s = some s1) : Inv s1 := by
  unfold pushToHistory at e
  split at e
  · simp only [Option.bind_eq_some] at e
    obtain ⟨a, ha, hb⟩ := e
    exact pushBack_Inv (dupeCurrent_Inv ha inv) hb
  split at e
  · simp only [Option.bind_eq_some] at e
    obtain ⟨a, ha, hb⟩ := e
    exact pushBack_Inv (dupeCurrent_Inv ha inv) hb
  split at e
  · simp only [Option.bind_eq_some] at e
    obtain ⟨a, ha, hb⟩ := e
    exact pushBack_Inv (dupeCurrent_Inv ha inv) hb
  split at e
  · simp only [Option.bind_eq_some] at e
    obtain ⟨a, ha, hb⟩ := e
    exact pushBack_Inv (dupeCurrent_Inv ha inv) hb
  split at e
  · split at e
    · cases e; exact inv
    · simp only [Option.bind_eq_some] at e
      obtain ⟨a, ha, b, _, hc⟩ := e
      exact pushBack_Inv (dupeCurrent_Inv ha inv) hc
  · cases e; exact inv

theorem keyUpChain_Inv {env : Env} {scancode : Nat} {sym : Int} {ctrl : Bool} {cbd : List Nat}
    {s s1 : Editor} (inv0 : Inv s) (e : keyUpChain env scancode sym ctrl cbd s = some s1) :
    Inv s1 := by
  unfold keyUpChain at e
  by_cases c1 : scancode = SDL_SCANCODE_Z ∧ ctrl = true
  · rw [if_pos c1] at e
    cases e; exact Inv_endKeyUp (Inv_keyUndo inv0)
  rw [if_neg c1] at e
  by_cases c2 : scancode = SDL_SCANCODE_Y ∧ ctrl = true
  · rw [if_pos c2] at e
    cases e; exact Inv_endKeyUp (Inv_keyRedo inv0)
  rw [if_neg c2] at e
  by_cases c3 : scancode = SDL_SCANCODE_V ∧ ctrl = true
  · rw [if_pos c3] at e
    simp only [Option.map_eq_some'] at e
    obtain ⟨a, ha, rfl⟩ := e
    exact Inv_endKeyUp (keyPaste_Inv inv0 ha)
  rw [if_neg c3] at e
  by_cases c4 : s.ms.typing = true ∧ sym = SDLK_BACKSPACE
  · rw [if_pos c4] at e
    simp only [Option.map_eq_some'] at e
    obtain ⟨a, ⟨b, hb, rfl⟩, rfl⟩ := e
    exact Inv_endKeyUp (Inv_rerender (onBackText_Inv inv0 hb))
  rw [if_neg c4] at e
  by_cases c5 : scancode = SDL_SCANCODE_DELETE
  · rw [if_pos c5] at e
    simp only [Option.map_eq_some'] at e
    obtain ⟨a, ha, rfl⟩ := e
    exact Inv_endKeyUp (keyDelete_Inv inv0 ha)
  rw [if_neg c5] at e
  by_cases c6 : ¬ s.ms.typing = true ∧ scancode = SDL_SCANCODE_RETURN
  · rw [if_pos c6] at e
    simp only [Option.map_eq_some'] at e
    obtain ⟨a, ha, rfl⟩ := e
    exact Inv_endKeyUp (keyRestyle_Inv inv0 ha)
  rw [if_neg c6] at e
  by_cases c7 : s.ms.typing = true ∧ scancode = SDL_SCANCODE_RETURN
  · rw [if_pos c7] at e
    cases hs : slotAt s.h s.hi with
    | none => rw [hs] at e; cases e
    | some cur =>
      rw [hs] at e
      dsimp only at e
      by_cases c : cur.length = 0
      · rw [if_pos c] at e
        cases e; exact inv0
      · rw [if_neg c] at e
        simp only [Option.map_eq_some'] at e
        obtain ⟨a, ha, rfl⟩ := e
        exact Inv_endKeyUp (keyNewLine_Inv inv0 ha)
  rw [if_neg c7] at e
  by_cases c8 : ¬ s.ms.typing = true ∧ scancode = SDL_SCANCODE_GRAVE
  · rw [if_pos c8] at e
    cases e; exact Inv_endKeyUp (Inv_rerender (inv0.congr rfl rfl rfl le_rfl))
  rw [if_neg c8] at e
  by_cases c9 : ¬ s.ms.typing = true ∧ sym ≥ SDLK_0 ∧ sym ≤ SDLK_7
  · rw [if_pos c9] at e
    cases e; exact Inv_endKeyUp (Inv_rerender (inv0.congr rfl rfl rfl le_rfl))
  rw [if_neg c9] at e
  by_cases c10 : ¬ s.ms.typing = true ∧ scancode ≥ SDL_SCANCODE_KP_1 ∧ scancode ≤ SDL_SCANCODE_KP_9
  · rw [if_pos c10] at e
    cases e; exact Inv_endKeyUp (Inv_rerender (inv0.congr rfl rfl rfl le_rfl))
  rw [if_neg c10] at e
  by_cases c11 : s.ms.px = s.ms.x ∧ s.ms.py = s.ms.y
  · rw [if_pos c11] at e
    simp only [Option.map_eq_some'] at e
    obtain ⟨a, ha, rfl⟩ := e
    exact Inv_endKeyUp (keyTap_Inv inv0 ha)
  rw [if_neg c11] at e
  simp only [Option.map_eq_some'] at e
  obtain ⟨a, ⟨b, hb, rfl⟩, rfl⟩ := e
  exact Inv_endKeyUp (Inv_rerender (pushToHistory_Inv inv0 hb))

theorem onKeyUp_Inv {env : Env} {scancode : Nat} {sym : Int} {ctrl : Bool} {cbd : List Nat}
    {s s1 : Editor} (inv : Inv s) (e : onKeyUp env scancode sym ctrl cbd s = some s1) :
    Inv s1 := by
  have inv0 : Inv { s with preview_requested := false } := inv.congr rfl rfl rfl le_rfl
  exact keyUpChain_Inv inv0 e

theorem onTextInput_Inv {env : Env} {text : List Nat} {s s1 : Editor} (inv : Inv s)
    (e : onTextInput env text s = some s1) : Inv s1 := by
  unfold onTextInput at e
  split at e
  · simp only [Option.map_eq_some'] at e
    obtain ⟨a, ha, rfl⟩ := e
    exact Inv_rerender (onBackText_Inv inv ha)
  · cases e; exact inv

theorem handleEvent_Inv {env : Env} {ev : Event} {st st1 : Editor × Bool} (inv : Inv st.1)
    (e : handleEvent env ev st = some st1) : Inv st1.1 := by
  cases ev with
  | WINDOWEVENT =>
    simp only [handleEvent] at e
    cases e; exact Inv_rerender inv
  | MOUSEMOTION ex ey =>
    simp only [handleEvent, Option.map_eq_some'] at e
    obtain ⟨a, ha, rfl⟩ := e
    exact onMouseMotion_Inv inv ha
  | KEYDOWN rep scancode =>
    exact onKeyDown_Inv inv e
  | KEYUP scancode sym ctrl cbd =>
    simp only [handleEvent, Option.map_eq_some'] at e
    obtain ⟨a, ha, rfl⟩ := e
    exact onKeyUp_Inv inv ha
  | TEXTINPUT text =>
    simp only [handleEvent, Option.map_eq_some'] at e
    obtain ⟨a, ha, rfl⟩ := e
    exact onTextInput_Inv inv ha

theorem pollLoop_Inv {env : Env} (evs : List Event) : ∀ {st st1 : Editor × Bool},
    Inv st.1 → pollLoop env evs st = some st1 → Inv st1.1 := by
  induction evs with
  | nil =>
    intro st st1 inv e
    simp only [pollLoop] at e
    cases e; exact inv
  | cons ev evs ih =>
    intro st st1 inv e
    simp only [pollLoop] at e
    split at e
    · cases e
    · rename_i st2 h2
      exact ih (handleEvent_Inv inv h2) e

theorem update_Inv {env : Env} {evs : List Event} {s s1 : Editor} (inv : Inv s)
    (e : update env evs s = some s1) : Inv s1 := by
  simp only [update, Option.map_eq_some'] at e
  obtain ⟨st, hst, rfl⟩ := e
  have i1 : Inv st.1 := pollLoop_Inv evs (show Inv (s, false).1 from inv) hst
  unfold saveMouse
  split
  · exact i1.congr rfl rfl rfl le_rfl
  · exact i1

theorem frame_Inv {env : Env} {evs : List Event} {s s1 : Editor} (inv : Inv s)
    (e : frame env evs s = some s1) : Inv s1 := by
  simp only [frame, Option.map_eq_some'] at e
  obtain ⟨a, ha, rfl⟩ := e
  have i1 := update_Inv inv ha
  split
  · exact i1.congr rfl rfl rfl le_rfl
  · exact i1

theorem load_images_Inv {single : Option (Nat × Int × Int)} {dir : List Nat} {s s1 : Editor}
    (inv : Inv s) (e : load_images single dir s = some s1) : Inv s1 := by
  unfold load_images at e
  split at e
  · cases e; exact inv.congr rfl rfl rfl le_rfl
  · simp only [Option.bind_eq_some, Option.map_eq_some'] at e
    obtain ⟨a, ha, b, _, c, hc, rfl⟩ := e
    exact (pushBack_Inv (dupeCurrent_Inv ha (inv.congr rfl rfl rfl le_rfl)) hc).congr
      rfl rfl rfl le_rfl

/-- Every reachable state satisfies the invariant. -/
theorem Reachable.inv {env : Env} {s : Editor} (r : Reachable env s) : Inv s := by
  induction r with
  | init => exact Inv_initial
  | frame evs s s1 _ e ih => exact frame_Inv ih e
  | loader single dir s s1 _ e ih => exact load_images_Inv ih e

/-! ## Reachability -/

theorem Reachable.frames {env : Env} (fs : List (List Event)) : ∀ {s s1 : Editor},
    Reachable env s → frames env fs s = some s1 → Reachable env s1 := by
  induction fs with
  | nil =>
    intro s s1 r e
    simp only [Paint.frames] at e
    cases e; exact r
  | cons evs rest ih =>
    intro s s1 r e
    simp only [Paint.frames, Option.bind_eq_some] at e
    obtain ⟨a, ha, hb⟩ := e
    exact ih (Reachable.frame evs s a r ha) hb

set_option maxRecDepth 100000 in
theorem stateAfterUndo_reachable : Reachable env0 stateAfterUndo :=
  Reachable.frames _ Reachable.init (by decide :
    frames env0 [[.KEYDOWN false SDL_SCANCODE_R], [.MOUSEMOTION 300 200],
      [.KEYUP SDL_SCANCODE_R 114 false []], [.KEYUP SDL_SCANCODE_Z 122 true []]] initial
      = some stateAfterUndo)

set_option maxRecDepth 100000 in
theorem stateAfterUndo_hi : stateAfterUndo.hi = 0 ∧ stateAfterUndo.hl = 1 := by decide

/-! ## Claims on the history -/

/-- C1: in every reachable state `0 ≤ hi ≤ hl ≤ 99` and the history has its
100 slots; a commit from such a state is defined (no slot outside the array is
touched), the two slots that its copy loop uses, `hi` and `hi+1` after the
boundary step, being `s1.hi - 1 ≥ 0` and `s1.hi ≤ 99`. -/
theorem history_cursor_invariant (env : Env) (s : Editor) (r : Reachable env s) :
    0 ≤ s.hi ∧ s.hi ≤ s.hl ∧ s.hl ≤ 99 ∧ s.h.length = 100 ∧
      ∃ s1, dupeCurrent s = some s1 ∧ 0 ≤ s1.hi - 1 ∧ s1.hi ≤ 99 := by
  have inv := r.inv
  obtain ⟨s1, e1, inv1, _, e2, e3, _⟩ := dupeCurrent_spec s inv
  refine ⟨inv.hist.hi0, inv.hist.hihl, inv.hist.hl99, inv.hist.len, s1, e1, by omega, ?_⟩
  have := inv1.hist.hl99
  omega

/-- Witness of C1 at the state reached by a drag of R and an undo. -/
theorem history_cursor_invariant_witness :
    Reachable env0 stateAfterUndo ∧
    (0 ≤ stateAfterUndo.hi ∧ stateAfterUndo.hi ≤ stateAfterUndo.hl ∧ stateAfterUndo.hl ≤ 99 ∧
      stateAfterUndo.h.length = 100 ∧
      ∃ s1, dupeCurrent stateAfterUndo = some s1 ∧ 0 ≤ s1.hi - 1 ∧ s1.hi ≤ 99) :=
  ⟨stateAfterUndo_reachable,
    history_cursor_invariant env0 stateAfterUndo stateAfterUndo_reachable⟩

theorem endKeyUp_eq (s : Editor) :
    endKeyUp s = { s with ms := { s.ms with deleting := false } } := by
  unfold endKeyUp
  split
  · rfl
  · rename_i c
    have : s.ms.deleting = false := by simpa using c
    cases s with
    | mk heap h hi hl rr pr ps cci cmi cii imgs ms =>
      cases ms
      simp_all

theorem onKeyUp_ctrlZ (env : Env) (sym : Int) (cbd : List Nat) (s : Editor) :
    onKeyUp env SDL_SCANCODE_Z sym true cbd s
      = some (endKeyUp (keyUndo { s with preview_requested := false })) := by
  simp [onKeyUp, keyUpChain]

theorem onKeyUp_ctrlY (env : Env) (sym : Int) (cbd : List Nat) (s : Editor) :
    onKeyUp env SDL_SCANCODE_Y sym true cbd s
      = some (endKeyUp (keyRedo { s with preview_requested := false })) := by
  simp [onKeyUp, keyUpChain, SDL_SCANCODE_Y, SDL_SCANCODE_Z]

/-- A main-loop iteration whose only event is a key release. -/
theorem frame_keyUp (env : Env) (scancode : Nat) (sym : Int) (ctrl : Bool) (cbd : List Nat)
    (s : Editor) :
    frame env [.KEYUP scancode sym ctrl cbd] s
      = (onKeyUp env scancode sym ctrl cbd s).map
          fun s1 => if s1.rerender_requested then render s1 else s1 := by
  simp only [frame, update, pollLoop, handleEvent]
  cases onKeyUp env scancode sym ctrl cbd s <;> simp [saveMouse]

/-- The iteration that handles the release of Ctrl+Z: `hi` steps down unless it
is 0; `typing` and `deleting` are cleared; the rest of the document is kept. -/
theorem frame_ctrlZ (env : Env) (sym : Int) (cbd : List Nat) (s : Editor) :
    ∃ s1, frame env [.KEYUP SDL_SCANCODE_Z sym true cbd] s = some s1 ∧
      s1.hi = (if s.hi ≠ 0 then s.hi - 1 else s.hi) ∧ s1.h = s.h ∧ s1.hl = s.hl ∧
      s1.heap = s.heap ∧ s1.ms.typing = false ∧ s1.ms.deleting = false := by
  rw [frame_keyUp, onKeyUp_ctrlZ, endKeyUp_eq]
  exact ⟨_, rfl, rfl, rfl, rfl, rfl, rfl, rfl⟩

/-- The iteration that handles the release of Ctrl+Y: `hi` steps up unless it
is `hl`; `typing` and `deleting` are cleared; the rest of the document is kept. -/
theorem frame_ctrlY (env : Env) (sym : Int) (cbd : List Nat) (s : Editor) :
    ∃ s1, frame env [.KEYUP SDL_SCANCODE_Y sym true cbd] s = some s1 ∧
      s1.hi = (if s.hi < s.hl then s.hi + 1 else s.hi) ∧ s1.h = s.h ∧ s1.hl = s.hl ∧
      s1.heap = s.heap ∧ s1.ms.typing = false ∧ s1.ms.deleting = false := by
  rw [frame_keyUp, onKeyUp_ctrlY, endKeyUp_eq]
  exact ⟨_, rfl, rfl, rfl, rfl, rfl, rfl, rfl⟩

theorem Inv_of_frame_eq {s s1 : Editor} (inv : Inv s) (e1 : s1.h = s.h) (e3 : s1.hl = s.hl)
    (e4 : s1.heap = s.heap) (e2 : 0 ≤ s1.hi) (e2b : s1.hi ≤ s.hl) : Inv s1 :=
  inv.setHi e1 e2 e2b e3 (by rw [e4])

/-- In a state of the invariant with `hi = hl` a redo changes nothing of the
history. -/
theorem redo_noop (env : Env) (sym : Int) (cbd : List Nat) (c : Editor) (e : c.hl = c.hi) :
    ∃ s2, frame env [.KEYUP SDL_SCANCODE_Y sym true cbd] c = some s2 ∧
      s2.h = c.h ∧ s2.hi = c.hi ∧ s2.hl = c.hl ∧ s2.heap = c.heap := by
  obtain ⟨s2, r1, r2, r3, r4, r5, _⟩ := frame_ctrlY env sym cbd c
  refine ⟨s2, r1, r3, ?_, r4, r5⟩
  rw [r2, if_neg (by omega)]

/-- C2: a commit from a reachable state with `hi < 99` is defined; the new
`hi` and `hl` are the old `hi + 1`; the slot at the new `hi` is the handle
sequence of the old current scene; the slots `0..hi` are unchanged; every slot
above the new `hi` is empty; the heap of shapes is unchanged.  A release of
Ctrl+Y handled right after the commit leaves `h`, `hi`, `hl` and the heap as
they are, also when the commit follows a release of Ctrl+Z. -/
theorem commit_postcondition (env : Env) (s : Editor) (r : Reachable env s) (hlt : s.hi < 99) :
    ∃ s1 cur, dupeCurrent s = some s1 ∧ s1.hi = s.hi + 1 ∧ s1.hl = s.hi + 1 ∧
      slotAt s.h s.hi = some cur ∧ slotAt s1.h s1.hi = some cur ∧
      (∀ i : Int, 0 ≤ i → i ≤ s.hi → slotAt s1.h i = slotAt s.h i) ∧
      (∀ i : Int, s1.hi < i → i ≤ 99 → slotAt s1.h i = some []) ∧
      s1.heap = s.heap ∧
      (∀ sym cbd, ∃ s2, frame env [.KEYUP SDL_SCANCODE_Y sym true cbd] s1 = some s2 ∧
        s2.h = s1.h ∧ s2.hi = s1.hi ∧ s2.hl = s1.hl ∧ s2.heap = s1.heap) ∧
      (∀ sym cbd sym2 cbd2, ∃ u c s3,
        frame env [.KEYUP SDL_SCANCODE_Z sym true cbd] s = some u ∧
        dupeCurrent u = some c ∧
        frame env [.KEYUP SDL_SCANCODE_Y sym2 true cbd2] c = some s3 ∧
        s3.h = c.h ∧ s3.hi = c.hi ∧ s3.hl = c.hl ∧ s3.heap = c.heap) := by
  have inv := r.inv
  have h0 := inv.hist.hi0
  obtain ⟨k, hk⟩ := Int.eq_ofNat_of_zero_le h0
  obtain ⟨h1, r1, r2, r3⟩ := dupeCurrent_of_lt s inv.hist hlt
  obtain ⟨cur, hc⟩ := exists_getElem? s.h k (by have := inv.hist.len; omega)
  have tk : s.hi.toNat = k := by omega
  refine ⟨_, cur, r1, rfl, rfl, by rw [hk, slotAt_nat, hc], ?_, ?_, ?_, rfl, ?_, ?_⟩
  · show slotAt h1 (s.hi + 1) = some cur
    have c1 : s.hi + 1 = ((k + 1 : Nat) : Int) := by rw [hk]; push_cast; ring
    rw [c1, slotAt_nat, r3 (k + 1), if_neg (by omega), if_pos (by omega), tk, hc]
  · intro i i0 ile
    obtain ⟨j, hj⟩ := Int.eq_ofNat_of_zero_le i0
    show slotAt h1 i = slotAt s.h i
    rw [hj, slotAt_nat, slotAt_nat, r3 j, if_pos (by omega)]
  · intro i ilt i99
    have ilt2 : s.hi + 1 < i := ilt
    obtain ⟨j, hj⟩ := Int.eq_ofNat_of_zero_le (show 0 ≤ i by omega)
    show slotAt h1 i = some []
    rw [hj, slotAt_nat, r3 j, if_neg (by omega), if_neg (by omega), if_pos (by omega)]
  · intro sym cbd
    exact redo_noop env sym cbd _ rfl
  · intro sym cbd sym2 cbd2
    obtain ⟨u, u1, u2, u3, u4, u5, _⟩ := frame_ctrlZ env sym cbd s
    have hh := inv.hist.hihl
    have invu : Inv u := Inv_of_frame_eq inv u3 u4 u5
      (by rw [u2]; split <;> omega) (by rw [u2]; split <;> omega)
    obtain ⟨c, c1, _, _, c4, _⟩ := dupeCurrent_spec u invu
    obtain ⟨s3, q⟩ := redo_noop env sym2 cbd2 c c4
    exact ⟨u, c, s3, u1, c1, q⟩

/-- Witness of C2 at the state reached by a drag of R and an undo, where
`hi = 0 < hl = 1`. -/
theorem commit_postcondition_witness :
    Reachable env0 stateAfterUndo ∧ stateAfterUndo.hi < 99 ∧
    ∃ s1 cur, dupeCurrent stateAfterUndo = some s1 ∧ s1.hi = stateAfterUndo.hi + 1 ∧
      s1.hl = stateAfterUndo.hi + 1 ∧
      slotAt stateAfterUndo.h stateAfterUndo.hi = some cur ∧ slotAt s1.h s1.hi = some cur ∧
      (∀ i : Int, 0 ≤ i → i ≤ stateAfterUndo.hi → slotAt s1.h i = slotAt stateAfterUndo.h i) ∧
      (∀ i : Int, s1.hi < i → i ≤ 99 → slotAt s1.h i = some []) ∧
      s1.heap = stateAfterUndo.heap ∧
      (∀ sym cbd, ∃ s2, frame env0 [.KEYUP SDL_SCANCODE_Y sym true cbd] s1 = some s2 ∧
        s2.h = s1.h ∧ s2.hi = s1.hi ∧ s2.hl = s1.hl ∧ s2.heap = s1.heap) ∧
      (∀ sym cbd sym2 cbd2, ∃ u c s3,
        frame env0 [.KEYUP SDL_SCANCODE_Z sym true cbd] stateAfterUndo = some u ∧
        dupeCurrent u = some c ∧
        frame env0 [.KEYUP SDL_SCANCODE_Y sym2 true cbd2] c = some s3 ∧
        s3.h = c.h ∧ s3.hi = c.hi ∧ s3.hl = c.hl ∧ s3.heap = c.heap) :=
  ⟨stateAfterUndo_reachable, by rw [stateAfterUndo_hi.1]; decide,
    commit_postcondition env0 stateAfterUndo stateAfterUndo_reachable
      (by rw [stateAfterUndo_hi.1]; decide)⟩

theorem iterOpt_succ_back (f : Editor → Option Editor) (n : Nat) : ∀ s : Editor,
    iterOpt f (n + 1) s = (iterOpt f n s).bind f := by
  induction n with
  | zero =>
    intro s
    simp only [iterOpt, Option.some_bind]
    cases h : f s <;> simp
  | succ n ih =>
    intro s
    rw [iterOpt]
    cases h : f s with
    | none => simp [iterOpt, h]
    | some a =>
      simp only [Option.some_bind]
      rw [ih a]
      simp [iterOpt, h]

/-- After `n` consecutive commits every slot from `hi - n` (or from 0) up to
`hi` holds the scene that was current before the first of them. -/
theorem commits_spec (n : Nat) : ∀ (s : Editor), Inv s →
    ∃ s1, iterOpt dupeCurrent n s = some s1 ∧ Inv s1 ∧ s1.heap = s.heap ∧
      ∀ j : Nat, s1.hi - (n : Int) ≤ (j : Int) → (j : Int) ≤ s1.hi →
        s1.h[j]? = s.h[s.hi.toNat]? := by
  induction n with
  | zero =>
    intro s inv
    refine ⟨s, rfl, inv, rfl, fun j h1 h2 => ?_⟩
    have : j = s.hi.toNat := by have := inv.hist.hi0; omega
    rw [this]
  | succ n ih =>
    intro s inv
    obtain ⟨a, a1, inva, a3, a4⟩ := ih s inv
    rw [iterOpt_succ_back, a1, Option.some_bind]
    have h0 := inva.hist.hi0
    have hh := inva.hist.hihl
    have h99 := inva.hist.hl99
    obtain ⟨b, b1, invb, _⟩ := dupeCurrent_spec a inva
    by_cases c : a.hi = 99
    · obtain ⟨h1, r1, r2, r3⟩ := dupeCurrent_of_eq a inva.hist c
      rw [r1] at b1
      cases b1
      refine ⟨_, r1, invb, a3, fun j j1 j2 => ?_⟩
      have j1b : (50 : Int) - ((n + 1 : Nat) : Int) ≤ (j : Int) := j1
      have j2b : (j : Int) ≤ 50 := j2
      show h1[j]? = s.h[s.hi.toNat]?
      rw [r3 j]
      by_cases q : j < 50
      · rw [if_pos q]
        exact a4 (50 + j) (by push_cast at j1b ⊢; omega) (by push_cast; omega)
      · rw [if_neg q, if_pos (by omega)]
        exact a4 99 (by push_cast at j1b ⊢; omega) (by omega)
    · obtain ⟨h1, r1, r2, r3⟩ := dupeCurrent_of_lt a inva.hist (by omega)
      rw [r1] at b1
      cases b1
      refine ⟨_, r1, invb, a3, fun j j1 j2 => ?_⟩
      have j1b : a.hi + 1 - ((n + 1 : Nat) : Int) ≤ (j : Int) := j1
      have j2b : (j : Int) ≤ a.hi + 1 := j2
      show h1[j]? = s.h[s.hi.toNat]?
      rw [r3 j]
      by_cases q : (j : Int) ≤ a.hi
      · rw [if_pos q]
        exact a4 j (by push_cast at j1b; omega) q
      · rw [if_neg q, if_pos (by omega)]
        exact a4 a.hi.toNat (by omega) (by omega)

/-- Undo `n` times: `n` releases of Ctrl+Z, each in its own iteration of the main loop, move
`hi` down by `n`, not below 0, and keep the slots and the heap. -/
theorem undos_spec (env : Env) (sym : Int) (cbd : List Nat) (n : Nat) : ∀ (s : Editor),
    0 ≤ s.hi →
    ∃ s2, iterOpt (frame env [.KEYUP SDL_SCANCODE_Z sym true cbd]) n s = some s2 ∧
      s2.h = s.h ∧ s2.heap = s.heap ∧ s2.hl = s.hl ∧ s2.hi = max (s.hi - (n : Int)) 0 := by
  induction n with
  | zero =>
    intro s h0
    exact ⟨s, rfl, rfl, rfl, rfl, by simp [h0]⟩
  | succ n ih =>
    intro s h0
    obtain ⟨u, u1, u2, u3, u4, u5, _⟩ := frame_ctrlZ env sym cbd s
    have hu : 0 ≤ u.hi := by rw [u2]; split <;> omega
    obtain ⟨s2, q1, q2, q3, q4, q5⟩ := ih u hu
    refine ⟨s2, ?_, by rw [q2, u3], by rw [q3, u5], by rw [q4, u4], ?_⟩
    · simp only [iterOpt, u1, Option.some_bind]
      exact q1
    · rw [q5, u2]
      push_cast
      split <;> omega

theorem current_congr {s s1 : Editor} (e1 : slotAt s1.h s1.hi = slotAt s.h s.hi)
    (e2 : s1.heap = s.heap) : current s1 = current s := by
  unfold current
  rw [e1, e2]

/-- C3: from every reachable state and for every `N`, `N` consecutive commits
followed by `N` releases of Ctrl+Z (each handled in its own iteration of the
main loop) are defined and end in a state whose current scene is the handle
sequence that was current before the first commit, over the same heap: the
shapes that `current` shows are the same. -/
theorem undo_round_trip (env : Env) (N : Nat) (sym : Int) (cbd : List Nat) (s : Editor)
    (r : Reachable env s) :
    ∃ s1 s2 cur, iterOpt dupeCurrent N s = some s1 ∧
      iterOpt (frame env [.KEYUP SDL_SCANCODE_Z sym true cbd]) N s1 = some s2 ∧
      slotAt s.h s.hi = some cur ∧ slotAt s2.h s2.hi = some cur ∧ s2.heap = s.heap ∧
      current s2 = current s := by
  have inv := r.inv
  obtain ⟨s1, a1, inv1, a3, a4⟩ := commits_spec N s inv
  obtain ⟨s2, b1, b2, b3, b4, b5⟩ := undos_spec env sym cbd N s1 inv1.hist.hi0
  have h0 := inv.hist.hi0
  obtain ⟨cur, hc⟩ := exists_getElem? s.h s.hi.toNat (by
    have := inv.hist.len; have := inv.hist.hl99; have := inv.hist.hihl; omega)
  have e0 : slotAt s.h s.hi = some cur := by
    unfold slotAt; rw [if_pos h0, hc]
  have h1 := inv1.hist.hi0
  have e2 : slotAt s2.h s2.hi = some cur := by
    unfold slotAt
    rw [if_pos (by rw [b5]; exact le_max_right _ _), b2,
      a4 s2.hi.toNat (by rw [b5]; omega) (by rw [b5]; omega), hc]
  exact ⟨s1, s2, cur, a1, b1, e0, e2, by rw [b3, a3],
    current_congr (by rw [e2, e0]) (by rw [b3, a3])⟩

set_option maxRecDepth 100000 in
theorem stateTwoRects_reachable : Reachable env0 stateTwoRects :=
  Reachable.frames _ Reachable.init (by decide :
    frames env0 (dragFrames 2) initial = some stateTwoRects)

set_option maxRecDepth 100000 in
/-- Witness of C3: three commits and three undos from the state reached by two
drags of R, where `hi = 2`, the current scene holds two rectangles and the
scene below holds one.  The three commits move `hi` to 5 and the three undos
bring it back to 2, with the two rectangles current again; a fourth undo
would show the scene with one rectangle. -/
theorem undo_round_trip_witness :
    Reachable env0 stateTwoRects ∧
    stateTwoRects.hi = 2 ∧
    current stateTwoRects = some [⟨0, 0, 3, 0, 5, .Rect 1 1⟩, ⟨1, 1, 3, 0, 5, .Rect 1 1⟩] ∧
    (iterOpt dupeCurrent 3 stateTwoRects).map (fun s => (s.hi, current s))
      = some (5, some [⟨0, 0, 3, 0, 5, .Rect 1 1⟩, ⟨1, 1, 3, 0, 5, .Rect 1 1⟩]) ∧
    ((iterOpt dupeCurrent 3 stateTwoRects).bind
        (iterOpt (frame env0 [.KEYUP SDL_SCANCODE_Z 122 true []]) 3)).map
      (fun s => (s.hi, current s))
      = some (2, some [⟨0, 0, 3, 0, 5, .Rect 1 1⟩, ⟨1, 1, 3, 0, 5, .Rect 1 1⟩]) ∧
    ((iterOpt dupeCurrent 3 stateTwoRects).bind
        (iterOpt (frame env0 [.KEYUP SDL_SCANCODE_Z 122 true []]) 4)).map
      (fun s => (s.hi, current s))
      = some (1, some [⟨0, 0, 3, 0, 5, .Rect 1 1⟩]) ∧
    ∃ s1 s2 cur, iterOpt dupeCurrent 3 stateTwoRects = some s1 ∧
      iterOpt (frame env0 [.KEYUP SDL_SCANCODE_Z 122 true []]) 3 s1 = some s2 ∧
      slotAt stateTwoRects.h stateTwoRects.hi = some cur ∧ slotAt s2.h s2.hi = some cur ∧
      s2.heap = stateTwoRects.heap ∧ current s2 = current stateTwoRects :=
  ⟨stateTwoRects_reachable, by decide, by decide, by decide, by decide, by decide,
    undo_round_trip env0 3 122 [] stateTwoRects stateTwoRects_reachable⟩

/-- Counterexample to C4: after 101 consecutive commits from the initial
history the cursors are 51 and 51, not 50 and 50. -/
theorem commits_101_counterexample :
    (iterOpt dupeCurrent 101 initial).map (fun s => (s.hi, s.hl)) = some (51, 51) ∧
    ¬ ∃ s, iterOpt dupeCurrent 101 initial = some s ∧ s.hi = 50 ∧ s.hl = 50 := by
  have e : (iterOpt dupeCurrent 101 initial).map (fun s => (s.hi, s.hl)) = some (51, 51) := by
    set_option maxRecDepth 100000 in decide
  refine ⟨e, ?_⟩
  rintro ⟨s, h1, h2, h3⟩
  rw [h1] at e
  simp only [Option.map_some', Option.some.injEq, Prod.mk.injEq] at e
  omega

/-- C4 (amended): starting from the initial history, the commit that meets
`hi = 99` is the 100th one: after 99 consecutive commits the cursors are
`hi = hl = 99`, and after 100 consecutive commits they are `hi = hl = 50`. -/
theorem overflow_cursors :
    (iterOpt dupeCurrent 99 initial).map (fun s => (s.hi, s.hl)) = some (99, 99) ∧
    (iterOpt dupeCurrent 100 initial).map (fun s => (s.hi, s.hl)) = some (50, 50) := by
  constructor
  · set_option maxRecDepth 100000 in decide
  · set_option maxRecDepth 100000 in decide

/-- C5: a commit from a reachable state with `hi = 99` (where `hl = 99` too) is
defined; afterwards `hi = hl = 50`, each slot `i` of `0..49` holds what slot
`50 + i` held, slot 50 holds the scene that was current, the slots `51..99` are
empty, and the heap of shapes is unchanged. -/
theorem compaction_keeps_recent (env : Env) (s : Editor) (r : Reachable env s)
    (e : s.hi = 99) :
    s.hl = 99 ∧
    ∃ s1 cur, dupeCurrent s = some s1 ∧ s1.hi = 50 ∧ s1.hl = 50 ∧
      (∀ i : Nat, i < 50 → s1.h[i]? = s.h[50 + i]? ∧ (s.h[50 + i]?).isSome) ∧
      slotAt s.h s.hi = some cur ∧ s1.h[50]? = some cur ∧ slotAt s1.h s1.hi = some cur ∧
      (∀ i : Nat, 51 ≤ i → i ≤ 99 → s1.h[i]? = some []) ∧
      s1.h.length = 100 ∧ s1.heap = s.heap := by
  have inv := r.inv
  have el : s.hl = 99 := le_antisymm inv.hist.hl99 (e ▸ inv.hist.hihl)
  obtain ⟨h1, r1, r2, r3⟩ := dupeCurrent_of_eq s inv.hist e
  obtain ⟨cur, hc⟩ := exists_getElem? s.h 99 (by have := inv.hist.len; omega)
  have e50 : h1[50]? = some cur := by rw [r3 50]; simpa using hc
  refine ⟨el, _, cur, r1, rfl, rfl, ?_, ?_, e50, ?_, ?_, r2, rfl⟩
  · intro i hi
    refine ⟨by show h1[i]? = _; rw [r3 i, if_pos hi], ?_⟩
    obtain ⟨a, ha⟩ := exists_getElem? s.h (50 + i) (by have := inv.hist.len; omega)
    rw [ha]; rfl
  · rw [e]; exact hc
  · exact e50
  · intro i i1 i2
    show h1[i]? = _
    rw [r3 i, if_neg (by omega), if_neg (by omega), if_pos (by omega)]

set_option maxHeartbeats 4000000 in
set_option maxRecDepth 1000000 in
/-- The 99 drags of R from the initial state are defined; they end with
`hi = hl = 99`, a heap of 99 rectangles and, in slot `i`, the handles of the
first `i` of them. -/
theorem dragFrames_99 :
    frames env0 (dragFrames 99) initial
      = some { heap := (List.range 99).map (fun (k : Nat) => ⟨(k : Int), (k : Int), 3, 0, 5, .Rect 1 1⟩),
               h := (List.range 100).map (fun i => List.range i),
               hi := 99, hl := 99, rerender_requested := false, preview_requested := false,
               preview_shape := SDL_SCANCODE_R, cci := 3, cmi := 0, cii := 0, imgs := [],
               ms := { x := 99, y := 99, px := 98, py := 98, typing := false,
                       deleting := false } } := by
  decide

theorem stateBoundaryRects_eq :
    stateBoundaryRects
      = { heap := (List.range 99).map (fun (k : Nat) => ⟨(k : Int), (k : Int), 3, 0, 5, .Rect 1 1⟩),
          h := (List.range 100).map (fun i => List.range i),
          hi := 99, hl := 99, rerender_requested := false, preview_requested := false,
          preview_shape := SDL_SCANCODE_R, cci := 3, cmi := 0, cii := 0, imgs := [],
          ms := { x := 99, y := 99, px := 98, py := 98, typing := false,
                  deleting := false } } := by
  unfold stateBoundaryRects
  rw [dragFrames_99]
  rfl

theorem stateBoundaryRects_reachable : Reachable env0 stateBoundaryRects :=
  Reachable.frames _ Reachable.init (dragFrames_99.trans (congrArg some stateBoundaryRects_eq.symm))

set_option maxRecDepth 1000000 in
/-- Witness of C5 at the state reached by 99 drags of R, where `hi = hl = 99`,
the heap holds 99 rectangles and slot `i` holds the handles of the first `i`
of them, so that no two slots are equal.  The commit moves the slots
`50..99` to `0..49`, copies the scene of 99 rectangles to slot 50 and leaves
the slots `51..99` empty. -/
theorem compaction_keeps_recent_witness :
    Reachable env0 stateBoundaryRects ∧ stateBoundaryRects.hi = 99 ∧
    stateBoundaryRects.h = (List.range 100).map (fun i => List.range i) ∧
    stateBoundaryRects.heap
      = (List.range 99).map (fun (k : Nat) => ⟨(k : Int), (k : Int), 3, 0, 5, .Rect 1 1⟩) ∧
    (dupeCurrent stateBoundaryRects).map (fun s => (s.hi, s.hl, s.h))
      = some (50, 50, (List.range 50).map (fun i => List.range (50 + i)) ++
          [List.range 99] ++ List.replicate 49 []) ∧
    (stateBoundaryRects.hl = 99 ∧
    ∃ s1 cur, dupeCurrent stateBoundaryRects = some s1 ∧ s1.hi = 50 ∧ s1.hl = 50 ∧
      (∀ i : Nat, i < 50 → s1.h[i]? = stateBoundaryRects.h[50 + i]? ∧
        (stateBoundaryRects.h[50 + i]?).isSome) ∧
      slotAt stateBoundaryRects.h stateBoundaryRects.hi = some cur ∧ s1.h[50]? = some cur ∧
      slotAt s1.h s1.hi = some cur ∧
      (∀ i : Nat, 51 ≤ i → i ≤ 99 → s1.h[i]? = some []) ∧
      s1.h.length = 100 ∧ s1.heap = stateBoundaryRects.heap) :=
  have e : stateBoundaryRects.hi = 99 := by rw [stateBoundaryRects_eq]
  ⟨stateBoundaryRects_reachable, e, by rw [stateBoundaryRects_eq],
    by rw [stateBoundaryRects_eq], by rw [stateBoundaryRects_eq]; decide,
    compaction_keeps_recent env0 stateBoundaryRects stateBoundaryRects_reachable e⟩

/-! ## Frames of one event -/

theorem render_if_proj (s : Editor) :
    (if s.rerender_requested then render s else s) = { s with rerender_requested := false } := by
  cases h : s.rerender_requested
  · cases s; simp_all
  · simp [render]

/-- The iteration that handles the non-repeated press of a key other than D, or
of any key while typing: the cursor is saved as the anchor; the document is
not touched. -/
theorem frame_keyDown (env : Env) (scancode : Nat) (s : Editor)
    (hne : s.ms.typing = true ∨ scancode ≠ SDL_SCANCODE_D) :
    ∃ s1, frame env [.KEYDOWN false scancode] s = some s1 ∧
      s1.h = s.h ∧ s1.hi = s.hi ∧ s1.hl = s.hl ∧ s1.heap = s.heap ∧
      s1.cci = s.cci ∧ s1.cmi = s.cmi ∧ s1.cii = s.cii ∧ s1.imgs = s.imgs ∧
      s1.ms = { s.ms with px := s.ms.x, py := s.ms.y } := by
  have c : ¬ (¬ s.ms.typing = true ∧ scancode = SDL_SCANCODE_D) := by
    rintro ⟨a, b⟩
    rcases hne with h | h
    · exact a h
    · exact h b
  simp only [frame, update, pollLoop, handleEvent, onKeyDown, Bool.false_eq_true, if_false, c,
    Option.map_some', saveMouse, if_true, render_if_proj]
  refine ⟨_, rfl, ?_⟩
  by_cases t : s.ms.typing = true <;> simp [t]

/-- The iteration that handles a pointer motion while `deleting` is off. -/
theorem frame_motion_idle (env : Env) (x y : Int) (s : Editor) (hd : s.ms.deleting = false) :
    ∃ s1, frame env [.MOUSEMOTION x y] s = some s1 ∧
      s1.h = s.h ∧ s1.hi = s.hi ∧ s1.hl = s.hl ∧ s1.heap = s.heap ∧
      s1.cci = s.cci ∧ s1.cmi = s.cmi ∧ s1.cii = s.cii ∧ s1.imgs = s.imgs ∧
      s1.ms = { s.ms with x := x, y := y, typing := false } := by
  simp only [frame, update, pollLoop, handleEvent, onMouseMotion, hd, Bool.false_eq_true,
    if_false, Option.map_some', saveMouse, render_if_proj]
  refine ⟨_, rfl, ?_⟩
  by_cases t : s.preview_requested = true <;> simp [t]

theorem deref_total (heap : List Shape) : ∀ (sc : Scene), (∀ p ∈ sc, p < heap.length) →
    ∃ shapes, deref heap sc = some shapes := by
  intro sc
  induction sc with
  | nil => intro _; exact ⟨[], rfl⟩
  | cons p ps ih =>
    intro hv
    obtain ⟨sh, hsh⟩ := exists_getElem? heap p (hv p (by simp))
    obtain ⟨r, hr⟩ := ih (fun q hq => hv q (by simp [hq]))
    exact ⟨sh :: r, by simp only [deref, hsh, hr]⟩

theorem deref_append_heap (heap ext : List Shape) : ∀ (sc : Scene),
    (∀ p ∈ sc, p < heap.length) → deref (heap ++ ext) sc = deref heap sc := by
  intro sc
  induction sc with
  | nil => intro _; rfl
  | cons p ps ih =>
    intro hv
    have hp : p < heap.length := hv p (by simp)
    simp only [deref, ih (fun q hq => hv q (by simp [hq])), List.getElem?_append_left hp]

theorem deref_snoc (heap : List Shape) (sh : Shape) : ∀ (sc : Scene) (shapes : List Shape),
    deref heap sc = some shapes →
    deref (heap ++ [sh]) (sc ++ [heap.length]) = some (shapes ++ [sh]) := by
  intro sc
  induction sc with
  | nil =>
    intro shapes e
    simp only [deref] at e
    cases e
    simp [deref]
  | cons p ps ih =>
    intro shapes e
    simp only [deref] at e
    split at e
    · rename_i a r ha hr
      cases e
      have hp : p < heap.length := (List.getElem?_eq_some_iff.1 ha).1
      rw [List.cons_append]
      simp only [deref]
      rw [List.getElem?_append_left hp, ha, ih r hr]
      rfl
    · cases e

theorem slotAt_of_Inv {s : Editor} (inv : Inv s) : ∃ cur, slotAt s.h s.hi = some cur := by
  have h0 := inv.hist.hi0
  obtain ⟨cur, hc⟩ := exists_getElem? s.h s.hi.toNat (by
    have := inv.hist.len; have := inv.hist.hl99; have := inv.hist.hihl; omega)
  exact ⟨cur, by unfold slotAt; rw [if_pos h0, hc]⟩

/-- A commit followed by the push of a new object `sh`, from a state of the
invariant: the new current scene is the old one with the new handle at its
end, the slot below holds the old current scene, and the heap has `sh` at its
end. -/
theorem commit_push_spec (sh : Shape) (s : Editor) (inv : Inv s) :
    ∃ c s3 cur, dupeCurrent s = some c ∧ pushBack sh c = some s3 ∧
      slotAt s.h s.hi = some cur ∧ s3.heap = s.heap ++ [sh] ∧
      slotAt s3.h s3.hi = some (cur ++ [s.heap.length]) ∧
      slotAt s3.h (s3.hi - 1) = some cur ∧ 1 ≤ s3.hi ∧ s3.hl = s3.hi ∧
      s3 = { c with heap := s3.heap, h := s3.h } := by
  obtain ⟨c, c1, invc, c3, c4, c5, c6, c7, _⟩ := dupeCurrent_spec s inv
  obtain ⟨cur, hcur⟩ := slotAt_of_Inv inv
  have hheap : c.heap = s.heap := by rw [c3]
  have hc : slotAt c.h c.hi = some cur := by rw [c6, hcur]
  have h0 := invc.hist.hi0
  have hlen := invc.hist.len
  have h99 := invc.hist.hl99
  have hh := invc.hist.hihl
  refine ⟨c, { c with heap := c.heap ++ [sh], h := setSlot c.h c.hi (cur ++ [c.heap.length]) },
    cur, c1, by simp only [pushBack, hc], hcur, by simp [hheap], ?_, ?_, c5, c4, rfl⟩
  · show slotAt (setSlot c.h c.hi (cur ++ [c.heap.length])) c.hi = _
    unfold slotAt setSlot
    rw [if_pos h0, List.getElem?_set_self (by omega), hheap]
  · show slotAt (setSlot c.h c.hi (cur ++ [c.heap.length])) (c.hi - 1) = _
    rw [← hcur, ← c7]
    unfold slotAt setSlot
    rw [if_pos (by omega), if_pos (by omega), List.getElem?_set_ne (by omega)]

theorem keyUpChain_drag_R (env : Env) (ctrl : Bool) (cbd : List Nat) (s : Editor)
    (ht : s.ms.typing = false) (hm : ¬ (s.ms.px = s.ms.x ∧ s.ms.py = s.ms.y)) :
    keyUpChain env SDL_SCANCODE_R 114 ctrl cbd s
      = ((pushToHistory env SDL_SCANCODE_R s).map rerender).map endKeyUp := by
  simp [keyUpChain, ht, hm, SDL_SCANCODE_R, SDL_SCANCODE_Z, SDL_SCANCODE_Y, SDL_SCANCODE_V,
    SDL_SCANCODE_DELETE, SDL_SCANCODE_RETURN, SDL_SCANCODE_GRAVE, SDL_SCANCODE_KP_1,
    SDLK_0, SDLK_7]

/-- The iteration that handles the release of R after the cursor has moved
off the anchor, when not typing. -/
theorem frame_keyUp_R_drag (env : Env) (ctrl : Bool) (cbd : List Nat) (s : Editor)
    (inv : Inv s) (ht : s.ms.typing = false)
    (hm : ¬ (s.ms.px = s.ms.x ∧ s.ms.py = s.ms.y)) :
    ∃ s3 cur, frame env [.KEYUP SDL_SCANCODE_R 114 ctrl cbd] s = some s3 ∧
      slotAt s.h s.hi = some cur ∧
      s3.heap = s.heap ++ [Rect.ctor s.cci s.cmi s.ms.px s.ms.py s.ms.x s.ms.y] ∧
      slotAt s3.h s3.hi = some (cur ++ [s.heap.length]) ∧
      slotAt s3.h (s3.hi - 1) = some cur ∧ 1 ≤ s3.hi ∧ s3.hl = s3.hi := by
  have inv0 : Inv { s with preview_requested := false } := inv.congr rfl rfl rfl le_rfl
  obtain ⟨c, c1, _, c3, _⟩ := dupeCurrent_spec _ inv0
  have e1 : c.cci = s.cci := by rw [c3]
  have e2 : c.cmi = s.cmi := by rw [c3]
  have e3 : c.ms = s.ms := by rw [c3]
  obtain ⟨c', s3, cur, d1, d2, d3, d4, d5, d6, d7, d8, _⟩ :=
    commit_push_spec (Rect.ctor s.cci s.cmi s.ms.px s.ms.py s.ms.x s.ms.y) _ inv0
  rw [c1] at d1
  cases d1
  have hp : pushToHistory env SDL_SCANCODE_R { s with preview_requested := false } = some s3 := by
    simp only [pushToHistory, if_true, c1, Option.some_bind, e1, e2, e3]
    exact d2
  have hf : frame env [.KEYUP SDL_SCANCODE_R 114 ctrl cbd] s
      = some { s3 with rerender_requested := false, ms := { s3.ms with deleting := false } } := by
    rw [frame_keyUp, onKeyUp,
      keyUpChain_drag_R env ctrl cbd { s with preview_requested := false } ht hm, hp]
    simp only [Option.map_some', render_if_proj, endKeyUp_eq, rerender]
  exact ⟨_, cur, hf, d3, d4, d5, d6, d7, d8⟩

theorem current_eq {s : Editor} {cur : Scene} (e : slotAt s.h s.hi = some cur) :
    current s = deref s.heap cur := by
  unfold current
  rw [e]

/-- C6: from a reachable idle state with the cursor at `p = (ms.x, ms.y)`, for
every point `q ≠ p`: the press of R (in its own iteration), the motion to `q`
and the release of R are defined and make the current scene the previous one
followed by the Rect built from `p` and `q`; the release of Ctrl+Z that follows
makes the previous scene current again and the release of Ctrl+Y after it
brings back the scene with the Rect.  For `p = (100, 100)` and
`q = (300, 200)` the Rect has `x = 100`, `y = 100`, `w = 200`, `h = 100`. -/
theorem drag_commit_undo_redo (env : Env) (s : Editor) (r : Reachable env s)
    (_ht : s.ms.typing = false) (hd : s.ms.deleting = false) (qx qy : Int)
    (hpq : ¬ (s.ms.x = qx ∧ s.ms.y = qy)) (ctrl : Bool) (cbd : List Nat)
    (symz : Int) (cbdz : List Nat) (symy : Int) (cbdy : List Nat) :
    (∃ s1 s2 s3 s4 s5 shapes,
      frame env [.KEYDOWN false SDL_SCANCODE_R] s = some s1 ∧
      frame env [.MOUSEMOTION qx qy] s1 = some s2 ∧
      frame env [.KEYUP SDL_SCANCODE_R 114 ctrl cbd] s2 = some s3 ∧
      current s = some shapes ∧
      current s3 = some (shapes ++ [Rect.ctor s.cci s.cmi s.ms.x s.ms.y qx qy]) ∧
      frame env [.KEYUP SDL_SCANCODE_Z symz true cbdz] s3 = some s4 ∧
      current s4 = some shapes ∧
      frame env [.KEYUP SDL_SCANCODE_Y symy true cbdy] s4 = some s5 ∧
      current s5 = some (shapes ++ [Rect.ctor s.cci s.cmi s.ms.x s.ms.y qx qy])) ∧
    Rect.ctor s.cci s.cmi 100 100 300 200
      = { x := 100, y := 100, c := s.cci, m := s.cmi, t := 5, v := .Rect 200 100 } := by
  refine ⟨?_, by simp [Rect.ctor]⟩
  have inv := r.inv
  obtain ⟨s1, f1, a1, a2, a3, a4, a5, a6, _, _, a9⟩ :=
    frame_keyDown env SDL_SCANCODE_R s (Or.inr (by decide))
  obtain ⟨s2, f2, b1, b2, b3, b4, b5, b6, _, _, b9⟩ :=
    frame_motion_idle env qx qy s1 (by rw [a9]; exact hd)
  have inv2 : Inv s2 :=
    inv.congr (by rw [b1, a1]) (by rw [b2, a2]) (by rw [b3, a3]) (by rw [b4, a4])
  have ms2 : s2.ms = { s.ms with x := qx, y := qy, px := s.ms.x, py := s.ms.y, typing := false } := by
    rw [b9, a9]
  have ht2 : s2.ms.typing = false := by rw [ms2]
  have hm2 : ¬ (s2.ms.px = s2.ms.x ∧ s2.ms.py = s2.ms.y) := by rw [ms2]; exact hpq
  obtain ⟨s3, cur, f3, c1, c2, c3, c4, c5, c6⟩ := frame_keyUp_R_drag env ctrl cbd s2 inv2 ht2 hm2
  have hcur : slotAt s.h s.hi = some cur := by rw [← c1, b1, b2, a1, a2]
  have hv : ∀ p ∈ cur, p < s.heap.length := inv.valid cur (mem_of_slotAt hcur)
  obtain ⟨shapes, hs⟩ := deref_total s.heap cur hv
  have e3 : s3.heap = s.heap ++ [Rect.ctor s.cci s.cmi s.ms.x s.ms.y qx qy] := by
    rw [c2, b4, a4, b5, a5, b6, a6, ms2]
  have cur3 : current s3 = some (shapes ++ [Rect.ctor s.cci s.cmi s.ms.x s.ms.y qx qy]) := by
    rw [current_eq c3, e3, b4, a4]
    exact deref_snoc s.heap _ cur shapes hs
  obtain ⟨s4, f4, d1, d2, d3, d4, _⟩ := frame_ctrlZ env symz cbdz s3
  have hi4 : s4.hi = s3.hi - 1 := by rw [d1, if_pos (by omega)]
  have cur4 : current s4 = some shapes := by
    have : slotAt s4.h s4.hi = some cur := by rw [d2, hi4, c4]
    rw [current_eq this, d4, e3, deref_append_heap s.heap _ cur hv, hs]
  obtain ⟨s5, f5, g1, g2, g3, g4, _⟩ := frame_ctrlY env symy cbdy s4
  have hi5 : s5.hi = s3.hi := by rw [g1, if_pos (by rw [d3, hi4, c6]; omega), hi4]; ring
  have cur5 : current s5 = some (shapes ++ [Rect.ctor s.cci s.cmi s.ms.x s.ms.y qx qy]) := by
    have : slotAt s5.h s5.hi = some (cur ++ [s2.heap.length]) := by rw [g2, d2, hi5, c3]
    rw [← cur3, current_eq this, current_eq c3, g4, d4]
  exact ⟨s1, s2, s3, s4, s5, shapes, f1, f2, f3, by rw [current_eq hcur, hs], cur3, f4, cur4,
    f5, cur5⟩

set_option maxRecDepth 100000 in
/-- Witness of C6 at the initial state, whose cursor is at `(0, 0)`, for a
drag to `(300, 200)`. -/
theorem drag_commit_undo_redo_witness :
    Reachable env0 initial ∧ initial.ms.typing = false ∧ initial.ms.deleting = false ∧
    ¬ (initial.ms.x = 300 ∧ initial.ms.y = 200) ∧
    ((∃ s1 s2 s3 s4 s5 shapes,
      frame env0 [.KEYDOWN false SDL_SCANCODE_R] initial = some s1 ∧
      frame env0 [.MOUSEMOTION 300 200] s1 = some s2 ∧
      frame env0 [.KEYUP SDL_SCANCODE_R 114 false []] s2 = some s3 ∧
      current initial = some shapes ∧
      current s3 = some (shapes ++ [Rect.ctor initial.cci initial.cmi initial.ms.x initial.ms.y
        300 200]) ∧
      frame env0 [.KEYUP SDL_SCANCODE_Z 122 true []] s3 = some s4 ∧
      current s4 = some shapes ∧
      frame env0 [.KEYUP SDL_SCANCODE_Y 121 true []] s4 = some s5 ∧
      current s5 = some (shapes ++ [Rect.ctor initial.cci initial.cmi initial.ms.x initial.ms.y
        300 200])) ∧
    Rect.ctor initial.cci initial.cmi 100 100 300 200
      = { x := 100, y := 100, c := initial.cci, m := initial.cmi, t := 5, v := .Rect 200 100 }) :=
  ⟨Reachable.init, rfl, rfl, by decide,
    drag_commit_undo_redo env0 initial Reachable.init rfl rfl 300 200 (by decide) false []
      122 [] 121 []⟩

theorem slotAt_setSlot_ne (h : List Scene) (i j : Int) (sc : Scene) (hi0 : 0 ≤ i) (hne : j ≠ i) :
    slotAt (setSlot h i sc) j = slotAt h j := by
  unfold slotAt setSlot
  by_cases c : 0 ≤ j
  · rw [if_pos c, if_pos c, List.getElem?_set_ne (by omega)]
  · rw [if_neg c, if_neg c]

theorem slotAt_setSlot_self (h : List Scene) (i : Int) (sc cur : Scene)
    (e : slotAt h i = some cur) : slotAt (setSlot h i sc) i = some sc := by
  obtain ⟨h0, hlt⟩ := slotAt_some_bounds e
  unfold slotAt setSlot
  rw [if_pos h0, List.getElem?_set_self hlt]

theorem filter_of_any_false {α : Type} (f : α → Bool) : ∀ (l : List α), l.any f = false →
    l.filter (fun p => !f p) = l := by
  intro l h
  rw [List.filter_eq_self]
  intro a ha
  have := List.any_eq_false.1 h a ha
  simp [this]

/-- The delete sweep in a state of the invariant: it is defined and the
current scene becomes the previous one without the handles whose shape is hit
at the cursor; nothing else of the document changes. -/
theorem sweep_spec (env : Env) (s : Editor) (inv : Inv s) :
    ∃ s1 cur, sweep env s = some s1 ∧ slotAt s.h s.hi = some cur ∧
      slotAt s1.h s1.hi = some (cur.filter (fun p => !hitAt env s.heap s.ms.x s.ms.y p)) ∧
      s1.hi = s.hi ∧ s1.hl = s.hl ∧ s1.heap = s.heap ∧ s1.ms = s.ms ∧
      s1.h.length = s.h.length ∧ (∀ i : Int, i ≠ s.hi → slotAt s1.h i = slotAt s.h i) := by
  obtain ⟨cur, hcur⟩ := slotAt_of_Inv inv
  obtain ⟨marked, hm⟩ := markHits_total env s.heap s.ms.x s.ms.y cur
    (inv.valid cur (mem_of_slotAt hcur))
  obtain ⟨i1, i2⟩ := markHits_spec env s.heap s.ms.x s.ms.y cur marked hm
  by_cases c : marked.any Option.isNone = true
  · refine ⟨{ s with h := setSlot s.h s.hi (marked.filterMap id), rerender_requested := true },
      cur, by simp only [sweep, hcur, hm, c, if_true], hcur, ?_, rfl, rfl, rfl, rfl,
      by simp [setSlot], ?_⟩
    · rw [← i1]
      exact slotAt_setSlot_self s.h s.hi _ cur hcur
    · intro i hne
      exact slotAt_setSlot_ne s.h s.hi i _ inv.hist.hi0 hne
  · refine ⟨s, cur, by simp only [sweep, hcur, hm, c]; rfl, hcur, ?_, rfl, rfl, rfl, rfl, rfl,
      fun _ _ => rfl⟩
    have c2 : cur.any (hitAt env s.heap s.ms.x s.ms.y) = false := by
      rw [← i2]; exact Bool.eq_false_iff.mpr c
    rw [filter_of_any_false _ cur c2, hcur]

/-- The iteration that handles a pointer motion while `deleting` is set. -/
theorem frame_motion_deleting (env : Env) (x y : Int) (s : Editor) (inv : Inv s)
    (hd : s.ms.deleting = true) :
    ∃ s1 cur, frame env [.MOUSEMOTION x y] s = some s1 ∧ slotAt s.h s.hi = some cur ∧
      slotAt s1.h s1.hi = some (cur.filter (fun p => !hitAt env s.heap x y p)) ∧
      s1.hi = s.hi ∧ s1.hl = s.hl ∧ s1.heap = s.heap ∧ s1.h.length = s.h.length ∧
      (∀ i : Int, i ≠ s.hi → slotAt s1.h i = slotAt s.h i) := by
  have inv1 : Inv { s with ms := { s.ms with x := x, y := y, typing := false } } :=
    inv.congr rfl rfl rfl le_rfl
  obtain ⟨s1, cur, a1, a2, a3, a4, a5, a6, a7, a8, a9⟩ := sweep_spec env _ inv1
  have e1 : onMouseMotion env x y s
      = some (if s1.preview_requested then { s1 with rerender_requested := true } else s1) := by
    unfold onMouseMotion
    dsimp only
    rw [if_pos hd, a1]
  have hf : frame env [.MOUSEMOTION x y] s = some { s1 with rerender_requested := false } := by
    simp only [frame, update, pollLoop, handleEvent, e1, Option.map_some', saveMouse,
      Bool.false_eq_true, if_false, render_if_proj]
    by_cases t : s1.preview_requested = true <;> simp [t]
  exact ⟨_, cur, hf, a2, a3, a4, a5, a6, a8, a9⟩

/-- The iteration that handles the non-repeated press of D when not typing. -/
theorem frame_keyDown_D (env : Env) (s : Editor) (inv : Inv s) (ht : s.ms.typing = false) :
    ∃ a, frame env [.KEYDOWN false SDL_SCANCODE_D] s = some a ∧ Inv a ∧
      a.ms.deleting = true ∧ a.heap = s.heap ∧ 1 ≤ a.hi ∧
      slotAt a.h a.hi = slotAt s.h s.hi ∧ slotAt a.h (a.hi - 1) = slotAt s.h s.hi := by
  have inv1 : Inv { s with ms := { s.ms with deleting := true } } := inv.congr rfl rfl rfl le_rfl
  obtain ⟨c, c1, invc, c3, _, c5, c6, c7, _⟩ := dupeCurrent_spec _ inv1
  have e1 : c.ms.typing = false := by rw [c3]; exact ht
  have e2 : c.ms.deleting = true := by rw [c3]
  have e3 : c.heap = s.heap := by rw [c3]
  have e0 : onKeyDown false SDL_SCANCODE_D (s, false)
      = some ({ c with preview_requested := true, preview_shape := SDL_SCANCODE_D }, true) := by
    unfold onKeyDown
    rw [if_neg (by decide)]
    dsimp only
    rw [if_pos ⟨by rw [ht]; decide, rfl⟩, c1]
    dsimp only
    rw [if_pos (by rw [e1]; decide)]
  have hf : frame env [.KEYDOWN false SDL_SCANCODE_D] s
      = some { c with preview_requested := true, preview_shape := SDL_SCANCODE_D,
                      rerender_requested := false,
                      ms := { c.ms with px := c.ms.x, py := c.ms.y } } := by
    simp only [frame, update, pollLoop, handleEvent, e0, Option.map_some', saveMouse, if_true,
      render_if_proj]
  exact ⟨_, hf, invc.congr rfl rfl rfl le_rfl, e2, e3, c5, c6, c7⟩

/-- C7: in a reachable state with `deleting` set, the pointer-motion event to
`(x, y)` is defined and makes the current scene the previous current scene
without the handles whose shape is hit at `(x, y)`, the others in their order;
`hi`, `hl`, the heap and every other slot of the history are unchanged.  And
from a reachable state that is not typing, the press of D, a motion and the
release of Ctrl+Z end at the scene that was current when D was pressed. -/
theorem delete_sweep_filter (env : Env) (s : Editor) (r : Reachable env s)
    (hd : s.ms.deleting = true) (s0 : Editor) (r0 : Reachable env s0)
    (ht0 : s0.ms.typing = false) (x y : Int) (sym : Int) (cbd : List Nat) :
    (∃ s1 cur, frame env [.MOUSEMOTION x y] s = some s1 ∧ slotAt s.h s.hi = some cur ∧
      slotAt s1.h s1.hi = some (cur.filter (fun p => !hitAt env s.heap x y p)) ∧
      s1.hi = s.hi ∧ s1.hl = s.hl ∧ s1.heap = s.heap ∧ s1.h.length = s.h.length ∧
      (∀ i : Int, i ≠ s.hi → slotAt s1.h i = slotAt s.h i)) ∧
    (∃ a b c, frame env [.KEYDOWN false SDL_SCANCODE_D] s0 = some a ∧ a.ms.deleting = true ∧
      frame env [.MOUSEMOTION x y] a = some b ∧
      frame env [.KEYUP SDL_SCANCODE_Z sym true cbd] b = some c ∧
      slotAt c.h c.hi = slotAt s0.h s0.hi ∧ c.heap = s0.heap ∧ current c = current s0) := by
  refine ⟨frame_motion_deleting env x y s r.inv hd, ?_⟩
  obtain ⟨a, a1, inva, a2, a3, a4, a5, a6⟩ := frame_keyDown_D env s0 r0.inv ht0
  obtain ⟨b, cur, b1, b2, b3, b4, b5, b6, b7, b8⟩ := frame_motion_deleting env x y a inva a2
  obtain ⟨c, c1, c2, c3, c4, c5, _⟩ := frame_ctrlZ env sym cbd b
  have e : slotAt c.h c.hi = slotAt s0.h s0.hi := by
    rw [c3, c2, if_pos (by omega), b4, b8 (a.hi - 1) (by omega), a6]
  exact ⟨a, b, c, a1, a2, b1, c1, e, by rw [c5, b6, a3],
    current_congr e (by rw [c5, b6, a3])⟩

set_option maxRecDepth 100000 in
theorem stateDeleting_reachable : Reachable env0 stateDeleting :=
  Reachable.frames _ Reachable.init (by decide :
    frames env0 [[.KEYDOWN false SDL_SCANCODE_R], [.MOUSEMOTION 300 200],
      [.KEYUP SDL_SCANCODE_R 114 false []], [.KEYDOWN false SDL_SCANCODE_D]] initial
      = some stateDeleting)

set_option maxRecDepth 100000 in
/-- Witness of C7: the sweep at `(0, 100)`, on the left border of the rectangle
of `stateDeleting`, and the press of D from the initial state. -/
theorem delete_sweep_filter_witness :
    Reachable env0 stateDeleting ∧ stateDeleting.ms.deleting = true ∧
    Reachable env0 initial ∧ initial.ms.typing = false ∧
    ((∃ s1 cur, frame env0 [.MOUSEMOTION 0 100] stateDeleting = some s1 ∧
      slotAt stateDeleting.h stateDeleting.hi = some cur ∧
      slotAt s1.h s1.hi = some (cur.filter (fun p => !hitAt env0 stateDeleting.heap 0 100 p)) ∧
      s1.hi = stateDeleting.hi ∧ s1.hl = stateDeleting.hl ∧ s1.heap = stateDeleting.heap ∧
      s1.h.length = stateDeleting.h.length ∧
      (∀ i : Int, i ≠ stateDeleting.hi → slotAt s1.h i = slotAt stateDeleting.h i)) ∧
    (∃ a b c, frame env0 [.KEYDOWN false SDL_SCANCODE_D] initial = some a ∧
      a.ms.deleting = true ∧
      frame env0 [.MOUSEMOTION 0 100] a = some b ∧
      frame env0 [.KEYUP SDL_SCANCODE_Z 122 true []] b = some c ∧
      slotAt c.h c.hi = slotAt initial.h initial.hi ∧ c.heap = initial.heap ∧
      current c = current initial)) :=
  ⟨stateDeleting_reachable, by decide, Reachable.init, rfl,
    delete_sweep_filter env0 stateDeleting stateDeleting_reachable (by decide) initial
      Reachable.init rfl 0 100 122 []⟩


theorem keyUpChain_return_idle (env : Env) (sym : Int) (ctrl : Bool) (cbd : List Nat)
    (s : Editor) (ht : s.ms.typing = false) :
    keyUpChain env SDL_SCANCODE_RETURN sym ctrl cbd s = (keyRestyle s).map endKeyUp := by
  simp [keyUpChain, ht, SDL_SCANCODE_RETURN, SDL_SCANCODE_Z, SDL_SCANCODE_Y, SDL_SCANCODE_V,
    SDL_SCANCODE_DELETE]

set_option maxRecDepth 100000 in
theorem stateWithRect_reachable : Reachable env0 stateWithRect :=
  Reachable.frames _ Reachable.init (by decide :
    frames env0 [[.KEYDOWN false SDL_SCANCODE_R], [.MOUSEMOTION 300 200],
      [.KEYUP SDL_SCANCODE_R 114 false []], [.KEYUP 31 50 false []]] initial
      = some stateWithRect)

set_option maxRecDepth 100000 in
/-- C8, counterexample: the press of D in the initial state gives a reachable
state that is not typing, whose current scene is empty and where `deleting`
and `preview_requested` are set, `rerender_requested` clear.  The handling of
an Enter release there clears `deleting` and `preview_requested` and sets
`rerender_requested`; after the whole loop iteration the state differs from
the one before, so the release does change something on an empty scene. -/
theorem restyle_flags_counterexample :
    Reachable env0 stateDPressed ∧ stateDPressed.ms.typing = false ∧
    current stateDPressed = some [] ∧
    (stateDPressed.ms.deleting, stateDPressed.preview_requested,
      stateDPressed.rerender_requested) = (true, true, false) ∧
    (update env0 [.KEYUP SDL_SCANCODE_RETURN 13 false []] stateDPressed).map
      (fun s => (s.ms.deleting, s.preview_requested, s.rerender_requested))
      = some (false, false, true) ∧
    (frame env0 [.KEYUP SDL_SCANCODE_RETURN 13 false []] stateDPressed).map
      (fun s => (s.ms.deleting, s.preview_requested, s.rerender_requested))
      = some (false, false, false) ∧
    frame env0 [.KEYUP SDL_SCANCODE_RETURN 13 false []] stateDPressed ≠ some stateDPressed :=
  ⟨Reachable.frames _ Reachable.init (by decide :
      frames env0 [[.KEYDOWN false SDL_SCANCODE_D]] initial = some stateDPressed),
    by decide, by decide, by decide, by decide, by decide, by decide⟩

/-- C8 (amended): in a reachable state that is not typing, the release of Enter
is defined.  It leaves `h` (every scene, its length and order), `hi`, `hl`,
the armed style, the image slots, the cursor, the anchor, `typing`,
`preview_shape` and the size of the heap as they are.  Like every key release
it clears `deleting` and `preview_requested`, and the redraw it requests is
done in the same loop iteration, which ends with `rerender_requested` clear.
On an empty current scene these three flags are the only change.  Otherwise
the object behind the last handle `p` of the current scene gets `c = cci` and
`m = cmi` and keeps `x`, `y`, `t` and its variant fields; every other object
of the heap, so every other shape of the current scene, is unchanged. -/
theorem restyle_without_history (env : Env) (s : Editor) (r : Reachable env s)
    (ht : s.ms.typing = false) (sym : Int) (ctrl : Bool) (cbd : List Nat) :
    ∃ s1 cur, frame env [.KEYUP SDL_SCANCODE_RETURN sym ctrl cbd] s = some s1 ∧
      s1.h = s.h ∧ s1.hi = s.hi ∧ s1.hl = s.hl ∧ s1.cci = s.cci ∧ s1.cmi = s.cmi ∧
      s1.cii = s.cii ∧ s1.imgs = s.imgs ∧ s1.preview_shape = s.preview_shape ∧
      s1.ms = { s.ms with deleting := false } ∧
      s1.preview_requested = false ∧ s1.rerender_requested = false ∧
      s1.heap.length = s.heap.length ∧
      slotAt s.h s.hi = some cur ∧
      (cur = [] → s1 = { s with rerender_requested := false, preview_requested := false,
                                ms := { s.ms with deleting := false } }) ∧
      (∀ p, cur.getLast? = some p →
        ∃ sh, s.heap[p]? = some sh ∧
          s1.heap[p]? = some { x := sh.x, y := sh.y, c := s.cci, m := s.cmi, t := sh.t, v := sh.v } ∧
          (∀ q, q ≠ p → s1.heap[q]? = s.heap[q]?) ∧
          (∀ q ∈ cur.dropLast, s1.heap[q]? = s.heap[q]?)) := by
  have inv := r.inv
  obtain ⟨cur, hcur⟩ := slotAt_of_Inv inv
  have hmem := mem_of_slotAt hcur
  have step : ∀ s2, keyRestyle { s with preview_requested := false } = some s2 →
      frame env [.KEYUP SDL_SCANCODE_RETURN sym ctrl cbd] s
        = some { s2 with rerender_requested := false, ms := { s2.ms with deleting := false } } := by
    intro s2 e
    rw [frame_keyUp, onKeyUp,
      keyUpChain_return_idle env sym ctrl cbd { s with preview_requested := false } ht, e]
    simp only [Option.map_some', render_if_proj, endKeyUp_eq]
  cases hl : cur.getLast? with
  | none =>
    have e : keyRestyle { s with preview_requested := false }
        = some (rerender { s with preview_requested := false }) := by
      simp only [keyRestyle, hcur, hl]
    refine ⟨_, cur, step _ e, rfl, rfl, rfl, rfl, rfl, rfl, rfl, rfl, rfl, rfl, rfl, rfl, hcur,
      fun _ => rfl, ?_⟩
    intro p hp
    rw [hl] at hp
    cases hp
  | some p =>
    have hp : p ∈ cur := List.mem_of_mem_getLast? hl
    obtain ⟨sh, hsh⟩ := exists_getElem? s.heap p (inv.valid cur hmem p hp)
    have e : keyRestyle { s with preview_requested := false }
        = some (rerender { s with heap := s.heap.set p { sh with m := s.cmi, c := s.cci },
                                  preview_requested := false }) := by
      simp only [keyRestyle, hcur, hl, hsh]
    refine ⟨_, cur, step _ e, rfl, rfl, rfl, rfl, rfl, rfl, rfl, rfl, rfl, rfl, rfl,
      by simp [rerender], hcur, ?_, ?_⟩
    · intro hnil
      rw [hnil] at hl
      cases hl
    · intro p1 hp1
      rw [hl] at hp1
      cases hp1
      have hset : ∀ q, q ≠ p →
          (s.heap.set p { sh with m := s.cmi, c := s.cci })[q]? = s.heap[q]? := by
        intro q hq
        exact List.getElem?_set_ne (Ne.symm hq)
      refine ⟨sh, hsh, ?_, hset, ?_⟩
      · show (s.heap.set p { sh with m := s.cmi, c := s.cci })[p]? = _
        rw [List.getElem?_set_self (inv.valid cur hmem p hp)]
      · intro q hq
        refine hset q ?_
        rintro rfl
        have hnd := inv.nodup cur hmem
        rw [← List.dropLast_append_getLast? q hl, List.nodup_append] at hnd
        exact hnd.2.2 hq (List.mem_singleton_self q)

set_option maxRecDepth 100000 in
/-- Witness of C8 (amended) at a state whose current scene is one rectangle,
the colour 2 being armed: the release of Enter gives the rectangle the colour
2 and leaves its geometry. -/
theorem restyle_without_history_witness :
    Reachable env0 stateWithRect ∧ stateWithRect.ms.typing = false ∧
    current stateWithRect = some [⟨0, 0, 3, 0, 5, .Rect 300 200⟩] ∧
    stateWithRect.cci = 2 ∧
    (frame env0 [.KEYUP SDL_SCANCODE_RETURN 13 false []] stateWithRect).bind current
      = some [⟨0, 0, 2, 0, 5, .Rect 300 200⟩] ∧
    ∃ s1 cur, frame env0 [.KEYUP SDL_SCANCODE_RETURN 13 false []] stateWithRect = some s1 ∧
      s1.h = stateWithRect.h ∧ s1.hi = stateWithRect.hi ∧ s1.hl = stateWithRect.hl ∧
      s1.cci = stateWithRect.cci ∧ s1.cmi = stateWithRect.cmi ∧
      s1.cii = stateWithRect.cii ∧ s1.imgs = stateWithRect.imgs ∧
      s1.preview_shape = stateWithRect.preview_shape ∧
      s1.ms = { stateWithRect.ms with deleting := false } ∧
      s1.preview_requested = false ∧ s1.rerender_requested = false ∧
      s1.heap.length = stateWithRect.heap.length ∧
      slotAt stateWithRect.h stateWithRect.hi = some cur ∧
      (cur = [] → s1 = { stateWithRect with rerender_requested := false,
                                            preview_requested := false,
                                            ms := { stateWithRect.ms with deleting := false } }) ∧
      (∀ p, cur.getLast? = some p →
        ∃ sh, stateWithRect.heap[p]? = some sh ∧
          s1.heap[p]? = some { x := sh.x, y := sh.y, c := stateWithRect.cci,
                               m := stateWithRect.cmi, t := sh.t, v := sh.v } ∧
          (∀ q, q ≠ p → s1.heap[q]? = stateWithRect.heap[q]?) ∧
          (∀ q ∈ cur.dropLast, s1.heap[q]? = stateWithRect.heap[q]?)) :=
  ⟨stateWithRect_reachable, by decide, by decide, by decide, by decide,
    restyle_without_history env0 stateWithRect stateWithRect_reachable (by decide) 13 false []⟩


set_option maxRecDepth 100000 in
theorem stateTyping_reachable : Reachable env0 stateTyping :=
  Reachable.frames _ Reachable.init (by decide :
    frames env0 [[.KEYDOWN false SDL_SCANCODE_R], [.KEYUP SDL_SCANCODE_R 114 false []]] initial
      = some stateTyping)

set_option maxRecDepth 100000 in
/-- C9, the code at the failing input: in the typing state reached by a tap of
R, the releases of Ctrl+Z and of Ctrl+Y clear `typing`, but the release of
Delete commits and clears the current scene with `typing` still set, and the
text input that follows is undefined (`back()` on the empty scene). -/
theorem delete_keeps_typing :
    stateTyping.ms.typing = true ∧
    (frame env0 [.KEYUP SDL_SCANCODE_Z 122 true []] stateTyping).map (fun s => s.ms.typing)
      = some false ∧
    (frame env0 [.KEYUP SDL_SCANCODE_Y 121 true []] stateTyping).map (fun s => s.ms.typing)
      = some false ∧
    (frame env0 [.KEYUP SDL_SCANCODE_DELETE 127 false []] stateTyping).map
      (fun s => (s.ms.typing, s.hi, slotAt s.h s.hi)) = some (true, 2, some []) ∧
    frames env0 [[.KEYUP SDL_SCANCODE_DELETE 127 false []], [.TEXTINPUT [97]]] stateTyping
      = none := by
  decide

/-! ## The mouse status through the handlers -/

theorem dupeCurrent_ms {s s1 : Editor} (e : dupeCurrent s = some s1) : s1.ms = s.ms := by
  unfold dupeCurrent at e
  simp only [Option.bind_eq_some] at e
  obtain ⟨b, ⟨a, ha, hb⟩, hc⟩ := e
  have e1 : a.ms = s.ms := by
    unfold dupeCompact at ha
    split at ha
    · split at ha
      · cases ha
      · cases ha; rfl
    · cases ha; rfl
  have e2 : b.ms = a.ms := by
    unfold dupeTruncate at hb
    split at hb
    · split at hb
      · cases hb
      · cases hb; rfl
    · cases hb; rfl
  have e3 : s1.ms = b.ms := by
    unfold dupeCopy at hc
    split at hc
    · cases hc
    · cases hc; rfl
  rw [e3, e2, e1]

theorem pushBack_ms {sh : Shape} {s s1 : Editor} (e : pushBack sh s = some s1) :
    s1.ms = s.ms := by
  unfold pushBack at e
  split at e
  · cases e
  · cases e; rfl

theorem onBackText_ms {f : Shape → Option Shape} {s s1 : Editor}
    (e : onBackText f s = some s1) : s1.ms = s.ms := by
  unfold onBackText at e
  repeat (split at e; · cases e)
  cases e
  rfl

theorem endKeyUp_typing (s : Editor) : (endKeyUp s).ms.typing = s.ms.typing := by
  rw [endKeyUp_eq]

theorem keyDelete_ms {s s1 : Editor} (e : keyDelete s = some s1) : s1.ms = s.ms := by
  unfold keyDelete at e
  simp only [Option.bind_eq_some] at e
  obtain ⟨a, ha, hb⟩ := e
  split at hb
  · cases hb
  · cases hb
    show a.ms = s.ms
    exact dupeCurrent_ms ha

theorem keyRestyle_ms {s s1 : Editor} (e : keyRestyle s = some s1) : s1.ms = s.ms := by
  unfold keyRestyle at e
  split at e
  · cases e
  · split at e
    · cases e; rfl
    · split at e
      · cases e
      · cases e; rfl

theorem pushToHistory_ms {env : Env} {scancode : Nat} {s s1 : Editor}
    (e : pushToHistory env scancode s = some s1) : s1.ms = s.ms := by
  unfold pushToHistory at e
  split at e
  · simp only [Option.bind_eq_some] at e
    obtain ⟨a, ha, hb⟩ := e
    rw [pushBack_ms hb, dupeCurrent_ms ha]
  split at e
  · simp only [Option.bind_eq_some] at e
    obtain ⟨a, ha, hb⟩ := e
    rw [pushBack_ms hb, dupeCurrent_ms ha]
  split at e
  · simp only [Option.bind_eq_some] at e
    obtain ⟨a, ha, hb⟩ := e
    rw [pushBack_ms hb, dupeCurrent_ms ha]
  split at e
  · simp only [Option.bind_eq_some] at e
    obtain ⟨a, ha, hb⟩ := e
    rw [pushBack_ms hb, dupeCurrent_ms ha]
  split at e
  · split at e
    · cases e; rfl
    · simp only [Option.bind_eq_some] at e
      obtain ⟨a, ha, b, _, hc⟩ := e
      rw [pushBack_ms hc, dupeCurrent_ms ha]
  · cases e; rfl

theorem keyPaste_typing {env : Env} {cbd : List Nat} {s s1 : Editor}
    (e : keyPaste env cbd s = some s1) (h0 : s.ms.typing = false) (h1 : s1.ms.typing = true) :
    cbd ≠ [] := by
  intro hc
  unfold keyPaste at e
  rw [if_neg (by simp [hc])] at e
  cases e
  rw [h0] at h1
  cases h1

theorem keyTap_typing {env : Env} {sym : Int} {s s1 : Editor}
    (e : keyTap env sym s = some s1) (h0 : s.ms.typing = false) (h1 : s1.ms.typing = true) :
    sym ≤ SDLK_z := by
  unfold keyTap at e
  split at e
  · rename_i c
    exact c.2
  · cases e
    rw [show (rerender s).ms.typing = s.ms.typing from rfl, h0] at h1
    cases h1

/-- A key release that turns `typing` on is Ctrl+V with a non-empty clipboard,
or the release of a key whose key code is at most `SDLK_z` while the cursor is
on the anchor, the key being one that none of the earlier branches of the
chain (lines 498-572) takes. -/
theorem keyUpChain_typing {env : Env} {scancode : Nat} {sym : Int} {ctrl : Bool}
    {cbd : List Nat} {s s1 : Editor} (e : keyUpChain env scancode sym ctrl cbd s = some s1)
    (h0 : s.ms.typing = false) (h1 : s1.ms.typing = true) :
    (scancode = SDL_SCANCODE_V ∧ ctrl = true ∧ cbd ≠ []) ∨
    (sym ≤ SDLK_z ∧ s.ms.px = s.ms.x ∧ s.ms.py = s.ms.y ∧
      ¬ (scancode = SDL_SCANCODE_Z ∧ ctrl = true) ∧
      ¬ (scancode = SDL_SCANCODE_Y ∧ ctrl = true) ∧
      ¬ (scancode = SDL_SCANCODE_V ∧ ctrl = true) ∧
      scancode ≠ SDL_SCANCODE_DELETE ∧ scancode ≠ SDL_SCANCODE_RETURN ∧
      scancode ≠ SDL_SCANCODE_GRAVE ∧ ¬ (sym ≥ SDLK_0 ∧ sym ≤ SDLK_7) ∧
      ¬ (scancode ≥ SDL_SCANCODE_KP_1 ∧ scancode ≤ SDL_SCANCODE_KP_9)) := by
  have contra : ∀ {a : Editor}, a.ms.typing = s.ms.typing → s1 = endKeyUp a → False := by
    intro a ha hs
    rw [hs, endKeyUp_typing, ha, h0] at h1
    cases h1
  unfold keyUpChain at e
  by_cases c1 : scancode = SDL_SCANCODE_Z ∧ ctrl = true
  · rw [if_pos c1] at e
    cases e
    rw [endKeyUp_typing] at h1
    cases h1
  rw [if_neg c1] at e
  by_cases c2 : scancode = SDL_SCANCODE_Y ∧ ctrl = true
  · rw [if_pos c2] at e
    cases e
    rw [endKeyUp_typing] at h1
    cases h1
  rw [if_neg c2] at e
  by_cases c3 : scancode = SDL_SCANCODE_V ∧ ctrl = true
  · rw [if_pos c3] at e
    simp only [Option.map_eq_some'] at e
    obtain ⟨a, ha, rfl⟩ := e
    rw [endKeyUp_typing] at h1
    exact Or.inl ⟨c3.1, c3.2, keyPaste_typing ha h0 h1⟩
  rw [if_neg c3] at e
  by_cases c4 : s.ms.typing = true ∧ sym = SDLK_BACKSPACE
  · rw [h0] at c4
    cases c4.1
  rw [if_neg c4] at e
  by_cases c5 : scancode = SDL_SCANCODE_DELETE
  · rw [if_pos c5] at e
    simp only [Option.map_eq_some'] at e
    obtain ⟨a, ha, rfl⟩ := e
    exact (contra (by rw [keyDelete_ms ha]) rfl).elim
  rw [if_neg c5] at e
  by_cases c6 : ¬ s.ms.typing = true ∧ scancode = SDL_SCANCODE_RETURN
  · rw [if_pos c6] at e
    simp only [Option.map_eq_some'] at e
    obtain ⟨a, ha, rfl⟩ := e
    exact (contra (by rw [keyRestyle_ms ha]) rfl).elim
  rw [if_neg c6] at e
  by_cases c7 : s.ms.typing = true ∧ scancode = SDL_SCANCODE_RETURN
  · rw [h0] at c7
    cases c7.1
  rw [if_neg c7] at e
  by_cases c8 : ¬ s.ms.typing = true ∧ scancode = SDL_SCANCODE_GRAVE
  · rw [if_pos c8] at e
    cases e
    exact (contra (a := rerender { s with cmi := (s.cmi + 1).tmod 3 }) rfl rfl).elim
  rw [if_neg c8] at e
  by_cases c9 : ¬ s.ms.typing = true ∧ sym ≥ SDLK_0 ∧ sym ≤ SDLK_7
  · rw [if_pos c9] at e
    cases e
    exact (contra (a := rerender { s with cci := sym - SDLK_0 }) rfl rfl).elim
  rw [if_neg c9] at e
  by_cases c10 : ¬ s.ms.typing = true ∧ scancode ≥ SDL_SCANCODE_KP_1 ∧ scancode ≤ SDL_SCANCODE_KP_9
  · rw [if_pos c10] at e
    cases e
    exact (contra
      (a := rerender { s with cii := (scancode : Int) - SDL_SCANCODE_KP_1 - 2 }) rfl rfl).elim
  rw [if_neg c10] at e
  by_cases c11 : s.ms.px = s.ms.x ∧ s.ms.py = s.ms.y
  · rw [if_pos c11] at e
    simp only [Option.map_eq_some'] at e
    obtain ⟨a, ha, rfl⟩ := e
    rw [endKeyUp_typing] at h1
    have nt : ¬ s.ms.typing = true := by rw [h0]; decide
    exact Or.inr ⟨keyTap_typing ha h0 h1, c11.1, c11.2, c1, c2, c3, c5,
      fun h => c6 ⟨nt, h⟩, fun h => c8 ⟨nt, h⟩, fun h => c9 ⟨nt, h.1, h.2⟩,
      fun h => c10 ⟨nt, h.1, h.2⟩⟩
  rw [if_neg c11] at e
  simp only [Option.map_eq_some'] at e
  obtain ⟨a, ⟨b, hb, rfl⟩, rfl⟩ := e
  exact (contra (a := rerender b) (by
    rw [show (rerender b).ms.typing = b.ms.typing from rfl, pushToHistory_ms hb]) rfl).elim

theorem onKeyDown_typing {rep : Bool} {scancode : Nat} {st st1 : Editor × Bool}
    (e : onKeyDown rep scancode st = some st1) : st1.1.ms.typing = st.1.ms.typing := by
  unfold onKeyDown at e
  split at e
  · cases e; rfl
  · dsimp only at e
    split at e
    · cases e
    · rename_i s2 hs2
      have e2 : s2.ms.typing = st.1.ms.typing := by
        split at hs2
        · rw [dupeCurrent_ms hs2]
        · cases hs2; rfl
      cases e
      dsimp only
      split
      · exact e2
      · exact e2

theorem onMouseMotion_typing {env : Env} {x y : Int} {s s1 : Editor}
    (e : onMouseMotion env x y s = some s1) : s1.ms.typing = false := by
  unfold onMouseMotion at e
  dsimp only at e
  split at e
  · cases e
  · rename_i s2 hs2
    have e2 : s2.ms.typing = false := by
      split at hs2
      · unfold sweep at hs2
        split at hs2
        · cases hs2
        · split at hs2
          · cases hs2
          · split at hs2
            · cases hs2; rfl
            · cases hs2; rfl
      · cases hs2; rfl
    cases e
    split
    · exact e2
    · exact e2

/-- Counterexample to C10: at the initial state (not typing, cursor on the
anchor) the release of the digit key 9, which is neither Ctrl+V nor a letter
key, turns `typing` on. -/
theorem typing_entry_counterexample :
    ∃ st1, handleEvent env0 (.KEYUP 38 57 false []) (initial, false) = some st1 ∧
      initial.ms.typing = false ∧ st1.1.ms.typing = true ∧
      ¬ (38 = SDL_SCANCODE_V ∧ false = true) ∧ letterKey 38 57 = false := by
  set_option maxRecDepth 100000 in decide

/-- The loop iteration that handles a pointer motion ends with `typing` clear. -/
theorem frame_motion_typing {env : Env} {x y : Int} {s s1 : Editor}
    (h : frame env [.MOUSEMOTION x y] s = some s1) : s1.ms.typing = false := by
  simp only [frame, update, pollLoop, handleEvent] at h
  cases e : onMouseMotion env x y s with
  | none =>
    rw [e] at h
    simp at h
  | some a =>
    rw [e] at h
    simp only [Option.map_some', saveMouse, Bool.false_eq_true, if_false, render_if_proj,
      Option.some.injEq] at h
    subst h
    have t : a.ms.typing = false := onMouseMotion_typing e
    exact t

/-- C10 (amended): when the handling of an event turns `typing` from false to
true, the event is a key release that is either Ctrl+V with a non-empty
clipboard, or the release, with the cursor on the anchor (`px = x`, `py = y`),
of a key whose key code is at most `SDLK_z` and that no earlier branch of the
key-release chain takes: not Ctrl+Z, Ctrl+Y or Ctrl+V, not Delete, Enter or
the backtick key, not a digit `0..7` and not a keypad key `1..9` (so letters,
and also the digits 8 and 9, the space bar, punctuation); no pointer-motion
event ends with `typing` set; and in every reachable state the loop iteration
that handles a pointer motion is defined and ends with `typing` clear. -/
theorem typing_entry_exit (env : Env) (e : Event) (st st1 : Editor × Bool)
    (h : handleEvent env e st = some st1) (h0 : st.1.ms.typing = false)
    (h1 : st1.1.ms.typing = true) :
    (∃ scancode sym ctrl cbd, e = .KEYUP scancode sym ctrl cbd ∧
      ((scancode = SDL_SCANCODE_V ∧ ctrl = true ∧ cbd ≠ []) ∨
       (sym ≤ SDLK_z ∧ st.1.ms.px = st.1.ms.x ∧ st.1.ms.py = st.1.ms.y ∧
        ¬ (scancode = SDL_SCANCODE_Z ∧ ctrl = true) ∧
        ¬ (scancode = SDL_SCANCODE_Y ∧ ctrl = true) ∧
        ¬ (scancode = SDL_SCANCODE_V ∧ ctrl = true) ∧
        scancode ≠ SDL_SCANCODE_DELETE ∧ scancode ≠ SDL_SCANCODE_RETURN ∧
        scancode ≠ SDL_SCANCODE_GRAVE ∧ ¬ (sym ≥ SDLK_0 ∧ sym ≤ SDLK_7) ∧
        ¬ (scancode ≥ SDL_SCANCODE_KP_1 ∧ scancode ≤ SDL_SCANCODE_KP_9)))) ∧
    (∀ x y st2, (handleEvent env (.MOUSEMOTION x y) st2).map (fun r => r.1.ms.typing)
      ≠ some true) ∧
    (∀ s, Reachable env s → ∀ x y, ∃ s1, frame env [.MOUSEMOTION x y] s = some s1 ∧
      s1.ms.typing = false) := by
  refine ⟨?_, ?_, ?_⟩
  · cases e with
    | WINDOWEVENT =>
      simp only [handleEvent] at h
      cases h
      rw [show (rerender st.1).ms.typing = st.1.ms.typing from rfl, h0] at h1
      cases h1
    | MOUSEMOTION ex ey =>
      simp only [handleEvent, Option.map_eq_some'] at h
      obtain ⟨a, ha, rfl⟩ := h
      rw [onMouseMotion_typing ha] at h1
      cases h1
    | KEYDOWN rep scancode =>
      rw [onKeyDown_typing h, h0] at h1
      cases h1
    | KEYUP scancode sym ctrl cbd =>
      simp only [handleEvent, Option.map_eq_some'] at h
      obtain ⟨a, ha, rfl⟩ := h
      exact ⟨scancode, sym, ctrl, cbd, rfl,
        keyUpChain_typing (s := { st.1 with preview_requested := false }) ha h0 h1⟩
    | TEXTINPUT text =>
      simp only [handleEvent, Option.map_eq_some'] at h
      obtain ⟨a, ha, rfl⟩ := h
      unfold onTextInput at ha
      rw [h0] at ha
      simp only [Bool.false_eq_true, if_false] at ha
      cases ha
      rw [h0] at h1
      cases h1
  · intro x y st2 hc
    simp only [handleEvent, Option.map_map, Option.map_eq_some'] at hc
    obtain ⟨a, ha, hb⟩ := hc
    have := onMouseMotion_typing ha
    simp only [Function.comp] at hb
    rw [this] at hb
    cases hb
  · intro s r x y
    cases hd : s.ms.deleting with
    | false =>
      obtain ⟨s1, a1, _⟩ := frame_motion_idle env x y s hd
      exact ⟨s1, a1, frame_motion_typing a1⟩
    | true =>
      obtain ⟨s1, _, a1, _⟩ := frame_motion_deleting env x y s r.inv hd
      exact ⟨s1, a1, frame_motion_typing a1⟩

set_option maxRecDepth 100000 in
/-- Witness of C10 (amended) at the release of the digit key 9 in the initial
state. -/
theorem typing_entry_exit_witness :
    handleEvent env0 (.KEYUP 38 57 false []) (initial, false) = some stateAfterNine ∧
    (initial, false).1.ms.typing = false ∧ stateAfterNine.1.ms.typing = true ∧
    ((∃ scancode sym ctrl cbd, Event.KEYUP 38 57 false [] = .KEYUP scancode sym ctrl cbd ∧
      ((scancode = SDL_SCANCODE_V ∧ ctrl = true ∧ cbd ≠ []) ∨
       (sym ≤ SDLK_z ∧ (initial, false).1.ms.px = (initial, false).1.ms.x ∧
        (initial, false).1.ms.py = (initial, false).1.ms.y ∧
        ¬ (scancode = SDL_SCANCODE_Z ∧ ctrl = true) ∧
        ¬ (scancode = SDL_SCANCODE_Y ∧ ctrl = true) ∧
        ¬ (scancode = SDL_SCANCODE_V ∧ ctrl = true) ∧
        scancode ≠ SDL_SCANCODE_DELETE ∧ scancode ≠ SDL_SCANCODE_RETURN ∧
        scancode ≠ SDL_SCANCODE_GRAVE ∧ ¬ (sym ≥ SDLK_0 ∧ sym ≤ SDLK_7) ∧
        ¬ (scancode ≥ SDL_SCANCODE_KP_1 ∧ scancode ≤ SDL_SCANCODE_KP_9)))) ∧
    (∀ x y st2, (handleEvent env0 (.MOUSEMOTION x y) st2).map (fun r => r.1.ms.typing)
      ≠ some true) ∧
    (∀ s, Reachable env0 s → ∀ x y, ∃ s1, frame env0 [.MOUSEMOTION x y] s = some s1 ∧
      s1.ms.typing = false)) :=
  ⟨by decide, rfl, by decide,
    typing_entry_exit env0 (.KEYUP 38 57 false []) (initial, false) stateAfterNine
      (by decide) rfl (by decide)⟩

/-! ## Claims on the constructors and the hit-tests -/

theorem rect_w_eq (a b : Int) : a - (if a > b then b else a) + b - (if a > b then b else a)
    = |a - b| := by
  split
  · rw [abs_of_nonneg (by omega)]; ring
  · rw [abs_of_nonpos (by omega)]; ring

theorem ite_gt_eq_min (a b : Int) : (if a > b then b else a) = min a b := by
  split
  · rw [min_eq_right (by omega)]
  · rw [min_eq_left (by omega)]

/-- C13: for every pair of points the Rect constructor yields `x = min x1 x2`,
`y = min y1 y2`, `w = |x1 - x2| ≥ 0` and `h = |y1 - y2| ≥ 0`, and both input
points are hit by the hit-test of the resulting Rect for every thickness
`t ≥ 0` (the constructor's own `t = 5` included). -/
theorem rect_normalization (env : Env) (cci cmi x1 y1 x2 y2 t : Int) (ht : 0 ≤ t) :
    (Rect.ctor cci cmi x1 y1 x2 y2).x = min x1 x2 ∧
    (Rect.ctor cci cmi x1 y1 x2 y2).y = min y1 y2 ∧
    (Rect.ctor cci cmi x1 y1 x2 y2).v = .Rect |x1 - x2| |y1 - y2| ∧
    0 ≤ |x1 - x2| ∧ 0 ≤ |y1 - y2| ∧
    (Rect.ctor cci cmi x1 y1 x2 y2).t = 5 ∧
    Shape.in_ env { Rect.ctor cci cmi x1 y1 x2 y2 with t := t } x1 y1 = true ∧
    Shape.in_ env { Rect.ctor cci cmi x1 y1 x2 y2 with t := t } x2 y2 = true := by
  have hx := ite_gt_eq_min x1 x2
  have hy := ite_gt_eq_min y1 y2
  have hw := rect_w_eq x1 x2
  have hh := rect_w_eq y1 y2
  refine ⟨by simp only [Rect.ctor]; exact hx, by simp only [Rect.ctor]; exact hy,
    by simp only [Rect.ctor, hw, hh], abs_nonneg _, abs_nonneg _, rfl, ?_, ?_⟩
  · simp only [Shape.in_, Rect.ctor, Rect.in_]
    split_ifs <;> first | rfl | (exfalso; omega)
  · simp only [Shape.in_, Rect.ctor, Rect.in_]
    split_ifs <;> first | rfl | (exfalso; omega)

/-- Witness of C13 for the points `(300, 200)` and `(100, 100)` and `t = 3`. -/
theorem rect_normalization_witness :
    (0 : Int) ≤ 3 ∧
    ((Rect.ctor 3 0 300 200 100 100).x = min 300 100 ∧
    (Rect.ctor 3 0 300 200 100 100).y = min 200 100 ∧
    (Rect.ctor 3 0 300 200 100 100).v = .Rect |300 - 100| |200 - 100| ∧
    0 ≤ |(300 : Int) - 100| ∧ 0 ≤ |(200 : Int) - 100| ∧
    (Rect.ctor 3 0 300 200 100 100).t = 5 ∧
    Shape.in_ env0 { Rect.ctor 3 0 300 200 100 100 with t := 3 } 300 200 = true ∧
    Shape.in_ env0 { Rect.ctor 3 0 300 200 100 100 with t := 3 } 100 100 = true) :=
  ⟨by decide, rect_normalization env0 3 0 300 200 100 100 3 (by decide)⟩

/-- C14: for every pair of points the Grid constructor yields `(x, y)` the
top-left corner and sizes `w`, `h` with `w mod 100 = 0`, `h mod 60 = 0`,
`w ≤ |x1 - x2| < w + 100` and `h ≤ |y1 - y2| < h + 60`; for the points
`(10, 10)` and `(225, 145)` it yields `w = 200` and `h = 120`. -/
theorem grid_quantization (cci cmi x1 y1 x2 y2 : Int) :
    (∃ w h, (Grid.ctor cci cmi x1 y1 x2 y2).v = .Grid w h ∧
      w % 100 = 0 ∧ h % 60 = 0 ∧ 0 ≤ w ∧ 0 ≤ h ∧
      w ≤ |x1 - x2| ∧ |x1 - x2| < w + 100 ∧ h ≤ |y1 - y2| ∧ |y1 - y2| < h + 60) ∧
    (Grid.ctor cci cmi x1 y1 x2 y2).x = min x1 x2 ∧
    (Grid.ctor cci cmi x1 y1 x2 y2).y = min y1 y2 ∧
    (Grid.ctor cci cmi 10 10 225 145).v = .Grid 200 120 := by
  have hx := ite_gt_eq_min x1 x2
  have hy := ite_gt_eq_min y1 y2
  have hw : x2 - (if x1 > x2 then x2 else x1) + x1 - (if x1 > x2 then x2 else x1)
      = |x1 - x2| := by rw [← rect_w_eq x1 x2]; ring
  have hh : y2 - (if y1 > y2 then y2 else y1) + y1 - (if y1 > y2 then y2 else y1)
      = |y1 - y2| := by rw [← rect_w_eq y1 y2]; ring
  have ax := abs_nonneg (x1 - x2)
  have ay := abs_nonneg (y1 - y2)
  refine ⟨⟨|x1 - x2| / 100 * 100, |y1 - y2| / 60 * 60, ?_, ?_⟩,
    by simp only [Grid.ctor]; exact hx, by simp only [Grid.ctor]; exact hy, rfl⟩
  · simp only [Grid.ctor, hw, hh]
    rw [Int.tdiv_eq_ediv ax (by decide), Int.tdiv_eq_ediv ay (by decide)]
  · generalize |x1 - x2| = a at ax
    generalize |y1 - y2| = b at ay
    omega

/-- C15: the Ellipse constructor always puts the centre at `(x1, y1)`; when
`10 * |dx| < |dy|` it yields `rx = ry = |dy|`, and when `10 * |dy| < |dx|` it
yields `rx = ry = |dx|`, for `dx = x2 - x1` and `dy = y2 - y1`. -/
theorem ellipse_axis_snap (env : Env) (cci cmi x1 y1 x2 y2 : Int) :
    (Ellipse.ctor env cci cmi x1 y1 x2 y2).x = x1 ∧
    (Ellipse.ctor env cci cmi x1 y1 x2 y2).y = y1 ∧
    (10 * |x2 - x1| < |y2 - y1| →
      (Ellipse.ctor env cci cmi x1 y1 x2 y2).v = .Ellipse |y2 - y1| |y2 - y1|) ∧
    (10 * |y2 - y1| < |x2 - x1| →
      (Ellipse.ctor env cci cmi x1 y1 x2 y2).v = .Ellipse |x2 - x1| |x2 - x1|) := by
  refine ⟨rfl, rfl, ?_, ?_⟩
  · intro h
    simp only [Ellipse.ctor, h, if_true]
  · intro h
    have ax := abs_nonneg (x2 - x1)
    have ay := abs_nonneg (y2 - y1)
    have h2 : ¬ 10 * |x2 - x1| < |y2 - y1| := by omega
    simp only [Ellipse.ctor, h, h2, if_true, if_false]

/-- Witness of C15: a tall drag from `(0, 0)` to `(3, 100)` and a wide drag
from `(0, 0)` to `(100, 3)`. -/
theorem ellipse_axis_snap_witness :
    10 * |(3 : Int) - 0| < |(100 : Int) - 0| ∧ 10 * |(3 : Int) - 0| < |(100 : Int) - 0| ∧
    (Ellipse.ctor env0 3 0 0 0 3 100).v = .Ellipse |100 - 0| |100 - 0| ∧
    (Ellipse.ctor env0 3 0 0 0 100 3).v = .Ellipse |100 - 0| |100 - 0| :=
  ⟨by decide, by decide,
    (ellipse_axis_snap env0 3 0 0 0 3 100).2.2.1 (by decide),
    (ellipse_axis_snap env0 3 0 0 0 100 3).2.2.2 (by decide)⟩

/-- C16: the Arrow constructor always puts the tail at `(x1, y1)`; for
`dx = x2 - x1` and `dy = y2 - y1`, when `10 * |dx| < |dy|` it stores `dx = 0`
and `dy`, when `10 * |dy| < |dx|` it stores `dx` and `dy = 0`, and in every
other case it stores `dx` and `dy`. -/
theorem arrow_axis_snap (cci cmi x1 y1 x2 y2 : Int) :
    (Arrow.ctor cci cmi x1 y1 x2 y2).x = x1 ∧
    (Arrow.ctor cci cmi x1 y1 x2 y2).y = y1 ∧
    (10 * |x2 - x1| < |y2 - y1| →
      (Arrow.ctor cci cmi x1 y1 x2 y2).v = .Arrow 0 (y2 - y1)) ∧
    (10 * |y2 - y1| < |x2 - x1| →
      (Arrow.ctor cci cmi x1 y1 x2 y2).v = .Arrow (x2 - x1) 0) ∧
    (¬ 10 * |x2 - x1| < |y2 - y1| → ¬ 10 * |y2 - y1| < |x2 - x1| →
      (Arrow.ctor cci cmi x1 y1 x2 y2).v = .Arrow (x2 - x1) (y2 - y1)) := by
  refine ⟨rfl, rfl, ?_, ?_, ?_⟩
  · intro h
    simp only [Arrow.ctor, h, if_true]
  · intro h
    have ax := abs_nonneg (x2 - x1)
    have ay := abs_nonneg (y2 - y1)
    have h2 : ¬ 10 * |x2 - x1| < |y2 - y1| := by omega
    simp only [Arrow.ctor, h, h2, if_true, if_false]
  · intro h1 h2
    simp only [Arrow.ctor, h1, h2, if_false]

/-- Witness of C16: a tall drag, a wide drag and a diagonal drag from `(0, 0)`. -/
theorem arrow_axis_snap_witness :
    (Arrow.ctor 3 0 0 0 3 100).v = .Arrow 0 (100 - 0) ∧
    (Arrow.ctor 3 0 0 0 100 3).v = .Arrow (100 - 0) 0 ∧
    (Arrow.ctor 3 0 0 0 40 30).v = .Arrow (40 - 0) (30 - 0) :=
  ⟨(arrow_axis_snap 3 0 0 0 3 100).2.2.1 (by decide),
    (arrow_axis_snap 3 0 0 0 100 3).2.2.2.1 (by decide),
    (arrow_axis_snap 3 0 0 0 40 30).2.2.2.2 (by decide) (by decide)⟩

theorem Rect_ctor_eq (cci cmi x1 y1 x2 y2 : Int) :
    Rect.ctor cci cmi x1 y1 x2 y2
      = { x := min x1 x2, y := min y1 y2, c := cci, m := cmi, t := 5,
          v := .Rect |x1 - x2| |y1 - y2| } := by
  unfold Rect.ctor
  dsimp only
  rw [rect_w_eq, rect_w_eq, ite_gt_eq_min, ite_gt_eq_min]

theorem Image_ctor_eq (imgs : List Nat) (cii cci cmi x1 y1 x2 y2 : Int) :
    Image.ctor imgs cii cci cmi x1 y1 x2 y2
      = (imgs[sizeT cii]?).map fun tex =>
          { x := min x1 x2, y := min y1 y2, c := cci, m := cmi, t := 5,
            v := .Image |x1 - x2| |y1 - y2| tex } := by
  unfold Image.ctor
  dsimp only
  rw [rect_w_eq, rect_w_eq, ite_gt_eq_min, ite_gt_eq_min]
  cases imgs[sizeT cii]? <;> rfl

/-- Counterexample to C18: the Rect built from `(0, 0)` and `(100, 2)` has
`h = 2 < t = 5`; the point `(50, 4)` is hit (it is in the top border box
`[0, 100] × [0, 5]`) although it is not in the closed rectangle
`[0, 100] × [0, 2]`. -/
theorem thin_rect_counterexample :
    (Rect.ctor 3 0 0 0 100 2).x = 0 ∧ (Rect.ctor 3 0 0 0 100 2).y = 0 ∧
    (Rect.ctor 3 0 0 0 100 2).v = .Rect 100 2 ∧ (Rect.ctor 3 0 0 0 100 2).t = 5 ∧
    Shape.in_ env0 (Rect.ctor 3 0 0 0 100 2) 50 4 = true ∧
    ¬ specBorderBand 0 0 100 2 5 50 4 := by
  refine ⟨by decide, by decide, by decide, by decide, by decide, ?_⟩
  unfold specBorderBand
  omega

/-- C18 (amended): for every Rect or Image built by its constructor and every
thickness `t` with `t ≤ w` and `t ≤ h`, the hit-test is true exactly on the
border band of width `t`: the point is in the closed rectangle
`[x, x+w] × [y, y+h]` and within `t` of one of its four edges. -/
theorem rect_hit_band (env : Env) (cci cmi x1 y1 x2 y2 t cx cy : Int)
    (hw : t ≤ |x1 - x2|) (hh : t ≤ |y1 - y2|) :
    (Shape.in_ env { Rect.ctor cci cmi x1 y1 x2 y2 with t := t } cx cy = true ↔
      specBorderBand (min x1 x2) (min y1 y2) |x1 - x2| |y1 - y2| t cx cy) ∧
    (∀ imgs cii sh, Image.ctor imgs cii cci cmi x1 y1 x2 y2 = some sh →
      (Shape.in_ env { sh with t := t } cx cy = true ↔
        specBorderBand (min x1 x2) (min y1 y2) |x1 - x2| |y1 - y2| t cx cy)) := by
  have key : Rect.in_ (min x1 x2) (min y1 y2) |x1 - x2| |y1 - y2| t cx cy = true ↔
      specBorderBand (min x1 x2) (min y1 y2) |x1 - x2| |y1 - y2| t cx cy := by
    unfold Rect.in_ specBorderBand
    generalize min x1 x2 = x at *
    generalize min y1 y2 = y at *
    generalize |x1 - x2| = w at *
    generalize |y1 - y2| = h at *
    split_ifs <;> simp only [eq_self_iff_true, true_iff, Bool.false_eq_true, false_iff] <;> omega
  constructor
  · rw [Rect_ctor_eq]
    exact key
  · intro imgs cii sh e
    rw [Image_ctor_eq] at e
    cases hi : imgs[sizeT cii]? with
    | none => rw [hi] at e; cases e
    | some tex =>
      rw [hi] at e
      cases e
      exact key

/-- Witness of C18 (amended): the Rect and the Image built from `(0, 0)` and
`(300, 200)`, thickness 5, at the point `(2, 100)` of the left border. -/
theorem rect_hit_band_witness :
    (5 : Int) ≤ |(0 : Int) - 300| ∧ (5 : Int) ≤ |(0 : Int) - 200| ∧
    ((Shape.in_ env0 { Rect.ctor 3 0 0 0 300 200 with t := 5 } 2 100 = true ↔
      specBorderBand (min 0 300) (min 0 200) |0 - 300| |0 - 200| 5 2 100) ∧
    (∀ imgs cii sh, Image.ctor imgs cii 3 0 0 0 300 200 = some sh →
      (Shape.in_ env0 { sh with t := 5 } 2 100 = true ↔
        specBorderBand (min 0 300) (min 0 200) |0 - 300| |0 - 200| 5 2 100))) :=
  ⟨by decide, by decide, rect_hit_band env0 3 0 0 0 300 200 5 2 100 (by decide) (by decide)⟩

theorem Grid_ctor_eq (cci cmi x1 y1 x2 y2 : Int) :
    Grid.ctor cci cmi x1 y1 x2 y2
      = { x := min x1 x2, y := min y1 y2, c := cci, m := cmi, t := 5,
          v := .Grid (|x1 - x2| / 100 * 100) (|y1 - y2| / 60 * 60) } := by
  have hw : x2 - (if x1 > x2 then x2 else x1) + x1 - (if x1 > x2 then x2 else x1)
      = |x1 - x2| := by rw [← rect_w_eq x1 x2]; ring
  have hh : y2 - (if y1 > y2 then y2 else y1) + y1 - (if y1 > y2 then y2 else y1)
      = |y1 - y2| := by rw [← rect_w_eq y1 y2]; ring
  unfold Grid.ctor
  dsimp only
  rw [hw, hh, ite_gt_eq_min, ite_gt_eq_min,
    Int.tdiv_eq_ediv (abs_nonneg _) (by decide), Int.tdiv_eq_ediv (abs_nonneg _) (by decide)]

/-- Counterexample to C12: the Arrow built from `(0, 0)` and `(100, 0)` has
thickness 5 and the bounding box `[0, 100] × [0, 0]`; the point `(50, 8)` is
outside that box expanded by 5, and the hit-test accepts it, its distance 8 to
the segment being within the band `2 * t = 10` of the test.  (At this input the
readings of `env0` are the values of the double computations: `hypot(0, 100)`
is 100, `800 / 100` is 8, and `hypot(50, 8)` is 50.6, stored as 50.) -/
theorem arrow_band_counterexample :
    (Arrow.ctor 3 0 0 0 100 0).v = .Arrow 100 0 ∧ (Arrow.ctor 3 0 0 0 100 0).t = 5 ∧
    bbox (Arrow.ctor 3 0 0 0 100 0) = (0, 0, 100, 0) ∧
    outsideExpanded (bbox (Arrow.ctor 3 0 0 0 100 0)) (Arrow.ctor 3 0 0 0 100 0).t 50 8 ∧
    Shape.in_ env0 (Arrow.ctor 3 0 0 0 100 0) 50 8 = true := by
  have s1 : Nat.sqrt 2564 = 50 := (Nat.eq_sqrt.2 ⟨by decide, by decide⟩).symm
  have s2 : Nat.sqrt 10000 = 100 := (Nat.eq_sqrt.2 ⟨by decide, by decide⟩).symm
  refine ⟨by decide, by decide, by decide, ?_, ?_⟩
  · have : bbox (Arrow.ctor 3 0 0 0 100 0) = (0, 0, 100, 0) := by decide
    rw [this]
    unfold outsideExpanded
    right; right; right
    decide
  · have e1 : Arrow.ctor 3 0 0 0 100 0 = ⟨0, 0, 3, 0, 5, .Arrow 100 0⟩ := by decide
    rw [e1]
    simp [Shape.in_, Arrow.in_, env0, s1, s2]

/-- The test `hypot(a / b, c / d) <= 1` of `env1` holds only when `|a| ≤ |b|`
and `|c| ≤ |d|`. -/
theorem env1_hypotLe1 (a b c d : Int) (h : env1.hypotLe1 a b c d = true) :
    |a| ≤ |b| ∧ |c| ≤ |d| := by
  simp only [env1, decide_eq_true_eq] at h
  obtain ⟨hb, hd, h⟩ := h
  have hb2 : 0 < b ^ 2 := by positivity
  have hd2 : 0 < d ^ 2 := by positivity
  constructor
  · apply sq_le_sq.1
    have : (a * d) ^ 2 ≤ (b * d) ^ 2 := by nlinarith [sq_nonneg (c * b)]
    rw [mul_pow, mul_pow] at this
    exact le_of_mul_le_mul_right this hd2
  · apply sq_le_sq.1
    have : (c * b) ^ 2 ≤ (b * d) ^ 2 := by nlinarith [sq_nonneg (a * d)]
    rw [mul_pow, mul_pow, mul_comm (b ^ 2)] at this
    exact le_of_mul_le_mul_right this hb2

/-- The scaling `r *= 1.414` of `env1` keeps a non-negative radius non-negative. -/
theorem env1_scale1414 (r : Int) (h : 0 ≤ r) : 0 ≤ env1.scale1414 r := by
  show 0 ≤ (r * 1414).tdiv 1000
  rw [Int.tdiv_eq_ediv (by omega) (by decide)]
  omega

/-- C12 (amended): for every variant but Arrow, built by its constructor, and
every thickness `t ≥ 0`, the hit-test is false at every point outside the
bounding box of the shape expanded by `t` on every side.  For Rect, Grid, Text
and Image the hit-test is in integers and nothing is assumed.  For Ellipse the
hit-test is in doubles, and two facts of the double computations are assumed:
`hypot(a / b, c / d) <= 1` holds only when `|a| ≤ |b|` and `|c| ≤ |d|` (a
quotient by zero gives an infinite or NaN `hypot`, never `<= 1`), and
`r *= 1.414` keeps a non-negative radius non-negative. -/
theorem hit_bounded (env : Env) (cci cmi x1 y1 x2 y2 t cx cy : Int) (ht : 0 ≤ t) :
    (outsideExpanded (bbox (Rect.ctor cci cmi x1 y1 x2 y2)) t cx cy →
      Shape.in_ env { Rect.ctor cci cmi x1 y1 x2 y2 with t := t } cx cy = false) ∧
    ((∀ a b c d, env.hypotLe1 a b c d = true → |a| ≤ |b| ∧ |c| ≤ |d|) →
      (∀ r, 0 ≤ r → 0 ≤ env.scale1414 r) →
      outsideExpanded (bbox (Ellipse.ctor env cci cmi x1 y1 x2 y2)) t cx cy →
      Shape.in_ env { Ellipse.ctor env cci cmi x1 y1 x2 y2 with t := t } cx cy = false) ∧
    (outsideExpanded (bbox (Grid.ctor cci cmi x1 y1 x2 y2)) t cx cy →
      Shape.in_ env { Grid.ctor cci cmi x1 y1 x2 y2 with t := t } cx cy = false) ∧
    (∀ init, outsideExpanded (bbox (Text.ctor env cci cmi init x1 y1)) t cx cy →
      Shape.in_ env { Text.ctor env cci cmi init x1 y1 with t := t } cx cy = false) ∧
    (∀ imgs cii sh, Image.ctor imgs cii cci cmi x1 y1 x2 y2 = some sh →
      outsideExpanded (bbox sh) t cx cy →
      Shape.in_ env { sh with t := t } cx cy = false) := by
  have ax := abs_nonneg (x1 - x2)
  have ay := abs_nonneg (y1 - y2)
  have key : ∀ x y w h : Int, 0 ≤ w → 0 ≤ h →
      outsideExpanded (x, y, x + w, y + h) t cx cy → Rect.in_ x y w h t cx cy = false := by
    intro x y w h hw hh ho
    unfold outsideExpanded at ho
    unfold Rect.in_
    dsimp only at ho
    split_ifs <;> first | rfl | (exfalso; omega)
  refine ⟨?_, ?_, ?_, ?_, ?_⟩
  · rw [Rect_ctor_eq]
    exact key _ _ _ _ ax ay
  · intro hle hsc
    have key2 : ∀ rx ry : Int, 0 ≤ rx → 0 ≤ ry →
        outsideExpanded (x1 - rx, y1 - ry, x1 + rx, y1 + ry) t cx cy →
        Ellipse.in_ env x1 y1 rx ry t cx cy = false := by
      intro rx ry hrx hry ho
      unfold outsideExpanded at ho
      dsimp only at ho
      unfold Ellipse.in_
      dsimp only
      cases hl : env.hypotLe1 (cx - x1) rx (cy - y1) ry with
      | false => exact Bool.and_false _
      | true =>
        exfalso
        obtain ⟨h1, h2⟩ := hle _ _ _ _ hl
        rw [abs_of_nonneg hrx] at h1
        rw [abs_of_nonneg hry] at h2
        have h3 := abs_le.1 h1
        have h4 := abs_le.1 h2
        omega
    have bx := abs_nonneg (x2 - x1)
    have by_ := abs_nonneg (y2 - y1)
    unfold Ellipse.ctor
    dsimp only
    by_cases c1 : 10 * |x2 - x1| < |y2 - y1|
    · rw [if_pos c1]
      exact key2 _ _ by_ by_
    · rw [if_neg c1]
      by_cases c2 : 10 * |y2 - y1| < |x2 - x1|
      · rw [if_pos c2]
        exact key2 _ _ bx bx
      · rw [if_neg c2]
        exact key2 _ _ (hsc _ bx) (hsc _ by_)
  · rw [Grid_ctor_eq]
    intro ho
    unfold outsideExpanded bbox at ho
    simp only [Shape.in_, Grid.in_]
    dsimp only at ho
    rw [if_pos (by omega)]
  · intro init ho
    unfold outsideExpanded bbox Text.ctor at ho
    simp only [Shape.in_, Text.ctor, Text.in_]
    dsimp only at ho
    split_ifs <;> first | rfl | (exfalso; omega)
  · intro imgs cii sh e
    rw [Image_ctor_eq] at e
    cases hi : imgs[sizeT cii]? with
    | none => rw [hi] at e; cases e
    | some tex =>
      rw [hi] at e
      cases e
      exact key _ _ _ _ ax ay

/-- Witness of C12 (amended): the point `(500, 500)` and the Rect, the Ellipse,
the Grid, the Text and the Image built at `(0, 0)`, with thickness 5; the
Ellipse from `(0, 0)` to `(100, 100)` has the radii 141 and is hit at
`(139, 0)`, the Rect is hit at `(2, 100)`. -/
theorem hit_bounded_witness :
    (0 : Int) ≤ 5 ∧
    outsideExpanded (bbox (Rect.ctor 3 0 0 0 300 200)) 5 500 500 ∧
    Shape.in_ env0 { Rect.ctor 3 0 0 0 300 200 with t := 5 } 500 500 = false ∧
    Shape.in_ env0 { Rect.ctor 3 0 0 0 300 200 with t := 5 } 2 100 = true ∧
    (∀ a b c d, env1.hypotLe1 a b c d = true → |a| ≤ |b| ∧ |c| ≤ |d|) ∧
    (∀ r, 0 ≤ r → 0 ≤ env1.scale1414 r) ∧
    bbox (Ellipse.ctor env1 3 0 0 0 100 100) = (-141, -141, 141, 141) ∧
    outsideExpanded (bbox (Ellipse.ctor env1 3 0 0 0 100 100)) 5 500 500 ∧
    Shape.in_ env1 { Ellipse.ctor env1 3 0 0 0 100 100 with t := 5 } 500 500 = false ∧
    Shape.in_ env1 { Ellipse.ctor env1 3 0 0 0 100 100 with t := 5 } 139 0 = true ∧
    Shape.in_ env0 { Grid.ctor 3 0 0 0 300 200 with t := 5 } 500 500 = false ∧
    Shape.in_ env0 { Text.ctor env0 3 0 114 0 0 with t := 5 } 500 500 = false ∧
    (Image.ctor [7] 0 3 0 0 0 300 200).map (fun sh => Shape.in_ env0 { sh with t := 5 } 500 500)
      = some false :=
  have o1 : outsideExpanded (bbox (Rect.ctor 3 0 0 0 300 200)) 5 500 500 := by
    unfold outsideExpanded; decide
  have o2 : outsideExpanded (bbox (Grid.ctor 3 0 0 0 300 200)) 5 500 500 := by
    unfold outsideExpanded; decide
  have o3 : outsideExpanded (bbox (Text.ctor env0 3 0 114 0 0)) 5 500 500 := by
    unfold outsideExpanded; decide
  have o4 : outsideExpanded (bbox (Ellipse.ctor env1 3 0 0 0 100 100)) 5 500 500 := by
    unfold outsideExpanded; decide
  have o5 : outsideExpanded (bbox ⟨0, 0, 3, 0, 5, .Image 300 200 7⟩) 5 500 500 := by
    unfold outsideExpanded; decide
  have i5 : Image.ctor [7] 0 3 0 0 0 300 200 = some ⟨0, 0, 3, 0, 5, .Image 300 200 7⟩ := by
    decide
  have h5 := (hit_bounded env0 3 0 0 0 300 200 5 500 500 (by decide)).2.2.2.2 [7] 0 _ i5 o5
  ⟨by decide, o1,
    (hit_bounded env0 3 0 0 0 300 200 5 500 500 (by decide)).1 o1,
    by decide, env1_hypotLe1, env1_scale1414, by decide, o4,
    (hit_bounded env1 3 0 0 0 100 100 5 500 500 (by decide)).2.1 env1_hypotLe1
      env1_scale1414 o4,
    by decide,
    (hit_bounded env0 3 0 0 0 300 200 5 500 500 (by decide)).2.2.1 o2,
    (hit_bounded env0 3 0 0 0 0 0 5 500 500 (by decide)).2.2.2.1 114 o3,
    by rw [i5]; exact congrArg some h5⟩

/-- Counterexample to C17: for the palette index 0 the lighter mask is 0, so
the body of a Rect with `c = 0`, `m = 0` has the colour bits `0x202020` and not
`0x202020 | 0x808080 = 0xA0A0A0`; and the segment of an Arrow is always drawn
with `materials[2]`, so for `m = 0` its top byte is `0xFF` and not `0x00`. -/
theorem lighter_mask_counterexample :
    bodyColor ⟨0, 0, 0, 0, 5, .Rect 10 10⟩ = some (some 0x202020) ∧
    (0x202020 : Nat) % 2 ^ 24 ≠ 0x202020 ||| 0x808080 ∧
    bodyColor ⟨0, 0, 3, 0, 5, .Arrow 10 10⟩ = some (some 0xff80ff80) ∧
    tableAt materials 0 = some 0 ∧ (0xff80ff80 : Nat) / 2 ^ 24 ≠ 0 / 2 ^ 24 := by
  decide

/-- The colour words of the tables: for `c` in `0..7` and `m` in `0..2` the OR
of `colors[c]`, the lighter mask and an alpha preset keeps the colour bits in
the low 24 bits and the preset in the top byte. -/
theorem colour_words (c m : Int) (hc : 0 ≤ c ∧ c ≤ 7) (hm : 0 ≤ m ∧ m ≤ 2) :
    ∃ col mat, tableAt colors c = some col ∧ tableAt materials m = some mat ∧
      tableAt materials 2 = some 0xff000000 ∧
      (mat / 2 ^ 24 = 0x00 ∨ mat / 2 ^ 24 = 0x7f ∨ mat / 2 ^ 24 = 0xff) ∧
      (col ||| LIGHTER_COLOR c ||| mat) % 2 ^ 24 = col ||| LIGHTER_COLOR c ∧
      (col ||| LIGHTER_COLOR c ||| mat) / 2 ^ 24 = mat / 2 ^ 24 ∧
      (col ||| LIGHTER_COLOR c ||| 0xff000000) % 2 ^ 24 = col ||| LIGHTER_COLOR c ∧
      (col ||| LIGHTER_COLOR c ||| 0xff000000) / 2 ^ 24 = 0xff := by
  obtain ⟨c0, c7⟩ := hc
  obtain ⟨m0, m2⟩ := hm
  interval_cases c <;> interval_cases m <;>
    exact ⟨_, _, rfl, rfl, rfl, by decide, by decide, by decide, by decide, by decide⟩

/-- C17 (amended): for every palette index `c` in `0..7` and material index
`m` in `0..2`, the body colour word of a Rect, an Ellipse or a Grid has its
low 24 bits equal to `colors[c]` OR the lighter mask, and its top byte equal
to the alpha preset `materials[m]`, one of `0x00`, `0x7F`, `0xFF`; the colour
word of the segment of an Arrow has the same low 24 bits and the top byte
`0xFF` whatever `m` is.  The lighter mask is `0x808080` for `c ≠ 0` and 0 for
`c = 0`. -/
theorem body_colour (sh : Shape) (hc : 0 ≤ sh.c ∧ sh.c ≤ 7) (hm : 0 ≤ sh.m ∧ sh.m ≤ 2) :
    LIGHTER_COLOR sh.c = (if sh.c = 0 then 0 else 0x808080) ∧
    ∃ col mat, tableAt colors sh.c = some col ∧ tableAt materials sh.m = some mat ∧
      (mat / 2 ^ 24 = 0x00 ∨ mat / 2 ^ 24 = 0x7f ∨ mat / 2 ^ 24 = 0xff) ∧
      match sh.v with
      | .Rect _ _ | .Ellipse _ _ | .Grid _ _ =>
        ∃ w, bodyColor sh = some (some w) ∧ w % 2 ^ 24 = col ||| LIGHTER_COLOR sh.c ∧
          w / 2 ^ 24 = mat / 2 ^ 24
      | .Arrow dx dy =>
        (dx = 0 ∧ dy = 0 ∧ bodyColor sh = some none) ∨
        ∃ w, bodyColor sh = some (some w) ∧ w % 2 ^ 24 = col ||| LIGHTER_COLOR sh.c ∧
          w / 2 ^ 24 = 0xff
      | .Text _ _ _ => bodyColor sh = some none
      | .Image _ _ _ => bodyColor sh = some none := by
  obtain ⟨x, y, c, m, t, v⟩ := sh
  dsimp only at hc hm ⊢
  constructor
  · unfold LIGHTER_COLOR
    split_ifs <;> first | rfl | (exfalso; omega)
  · obtain ⟨col, mat, e1, e2, e3, d, p1, p2, p3, p4⟩ := colour_words c m hc hm
    refine ⟨col, mat, e1, e2, d, ?_⟩
    cases v with
    | Rect w h => exact ⟨_, by simp only [bodyColor, e1, e2], p1, p2⟩
    | Ellipse rx ry => exact ⟨_, by simp only [bodyColor, e1, e2], p1, p2⟩
    | Grid w h => exact ⟨_, by simp only [bodyColor, e1, e2], p1, p2⟩
    | Text s w h => exact rfl
    | Image w h i => exact rfl
    | Arrow dx dy =>
      by_cases h : dx = 0 ∧ dy = 0
      · exact Or.inl ⟨h.1, h.2, by simp only [bodyColor, h, and_self, if_true]⟩
      · exact Or.inr ⟨_, by simp only [bodyColor, h, if_false, e1, e3], p3, p4⟩

/-- Witness of C17 (amended): a Rect with the palette index 2 and the
translucent material. -/
theorem body_colour_witness :
    ((0 : Int) ≤ 2 ∧ (2 : Int) ≤ 7) ∧ ((0 : Int) ≤ 1 ∧ (1 : Int) ≤ 2) ∧
    bodyColor ⟨0, 0, 2, 1, 5, .Rect 10 10⟩ = some (some 0x7f80ffff) ∧
    LIGHTER_COLOR (Shape.mk 0 0 2 1 5 (.Rect 10 10)).c
      = (if (Shape.mk 0 0 2 1 5 (.Rect 10 10)).c = 0 then 0 else 0x808080) :=
  ⟨by decide, by decide, by decide,
    (body_colour ⟨0, 0, 2, 1, 5, .Rect 10 10⟩ (by decide) (by decide)).1⟩

/-! ## Image placement -/

theorem sizeT_of_nonneg (i : Int) (h0 : 0 ≤ i) (h1 : i ≤ 127) : sizeT i = i.toNat := by
  unfold sizeT
  have : i % 2 ^ 64 = i := Int.emod_eq_of_lt h0 (by norm_num; omega)
  rw [this]

theorem sizeT_of_neg (i : Int) (h0 : -128 ≤ i) (h1 : i < 0) : 2 ^ 63 ≤ sizeT i := by
  unfold sizeT
  have e : i % 2 ^ 64 = i + 2 ^ 64 := by
    rw [← Int.add_emod_self]
    exact Int.emod_eq_of_lt (by norm_num; omega) (by norm_num; omega)
  rw [e]
  have : (2 : Int) ^ 64 = 18446744073709551616 := by norm_num
  have : (2 : Nat) ^ 63 = 9223372036854775808 := by norm_num
  omega

/-- The guard `cii >= imgs.size()` of lines 407 and 635, for a `char` cursor
and a vector of fewer than `2^63` textures: it lets through exactly the
cursors with `0 ≤ cii < imgs.size()`. -/
theorem guard_iff (imgs : List Nat) (cii : Int) (h0 : -128 ≤ cii) (h1 : cii ≤ 127)
    (hn : imgs.length < 2 ^ 63) :
    sizeT cii ≥ imgs.length ↔ ¬ (0 ≤ cii ∧ cii < (imgs.length : Int)) := by
  by_cases c : 0 ≤ cii
  · rw [sizeT_of_nonneg cii c h1]
    constructor
    · intro h hh; omega
    · intro h; omega
  · have := sizeT_of_neg cii h0 (by omega)
    constructor
    · intro _ hh; exact c hh.1
    · intro _; omega

theorem keyUpChain_drag_I (env : Env) (ctrl : Bool) (cbd : List Nat) (s : Editor)
    (ht : s.ms.typing = false) (hm : ¬ (s.ms.px = s.ms.x ∧ s.ms.py = s.ms.y)) :
    keyUpChain env SDL_SCANCODE_I 105 ctrl cbd s
      = ((pushToHistory env SDL_SCANCODE_I s).map rerender).map endKeyUp := by
  simp [keyUpChain, ht, hm, SDL_SCANCODE_I, SDL_SCANCODE_Z, SDL_SCANCODE_Y, SDL_SCANCODE_V,
    SDL_SCANCODE_DELETE, SDL_SCANCODE_RETURN, SDL_SCANCODE_GRAVE, SDL_SCANCODE_KP_1,
    SDLK_0, SDLK_7]

theorem pushToHistory_I (env : Env) (s : Editor) :
    pushToHistory env SDL_SCANCODE_I s
      = if sizeT s.cii ≥ s.imgs.length then some s
        else (dupeCurrent s).bind fun s1 =>
          (Image.ctor s1.imgs s1.cii s1.cci s1.cmi s1.ms.px s1.ms.py s1.ms.x s1.ms.y).bind
            fun sh => pushBack sh s1 := by
  simp [pushToHistory, SDL_SCANCODE_I, SDL_SCANCODE_R, SDL_SCANCODE_E, SDL_SCANCODE_A,
    SDL_SCANCODE_G]

theorem previewShape_I (env : Env) (s : Editor) :
    previewShape env { s with preview_requested := true, preview_shape := SDL_SCANCODE_I }
      = if sizeT s.cii ≥ s.imgs.length then some none
        else (Image.ctor s.imgs s.cii s.cci s.cmi s.ms.px s.ms.py s.ms.x s.ms.y).map some := by
  simp [previewShape, charOf, SDL_SCANCODE_I, SDL_SCANCODE_R, SDL_SCANCODE_E, SDL_SCANCODE_A,
    SDL_SCANCODE_G]

/-- C11: in a reachable state with the image cursor in the range `-2..6` that
the keypad keys set, and fewer than `2^63` published textures, the release of
I after a drag (not typing, cursor off the anchor) and the preview of I
construct an Image exactly when `0 ≤ cii < imgs.size()`, and then with the
texture `imgs[cii]` of the vector: the release commits and appends that Image
to the current scene.  Otherwise the preview constructs nothing and the
release leaves `h`, `hi`, `hl` and the heap unchanged.  The keypad keys
`KP_1..KP_9` set `cii` to `scancode - KP_1 - 2`, a value of `-2..6`. -/
theorem image_placement_guarded (env : Env) (s : Editor) (r : Reachable env s)
    (hc : -2 ≤ s.cii ∧ s.cii ≤ 6) (hn : s.imgs.length < 2 ^ 63)
    (ht : s.ms.typing = false) (hm : ¬ (s.ms.px = s.ms.x ∧ s.ms.py = s.ms.y))
    (ctrl : Bool) (cbd : List Nat) :
    ((0 ≤ s.cii ∧ s.cii < (s.imgs.length : Int) ∧
      ∃ tex s1 cur, s.imgs[s.cii.toNat]? = some tex ∧
        previewShape env { s with preview_requested := true, preview_shape := SDL_SCANCODE_I }
          = some (some { x := min s.ms.px s.ms.x, y := min s.ms.py s.ms.y, c := s.cci,
                         m := s.cmi, t := 5,
                         v := .Image |s.ms.px - s.ms.x| |s.ms.py - s.ms.y| tex }) ∧
        frame env [.KEYUP SDL_SCANCODE_I 105 ctrl cbd] s = some s1 ∧
        slotAt s.h s.hi = some cur ∧
        s1.heap = s.heap ++ [{ x := min s.ms.px s.ms.x, y := min s.ms.py s.ms.y, c := s.cci,
                               m := s.cmi, t := 5,
                               v := .Image |s.ms.px - s.ms.x| |s.ms.py - s.ms.y| tex }] ∧
        slotAt s1.h s1.hi = some (cur ++ [s.heap.length])) ∨
     (¬ (0 ≤ s.cii ∧ s.cii < (s.imgs.length : Int)) ∧
      previewShape env { s with preview_requested := true, preview_shape := SDL_SCANCODE_I }
        = some none ∧
      pushToHistory env SDL_SCANCODE_I s = some s ∧
      ∃ s1, frame env [.KEYUP SDL_SCANCODE_I 105 ctrl cbd] s = some s1 ∧
        s1.h = s.h ∧ s1.hi = s.hi ∧ s1.hl = s.hl ∧ s1.heap = s.heap)) ∧
    (∀ scancode : Nat, SDL_SCANCODE_KP_1 ≤ scancode → scancode ≤ SDL_SCANCODE_KP_9 →
      -2 ≤ (scancode : Int) - SDL_SCANCODE_KP_1 - 2 ∧
      (scancode : Int) - SDL_SCANCODE_KP_1 - 2 ≤ 6) := by
  refine ⟨?_, ?_⟩
  swap
  · intro scancode h1 h2
    unfold SDL_SCANCODE_KP_1 at h1 ⊢
    unfold SDL_SCANCODE_KP_9 at h2
    omega
  have inv := r.inv
  have g := guard_iff s.imgs s.cii (by omega) (by omega) hn
  have hframe : ∀ s3, pushToHistory env SDL_SCANCODE_I { s with preview_requested := false }
        = some s3 →
      frame env [.KEYUP SDL_SCANCODE_I 105 ctrl cbd] s
        = some { s3 with rerender_requested := false, ms := { s3.ms with deleting := false } } := by
    intro s3 hp
    rw [frame_keyUp, onKeyUp,
      keyUpChain_drag_I env ctrl cbd { s with preview_requested := false } ht hm, hp]
    simp only [Option.map_some', render_if_proj, endKeyUp_eq, rerender]
  by_cases c : 0 ≤ s.cii ∧ s.cii < (s.imgs.length : Int)
  · left
    have ng : ¬ sizeT s.cii ≥ s.imgs.length := fun h => (g.1 h) c
    have st : sizeT s.cii = s.cii.toNat := sizeT_of_nonneg s.cii c.1 (by omega)
    obtain ⟨tex, htex⟩ := exists_getElem? s.imgs s.cii.toNat (by omega)
    have hctor : ∀ cci cmi x1 y1 x2 y2, Image.ctor s.imgs s.cii cci cmi x1 y1 x2 y2
        = some { x := min x1 x2, y := min y1 y2, c := cci, m := cmi, t := 5,
                 v := .Image |x1 - x2| |y1 - y2| tex } := by
      intro cci cmi x1 y1 x2 y2
      rw [Image_ctor_eq, st, htex]
      rfl
    have inv0 : Inv { s with preview_requested := false } := inv.congr rfl rfl rfl le_rfl
    obtain ⟨c1, s3, cur, d1, d2, d3, d4, d5, _⟩ :=
      commit_push_spec (Shape.mk (min s.ms.px s.ms.x) (min s.ms.py s.ms.y) s.cci s.cmi 5
        (.Image |s.ms.px - s.ms.x| |s.ms.py - s.ms.y| tex)) _ inv0
    obtain ⟨_, e1, _, e3, _⟩ := dupeCurrent_spec _ inv0
    rw [d1] at e1
    cases e1
    have f1 : c1.imgs = s.imgs := by rw [e3]
    have f2 : c1.cii = s.cii := by rw [e3]
    have f3 : c1.cci = s.cci := by rw [e3]
    have f4 : c1.cmi = s.cmi := by rw [e3]
    have f5 : c1.ms = s.ms := by rw [e3]
    have hp : pushToHistory env SDL_SCANCODE_I { s with preview_requested := false }
        = some s3 := by
      rw [pushToHistory_I, if_neg ng, d1]
      simp only [Option.some_bind, f1, f2, f3, f4, f5, hctor]
      exact d2
    refine ⟨c.1, c.2, tex, _, cur, htex, ?_, hframe s3 hp, d3, d4, d5⟩
    rw [previewShape_I, if_neg ng, hctor]
    rfl
  · right
    have yg : sizeT s.cii ≥ s.imgs.length := g.2 c
    have hp : pushToHistory env SDL_SCANCODE_I { s with preview_requested := false }
        = some { s with preview_requested := false } := by
      rw [pushToHistory_I, if_pos yg]
    refine ⟨c, ?_, ?_, _, hframe _ hp, rfl, rfl, rfl, rfl⟩
    · rw [previewShape_I, if_pos yg]
    · rw [pushToHistory_I, if_pos yg]

set_option maxRecDepth 100000 in
theorem stateImages_reachable : Reachable env0 stateImages :=
  Reachable.frames [[.KEYDOWN false SDL_SCANCODE_I], [.MOUSEMOTION 300 200]]
    (Reachable.loader none [7, 8] initial _ Reachable.init rfl)
    (by decide :
      frames env0 [[.KEYDOWN false SDL_SCANCODE_I], [.MOUSEMOTION 300 200]]
        { initial with imgs := initial.imgs ++ [7, 8] } = some stateImages)

set_option maxRecDepth 100000 in
/-- Witness of C11 at a state with two published textures, the cursor 0 and
the key I held after a motion to `(300, 200)`. -/
theorem image_placement_guarded_witness :
    Reachable env0 stateImages ∧ (-2 ≤ stateImages.cii ∧ stateImages.cii ≤ 6) ∧
    stateImages.imgs.length < 2 ^ 63 ∧ stateImages.ms.typing = false ∧
    ¬ (stateImages.ms.px = stateImages.ms.x ∧ stateImages.ms.py = stateImages.ms.y) ∧
    (
    ((0 ≤ stateImages.cii ∧ stateImages.cii < (stateImages.imgs.length : Int) ∧
      ∃ tex s1 cur, stateImages.imgs[stateImages.cii.toNat]? = some tex ∧
        previewShape env0 { stateImages with preview_requested := true, preview_shape := SDL_SCANCODE_I }
          = some (some
              { x := min stateImages.ms.px stateImages.ms.x, y := min stateImages.ms.py stateImages.ms.y, c := stateImages.cci,
                         m := stateImages.cmi, t := 5,
                         v := .Image |stateImages.ms.px - stateImages.ms.x| |stateImages.ms.py - stateImages.ms.y| tex }) ∧
        frame env0 [.KEYUP SDL_SCANCODE_I 105 false []] stateImages = some s1 ∧
        slotAt stateImages.h stateImages.hi = some cur ∧
        s1.heap = stateImages.heap ++
          [{ x := min stateImages.ms.px stateImages.ms.x, y := min stateImages.ms.py stateImages.ms.y, c := stateImages.cci,
                               m := stateImages.cmi, t := 5,
                               v := .Image |stateImages.ms.px - stateImages.ms.x| |stateImages.ms.py - stateImages.ms.y| tex }] ∧
        slotAt s1.h s1.hi = some (cur ++ [stateImages.heap.length])) ∨
     (¬ (0 ≤ stateImages.cii ∧ stateImages.cii < (stateImages.imgs.length : Int)) ∧
      previewShape env0 { stateImages with preview_requested := true, preview_shape := SDL_SCANCODE_I }
        = some none ∧
      pushToHistory env0 SDL_SCANCODE_I stateImages = some stateImages ∧
      ∃ s1, frame env0 [.KEYUP SDL_SCANCODE_I 105 false []] stateImages = some s1 ∧
        s1.h = stateImages.h ∧ s1.hi = stateImages.hi ∧ s1.hl = stateImages.hl ∧ s1.heap = stateImages.heap)) ∧
    (∀ scancode : Nat, SDL_SCANCODE_KP_1 ≤ scancode → scancode ≤ SDL_SCANCODE_KP_9 →
      -2 ≤ (scancode : Int) - SDL_SCANCODE_KP_1 - 2 ∧
      (scancode : Int) - SDL_SCANCODE_KP_1 - 2 ≤ 6)) :=
  ⟨stateImages_reachable, by decide, by decide, by decide, by decide,
    image_placement_guarded env0 stateImages stateImages_reachable (by decide) (by decide)
      (by decide) (by decide) false []⟩

set_option maxRecDepth 100000 in
theorem stateEmptyText_reachable : Reachable env0 stateEmptyText :=
  Reachable.frames _ Reachable.init (by decide :
    frames env0 [[.KEYDOWN false SDL_SCANCODE_R], [.KEYUP SDL_SCANCODE_R 114 false []],
      [.KEYUP 42 8 false []]] initial = some stateEmptyText)

set_option maxRecDepth 100000 in
/-- C19, the code at the failing input: after a tap of R and one release of
Backspace the editor is in a reachable state that is typing and whose last
shape is a Text with the empty string; the next release of Backspace in that
state is undefined (`pop_back()` on the empty string). -/
theorem backspace_on_empty_string :
    Reachable env0 stateEmptyText ∧ stateEmptyText.ms.typing = true ∧
    current stateEmptyText = some [⟨-15, -30, 3, 0, 5, .Text [] 0 40⟩] ∧
    frame env0 [.KEYUP 42 8 false []] stateEmptyText = none :=
  ⟨stateEmptyText_reachable, by decide, by decide, by decide⟩

set_option maxRecDepth 100000 in
theorem stateTypingEmptyScene_reachable : Reachable env0 stateTypingEmptyScene :=
  Reachable.frames _ Reachable.init (by decide :
    frames env0 [[.KEYDOWN false SDL_SCANCODE_R], [.KEYUP SDL_SCANCODE_R 114 false []],
      [.KEYUP SDL_SCANCODE_DELETE 127 false []]] initial = some stateTypingEmptyScene)

set_option maxRecDepth 100000 in
theorem stateTypingRect_reachable : Reachable env0 stateTypingRect :=
  Reachable.frames _ Reachable.init (by decide :
    frames env0 [[.KEYDOWN false SDL_SCANCODE_R], [.KEYDOWN false 224],
      [.KEYDOWN false SDL_SCANCODE_V], [.MOUSEMOTION 300 200],
      [.KEYUP SDL_SCANCODE_V 118 true [104, 105]],
      [.KEYUP SDL_SCANCODE_R 114 true []]] initial = some stateTypingRect)

set_option maxRecDepth 100000 in
/-- C20, the code at two failing inputs.  After a tap of R and a release of
Delete the editor is in a reachable state that is typing with an empty current
scene, and a text input, a Backspace or a paste in it is undefined (`back()`
on the empty scene).  After a paste with the cursor off the anchor and the
release of a held R the editor is in a reachable state that is typing and
whose last shape is a Rect, and a text input in it is undefined (the Rect is
used as a Text). -/
theorem typing_without_text :
    Reachable env0 stateTypingEmptyScene ∧ stateTypingEmptyScene.ms.typing = true ∧
    current stateTypingEmptyScene = some [] ∧
    frame env0 [.TEXTINPUT [97]] stateTypingEmptyScene = none ∧
    frame env0 [.KEYUP 42 8 false []] stateTypingEmptyScene = none ∧
    frame env0 [.KEYUP SDL_SCANCODE_V 118 true [97]] stateTypingEmptyScene = none ∧
    Reachable env0 stateTypingRect ∧ stateTypingRect.ms.typing = true ∧
    current stateTypingRect
      = some [⟨285, 170, 3, 0, 5, .Text [32, 104, 105] 60 40⟩, ⟨0, 0, 3, 0, 5, .Rect 300 200⟩] ∧
    frame env0 [.TEXTINPUT [97]] stateTypingRect = none :=
  ⟨stateTypingEmptyScene_reachable, by decide, by decide, by decide, by decide, by decide,
    stateTypingRect_reachable, by decide, by decide, by decide⟩

end Paint
